import Mathlib

/-!
# A shallow embedding of the cfitsio block-buffer core (`buffers.c`)

This file models the fixed-pool block cache of `buffers.c`: a global pool of
`NIOBUF` slots of `IOBUFLEN` bytes each, an age index used for LRU victim
selection, per-file cursor state, and the byte/strided transfer engines.
Machine integers are modelled by `Nat` (and `Int` where the C code can go
negative); byte buffers and disk contents are modelled as total functions
`Nat → Nat`.  The platform I/O driver (`ffseek`/`ffread`/`ffwrite`), which is
not part of `buffers.c`, is modelled from the spec as a collaborator that
maintains an OS-level position, supports an error schedule, and records the
sequence of write calls.
-/

namespace Buffers

/-- Number of pool slots (`NIOBUF` in `fitsio2.h`, default 40). -/
def NIOBUF : Nat := 40

/-- Block (logical record) size in bytes (`IOBUFLEN = 2880`). -/
def IOBUFLEN : Nat := 2880

/-- Direct-I/O cutoff (`MINDIRECT = 2 * IOBUFLEN`). -/
def MINDIRECT : Nat := 5760

/-- HDU type codes (`IMAGE_HDU = 0`, `ASCII_TBL = 1`, `BINARY_TBL = 2`). -/
def IMAGE_HDU : Nat := 0

def ASCII_TBL : Nat := 1

def BINARY_TBL : Nat := 2

/-- `err_mode` value: report EOF as an error (`REPORT_EOF = 0`). -/
def REPORT_EOF : Nat := 0

/-- `err_mode` value: ignore EOF (`IGNORE_EOF = 1`). -/
def IGNORE_EOF : Nat := 1

/-- Error code: too many open files (selector found no victim). -/
def TOO_MANY_FILES : Nat := 103

/-- Error code: a collaborator write reported failure. -/
def WRITE_ERROR : Nat := 106

/-- Error code: load of a block at or beyond `logfilesize` with `REPORT_EOF`. -/
def END_OF_FILE : Nat := 107

/-- Error code: `ffmbyt` with a negative byte position. -/
def NEG_FILE_POS : Nat := 304

/-- Error code: table helper called with a non-positive row number. -/
def BAD_ROW_NUM : Nat := 307

/-- Error code: table helper called with a non-positive element number. -/
def BAD_ELEM_NUM : Nat := 308

/-- Per-file state (the fields of `FITSfile` that `buffers.c` touches).
`typecode` stands for the HDU column type that the collaborator `ffgtcl`
reports for image pixels (modelled from the spec: bytes-per-pixel is
`typecode / 10`). -/
structure FITSfile where
  bytepos : Nat
  io_pos : Nat
  filesize : Nat
  logfilesize : Nat
  curbuf : Int
  hdutype : Nat
  rowlength : Nat
  numrows : Nat
  datastart : Nat
  typecode : Nat
deriving DecidableEq

/-- The global cache state: the pool arrays of `buffers.c`, the per-file
states, and the collaborator-visible world (per-file disk contents and
length, the OS-level file position, the status variable, the schedule of
write errors to inject, and the log of write calls the driver has seen). -/
structure CacheState where
  iobuffer : Nat → Nat → Nat
  bufptr : Nat → Option Nat
  bufrecnum : Nat → Nat
  dirty : Nat → Bool
  ageindex : List Nat
  ageinit : Bool
  files : Nat → FITSfile
  disk : Nat → Nat → Nat
  disklen : Nat → Nat
  ospos : Nat → Nat
  stat : Nat
  werr : List Bool
  wlog : List (Nat × Nat × Nat)

/-- Point update of a function out of `Nat`. -/
def updf {α : Type} (f : Nat → α) (i : Nat) (v : α) : Nat → α :=
  fun j => if j = i then v else f j

/-- Overwrite `n` bytes of `f` starting at `a` with `d 0, d 1, ...`
(the model of `memcpy`). -/
def ovw (f : Nat → Nat) (a n : Nat) (d : Nat → Nat) : Nat → Nat :=
  fun i => if a ≤ i ∧ i < a + n then d (i - a) else f i

/-- Update the state of file `f`. -/
def updFile (st : CacheState) (f : Nat) (g : FITSfile → FITSfile) : CacheState :=
  { st with files := fun j => if j = f then g (st.files j) else st.files j }

@[simp] theorem updf_eval {α : Type} (f : Nat → α) (i : Nat) (v : α) (j : Nat) :
    updf f i v j = if j = i then v else f j := rfl

@[simp] theorem updFile_files (st : CacheState) (f : Nat) (g : FITSfile → FITSfile) (j : Nat) :
    (updFile st f g).files j = if j = f then g (st.files j) else st.files j := rfl

/-! ## The platform I/O driver, modelled from the spec

`ffseek`, `ffread`, `ffwrite` and `ffflushx` are not part of `buffers.c`.
Modelled from the spec: the driver maintains the OS-level file position;
`write` transfers bytes at that position and extends the file length;
`read` transfers bytes from that position; any call short-circuits when the
caller-visible status is already non-zero, and a failing write surfaces as
an `IoError` status passed through unchanged. -/

/-- Modelled from the spec: driver `seek(file, offset)`. -/
def ffseek (st : CacheState) (f : Nat) (pos : Nat) : CacheState :=
  { st with ospos := updf st.ospos f pos }

/-- Modelled from the spec: driver `write(file, n, src)`.  Writes `n` bytes
at the OS position, advances it, extends the physical length, appends the
call to the write log; consumes the error schedule, and on an injected
failure writes nothing and reports `WRITE_ERROR`.  A call with a non-zero
entry status is a no-op (status short-circuiting). -/
def ffwrite (st : CacheState) (f : Nat) (n : Nat) (src : Nat → Nat) : CacheState :=
  if st.stat > 0 then st
  else
    match st.werr with
    | true :: rest => { st with stat := WRITE_ERROR, werr := rest }
    | rest =>
      let p := st.ospos f
      { st with
        disk := fun g i => if g = f ∧ p ≤ i ∧ i < p + n then src (i - p) else st.disk g i,
        disklen := updf st.disklen f (max (st.disklen f) (p + n)),
        ospos := updf st.ospos f (p + n),
        werr := rest.tail,
        wlog := st.wlog ++ [(f, p, n)] }

/-- Modelled from the spec: the bytes that driver `read(file, n, dst)` would
deliver, starting at the current OS position. -/
def readData (st : CacheState) (f : Nat) : Nat → Nat :=
  fun j => st.disk f (st.ospos f + j)

/-- Modelled from the spec: the state change of driver `read(file, n, dst)`:
the OS position advances by `n`.  A call with a non-zero entry status is a
no-op. -/
def ffreadAdv (st : CacheState) (f : Nat) (n : Nat) : CacheState :=
  if st.stat > 0 then st
  else { st with ospos := updf st.ospos f (st.ospos f + n) }

/-- Modelled from the spec: driver `read` of one block into pool slot
`nbuff` (the only way `buffers.c` reads).  On a non-zero entry status the
slot is left unchanged. -/
def ffreadSlot (st : CacheState) (f : Nat) (nbuff : Nat) : CacheState :=
  if st.stat > 0 then st
  else
    let dat := readData st f
    let st := ffreadAdv st f IOBUFLEN
    { st with iobuffer := updf st.iobuffer nbuff (ovw (st.iobuffer nbuff) 0 IOBUFLEN dat) }

/-! ## Victim selector (`ffwhbf`) -/

/-- A slot is eligible for reuse when it is empty or is not the current
buffer (`curbuf`) of its owning file — the loop condition of `ffwhbf`. -/
def unpinned (st : CacheState) (i : Nat) : Bool :=
  match st.bufptr i with
  | none => true
  | some g => decide ((st.files g).curbuf ≠ (i : Int))

/-- The age index `ffwhbf` traverses: the identity permutation on the first
call (the `static` one-time initialisation), the stored index afterwards. -/
def effAge (st : CacheState) : List Nat :=
  if st.ageinit then st.ageindex else List.range NIOBUF

/-- `ffwhbf`: decide which buffer to (re)use.  Traverses the age index from
oldest to youngest and returns the first eligible slot; if none is eligible
it returns the requesting file's own `curbuf` (which is `-1` when the file
has no current buffer). -/
def ffwhbf (st : CacheState) (f : Nat) : CacheState × Int :=
  let st' := { st with ageindex := effAge st, ageinit := true }
  match (effAge st).find? (fun i => unpinned st i) with
  | some i => (st', (i : Int))
  | none => (st', (st.files f).curbuf)

/-! ## Writeback (`ffbfwt`) -/

/-- The inner scan of `ffbfwt`'s extension loop: among all slots owned by
`F` with record number in `[minrec, irec0)`, find the one with the lowest
record number, starting from the candidate `(irec0, ibuff0)`. -/
def selectMin (st : CacheState) (F : Nat) (minrec irec0 ibuff0 : Nat) : Nat × Nat :=
  (List.range NIOBUF).foldl
    (fun p ii =>
      if st.bufptr ii = some F ∧ minrec ≤ st.bufrecnum ii ∧ st.bufrecnum ii < p.1
      then (st.bufrecnum ii, ii) else p)
    (irec0, ibuff0)

/-- Append `k` zero-filled blocks at the OS position (the fill loop of
`ffbfwt`). -/
def writeZeros (st : CacheState) (F : Nat) : Nat → CacheState
  | 0 => st
  | k + 1 => writeZeros (ffwrite st F IOBUFLEN (fun _ => 0)) F k

/-- Set the `filesize` of file `F`. -/
def setFilesize (st : CacheState) (F : Nat) (v : Nat) : CacheState :=
  updFile st F (fun fl => { fl with filesize := v })

/-- Set the `io_pos` of file `F`. -/
def setIopos (st : CacheState) (F : Nat) (v : Nat) : CacheState :=
  updFile st F (fun fl => { fl with io_pos := v })

/-- One iteration of `ffbfwt`'s past-EOF extension loop: select the lowest
record of `F` at or beyond `filesize / IOBUFLEN` (falling back to the
requested buffer `nbuff`), append zero-filled gap blocks if that record
starts beyond `filesize`, write the selected buffer, clear its dirty flag
and advance `filesize`.  Returns the new state and the selected slot. -/
def ffbfwtBody (F nbuff : Nat) (st : CacheState) : CacheState × Nat :=
  let minrec := (st.files F).filesize / IOBUFLEN
  let sel := selectMin st F minrec (st.bufrecnum nbuff) nbuff
  let irec := sel.1
  let ibuff := sel.2
  let filepos := irec * IOBUFLEN
  let st1 :=
    if (st.files F).filesize < filepos then
      let st0 := writeZeros st F ((filepos - (st.files F).filesize) / IOBUFLEN)
      setFilesize st0 F filepos
    else st
  let st2 := ffwrite st1 F IOBUFLEN (st1.iobuffer ibuff)
  let st3 := { st2 with dirty := fun j => if j = ibuff then false else st2.dirty j }
  let st4 := setFilesize st3 F ((st3.files F).filesize + IOBUFLEN)
  (st4, ibuff)

/-- The extension loop of `ffbfwt` (`while (ibuff != nbuff)`), with explicit
fuel: repeat `ffbfwtBody` until the requested buffer itself was written. -/
def ffbfwtLoop (F nbuff : Nat) : Nat → CacheState → CacheState
  | 0, st => st
  | fuel + 1, st =>
    let r := ffbfwtBody F nbuff st
    if r.2 = nbuff then r.1 else ffbfwtLoop F nbuff fuel r.1

/-- `ffbfwt`: write the contents of pool slot `nbuff` to disk.  When the
slot's offset is within the file, write it in place (appending when it sits
exactly at EOF); when it lies strictly past EOF, seek to EOF and run the
extension loop, then leave the I/O position at the new EOF.  (The C code
dereferences `bufptr[nbuff]`; a slot with no owner is left untouched here,
a case the theorems exclude by hypothesis.) -/
def ffbfwt (st : CacheState) (nbuff : Nat) : CacheState :=
  match st.bufptr nbuff with
  | none => st
  | some F =>
    let filepos := st.bufrecnum nbuff * IOBUFLEN
    if filepos ≤ (st.files F).filesize then
      let st1 := if (st.files F).io_pos ≠ filepos then ffseek st F filepos else st
      let st2 := ffwrite st1 F IOBUFLEN (st1.iobuffer nbuff)
      let st3 := setIopos st2 F (filepos + IOBUFLEN)
      let st4 :=
        if filepos = (st3.files F).filesize then
          setFilesize st3 F ((st3.files F).filesize + IOBUFLEN)
        else st3
      { st4 with dirty := fun j => if j = nbuff then false else st4.dirty j }
    else
      let st1 :=
        if (st.files F).io_pos ≠ (st.files F).filesize then
          ffseek st F (st.files F).filesize
        else st
      let st2 := ffbfwtLoop F nbuff (st.bufrecnum nbuff + 1) st1
      setIopos st2 F ((st2.files F).filesize)

/-! ## Block loader (`ffldrc`) -/

/-- The hit scan of `ffldrc`: search the age index from youngest to oldest
for a slot already holding `(f, record)`; return its position in the age
index together with the slot number. -/
def hitScan (st : CacheState) (f : Nat) (record : Nat) : Option (Nat × Nat) :=
  (List.range NIOBUF).reverse.findSome? (fun ib =>
    let nb := st.ageindex.getD ib 0
    if st.bufptr nb = some f ∧ st.bufrecnum nb = record then some (ib, nb) else none)

/-- Move the element at position `p` of the age index to the youngest end
(the shift loop at `updatebuf`); when `p` is out of range the last entry is
simply overwritten by `n`, as in the C code. -/
def ageMove (age : List Nat) (p : Nat) (n : Nat) : List Nat :=
  if p < age.length then age.take p ++ age.drop (p + 1) ++ [n]
  else age.take (age.length - 1) ++ [n]

/-- The tail of `ffldrc` (label `updatebuf`): make `nbuff` the current
buffer of `f` and the youngest entry of the age index.  `agepos?` is the
position in the age index when the hit scan already knows it. -/
def adoptBuf (st : CacheState) (f : Nat) (nbuff : Nat) (agepos? : Option Nat) : CacheState :=
  let st := updFile st f (fun fl => { fl with curbuf := (nbuff : Int) })
  let p := match agepos? with
    | some p => p
    | none => st.ageindex.indexOf nbuff
  { st with ageindex := ageMove st.ageindex p nbuff }

/-- The past-physical-EOF branch of `ffldrc`'s miss path: initialise the
slot with the HDU fill value, extend `logfilesize`, mark the slot dirty. -/
def ffldrcFill (st : CacheState) (f nbuff record : Nat) : CacheState :=
  let fill := if (st.files f).hdutype = ASCII_TBL then 32 else 0
  let st1 := { st with iobuffer := updf st.iobuffer nbuff (fun _ => fill) }
  let st2 := updFile st1 f (fun fl =>
    { fl with logfilesize := max fl.logfilesize (record * IOBUFLEN + IOBUFLEN) })
  { st2 with dirty := fun j => if j = nbuff then true else st2.dirty j }

/-- The within-file branch of `ffldrc`'s miss path: seek if needed, read the
record from disk into the slot, and advance `io_pos`. -/
def ffldrcRead (st : CacheState) (f nbuff record : Nat) : CacheState :=
  let st1 :=
    if (st.files f).io_pos ≠ record * IOBUFLEN then ffseek st f (record * IOBUFLEN) else st
  let st2 := ffreadSlot st1 f nbuff
  setIopos st2 f (record * IOBUFLEN + IOBUFLEN)

/-- The miss path of `ffldrc` once a victim `nbuff` is chosen: write it back
if dirty, fill or read the new record, retag the slot, and adopt it. -/
def ffldrcMiss (st : CacheState) (f nbuff record : Nat) : CacheState :=
  let st2 := if st.dirty nbuff then ffbfwt st nbuff else st
  let st3 :=
    if (st2.files f).filesize ≤ record * IOBUFLEN then ffldrcFill st2 f nbuff record
    else ffldrcRead st2 f nbuff record
  let st4 := { st3 with
    bufptr := updf st3.bufptr nbuff (some f),
    bufrecnum := updf st3.bufrecnum nbuff record }
  adoptBuf st4 f nbuff none

/-- `ffldrc`: ensure `record` of file `f` is resident and current.  Hit
path: adopt the existing slot.  Otherwise: report EOF when requested and
the record is at or beyond `logfilesize`; pick a victim (surfacing
`TOO_MANY_FILES` when there is none); then run the miss path. -/
def ffldrc (st : CacheState) (f : Nat) (record : Nat) (err_mode : Nat) : CacheState :=
  match hitScan st f record with
  | some hit => adoptBuf st f hit.2 (some hit.1)
  | none =>
    if err_mode = 0 ∧ (st.files f).logfilesize ≤ record * IOBUFLEN then
      { st with stat := END_OF_FILE }
    else
      let w := ffwhbf st f
      if w.2 < 0 then { w.1 with stat := TOO_MANY_FILES }
      else ffldrcMiss w.1 f (w.2.toNat) record

/-! ## Byte cursor (`ffmbyt`) -/

/-- `ffmbyt`: move the logical byte cursor of `f` to `bytepos`.  Fails with
`NEG_FILE_POS` on a negative position; loads the target record only when it
differs from the record number recorded in the file's current buffer slot;
on success stores the new position. -/
def ffmbyt (st : CacheState) (f : Nat) (bytepos : Int) (err_mode : Nat) : CacheState :=
  if st.stat > 0 then st
  else if bytepos < 0 then { st with stat := NEG_FILE_POS }
  else
    let bp := bytepos.toNat
    let record := bp / IOBUFLEN
    let st1 :=
      if record ≠ st.bufrecnum ((st.files f).curbuf.toNat) then
        ffldrc st f record err_mode
      else st
    if st1.stat = 0 then updFile st1 f (fun fl => { fl with bytepos := bp }) else st1

end Buffers

namespace Buffers

/-! ## Byte transfer engine (`ffpbyt` / `ffgbyt`) -/

/-- Copy `len` bytes of `d` into pool slot `b` starting at in-slot offset
`off` (a `memcpy` into an I/O buffer). -/
def slotWrite (st : CacheState) (b off len : Nat) (d : Nat → Nat) : CacheState :=
  { st with iobuffer := updf st.iobuffer b (ovw (st.iobuffer b) off len d) }

/-- Mark slot `b` dirty. -/
def setDirty (st : CacheState) (b : Nat) : CacheState :=
  { st with dirty := fun j => if j = b then true else st.dirty j }

/-- The small-transfer loop of `ffpbyt`: repeatedly copy up to the end of
the current block into the current buffer, mark it dirty, and load the next
record (`IGNORE_EOF`) while bytes remain.  `co` is the offset consumed from
the user buffer; the fuel bounds the iteration count. -/
def ffpbytSmall (f : Nat) (src : Nat → Nat) :
    Nat → CacheState → Nat → Nat → Nat → Nat → CacheState
  | 0, st, _, _, _, _ => st
  | fuel + 1, st, bufpos, nspace, co, ntodo =>
    if ntodo = 0 then st
    else
      let cb := ((st.files f).curbuf).toNat
      let nwrite := min ntodo nspace
      let st1 := slotWrite st cb bufpos nwrite (fun j => src (co + j))
      let st2 := updFile st1 f (fun fl => { fl with bytepos := fl.bytepos + nwrite })
      let st3 := setDirty st2 cb
      if ntodo - nwrite = 0 then st3
      else
        let st4 := ffldrc st3 f ((st3.files f).bytepos / IOBUFLEN) IGNORE_EOF
        ffpbytSmall f src fuel st4 0 IOBUFLEN (co + nwrite) (ntodo - nwrite)

/-- The "flush any affected buffers" loop of `ffpbyt`'s direct path: every
slot of `f` with a record in `[recstart, recend]` is written back if dirty
and then disassociated. -/
def flushRange (st : CacheState) (f recstart recend : Nat) : CacheState :=
  (List.range NIOBUF).foldl
    (fun s ii =>
      if s.bufptr ii = some f ∧ recstart ≤ s.bufrecnum ii ∧ s.bufrecnum ii ≤ recend then
        let s1 := if s.dirty ii then ffbfwt s ii else s
        { s1 with bufptr := updf s1.bufptr ii none }
      else s) st

/-- The tail of `ffpbyt`'s direct path after the affected buffers are
flushed: seek, write all complete blocks except the last, then rebuild the
current buffer as the final block (filling or reading it), copy the tail of
the user data into it, retag it, and update `logfilesize` and `bytepos`. -/
def ffpbytLargeEnd (st : CacheState) (f nbuff recend ntodo co filepos : Nat)
    (src : Nat → Nat) : CacheState :=
  let st4 := if (st.files f).io_pos ≠ filepos then ffseek st f filepos else st
  let nwrite := ((ntodo - 1) / IOBUFLEN) * IOBUFLEN
  let st5 := ffwrite st4 f nwrite (fun j => src (co + j))
  let st6 := setIopos st5 f (filepos + nwrite)
  let st7 :=
    if (st6.files f).filesize ≤ (st6.files f).io_pos then
      let s := setFilesize st6 f ((st6.files f).io_pos)
      let fill := if (s.files f).hdutype = ASCII_TBL then 32 else 0
      { s with iobuffer := updf s.iobuffer nbuff (fun _ => fill) }
    else
      let s := ffreadSlot st6 f nbuff
      setIopos s f ((s.files f).io_pos + IOBUFLEN)
  let st8 := slotWrite st7 nbuff 0 (ntodo - nwrite) (fun j => src (co + nwrite + j))
  let st9 := { setDirty st8 nbuff with
    bufrecnum := updf st8.bufrecnum nbuff recend,
    bufptr := updf st8.bufptr nbuff (some f) }
  updFile st9 f (fun fl =>
    { fl with
      logfilesize := max fl.logfilesize ((recend + 1) * IOBUFLEN),
      bytepos := filepos + nwrite + (ntodo - nwrite) })

/-- `ffpbyt`: write `nbytes` bytes at the current file position.  Large
transfers fill the tail of the current buffer, flush and disassociate every
affected buffer of the file, write all complete interior blocks directly,
then rebuild the current buffer as the final partial block.  Small
transfers go through the buffer loop. -/
def ffpbyt (st : CacheState) (f : Nat) (nbytes : Nat) (src : Nat → Nat) : CacheState :=
  if st.stat > 0 then st
  else if MINDIRECT ≤ nbytes then
    let nbuff := ((st.files f).curbuf).toNat
    let filepos := (st.files f).bytepos
    let recstart := st.bufrecnum nbuff
    let recend := (filepos + nbytes - 1) / IOBUFLEN
    let bufpos := filepos - recstart * IOBUFLEN
    let nspace := IOBUFLEN - bufpos
    let head :=
      if nspace ≠ 0 then
        let st1 := slotWrite st nbuff bufpos nspace src
        (setDirty st1 nbuff, nbytes - nspace, nspace, filepos + nspace)
      else (st, nbytes, 0, filepos)
    ffpbytLargeEnd (flushRange head.1 f recstart recend) f nbuff recend
      head.2.1 head.2.2.1 head.2.2.2 src
  else
    let cb := ((st.files f).curbuf).toNat
    let bufpos := (st.files f).bytepos - st.bufrecnum cb * IOBUFLEN
    ffpbytSmall f src nbytes st bufpos (IOBUFLEN - bufpos) 0 nbytes

/-- Driver `read` of `n` bytes into the user's buffer `dst` (used by the
large path of `ffgbyt`); a no-op on a non-zero entry status. -/
def ffreadUser (st : CacheState) (f : Nat) (n : Nat) (dst : Nat → Nat) :
    CacheState × (Nat → Nat) :=
  if st.stat > 0 then (st, dst)
  else (ffreadAdv st f n, ovw dst 0 n (readData st f))

/-- The small-transfer loop of `ffgbyt`: copy from the current buffer into
the user's buffer, loading successive records with `REPORT_EOF`. -/
def ffgbytSmall (f : Nat) :
    Nat → CacheState → Nat → Nat → Nat → Nat → (Nat → Nat) → CacheState × (Nat → Nat)
  | 0, st, _, _, _, _, dst => (st, dst)
  | fuel + 1, st, bufpos, nspace, co, ntodo, dst =>
    if ntodo = 0 then (st, dst)
    else
      let cb := ((st.files f).curbuf).toNat
      let nread := min ntodo nspace
      let dst1 := ovw dst co nread (fun j => st.iobuffer cb (bufpos + j))
      let st1 := updFile st f (fun fl => { fl with bytepos := fl.bytepos + nread })
      if ntodo - nread = 0 then (st1, dst1)
      else
        let st2 := ffldrc st1 f ((st1.files f).bytepos / IOBUFLEN) REPORT_EOF
        ffgbytSmall f fuel st2 0 IOBUFLEN (co + nread) (ntodo - nread) dst1

/-- The "flush any affected buffers" loop of `ffgbyt`'s direct path: dirty
slots of `f` in `[recstart, recend]` are written back, but stay owned. -/
def flushRangeRead (st : CacheState) (f recstart recend : Nat) : CacheState :=
  (List.range NIOBUF).foldl
    (fun s ii =>
      if s.dirty ii ∧ s.bufptr ii = some f ∧
          recstart ≤ s.bufrecnum ii ∧ s.bufrecnum ii ≤ recend then
        ffbfwt s ii
      else s) st

/-- The tail of `ffgbyt`'s direct path: seek, read `nbytes` bytes straight
into the user buffer, and advance `io_pos`. -/
def ffgbytLargeEnd (st : CacheState) (f nbytes filepos : Nat) (dst : Nat → Nat) :
    CacheState × (Nat → Nat) :=
  let st2 := if (st.files f).io_pos ≠ filepos then ffseek st f filepos else st
  let r := ffreadUser st2 f nbytes dst
  (setIopos r.1 f (filepos + nbytes), r.2)

/-- `ffgbyt`: read `nbytes` bytes at the current file position into `dst`.
Large transfers flush (without disassociating) every dirty affected buffer
and read directly from disk; small transfers go through the buffers. -/
def ffgbyt (st : CacheState) (f : Nat) (nbytes : Nat) (dst : Nat → Nat) :
    CacheState × (Nat → Nat) :=
  if st.stat > 0 then (st, dst)
  else if MINDIRECT ≤ nbytes then
    let filepos := (st.files f).bytepos
    let recstart := st.bufrecnum (((st.files f).curbuf).toNat)
    let recend := (filepos + nbytes - 1) / IOBUFLEN
    ffgbytLargeEnd (flushRangeRead st f recstart recend) f nbytes filepos dst
  else
    let cb := ((st.files f).curbuf).toNat
    let bufpos := (st.files f).bytepos - st.bufrecnum cb * IOBUFLEN
    ffgbytSmall f nbytes st bufpos (IOBUFLEN - bufpos) 0 nbytes dst

end Buffers

namespace Buffers

/-! ## Strided transfer engine (`ffpbytoff` / `ffgbytoff`)

The cursor variables mirror the C locals: `bcurrent` is the current slot,
`record` the current record number, `ioOff` the offset of `ioptr` from the
start of the current slot's buffer, `nspace` the (possibly negative)
remaining space, `co` the bytes consumed from the user buffer. -/

/-- The cursor after writing one non-final group (the body of the
`for (ii = 1; ii < ngroups; ...)` loop of `ffpbytoff`). -/
def ffpbytoffStep (f : Nat) (gsize offset : Nat) (src : Nat → Nat)
    (st : CacheState) (bcurrent record : Nat) (nspace ioOff : Int) (co : Nat) :
    CacheState × Nat × Nat × Int × Int × Nat :=
  let nwrite : Int := min (gsize : Int) nspace
  let st1 := slotWrite st bcurrent ioOff.toNat nwrite.toNat (fun j => src (co + j))
  let co1 := co + nwrite.toNat
  let c :=
    if nwrite < (gsize : Int) then
      let st2 := setDirty st1 bcurrent
      let record1 := record + 1
      let st3 := ffldrc st2 f record1 IGNORE_EOF
      let b1 := ((st3.files f).curbuf).toNat
      let nw2 := gsize - nwrite.toNat
      let st4 := slotWrite st3 b1 0 nw2 (fun j => src (co1 + j))
      (st4, b1, record1, ((IOBUFLEN : Int) - offset - nw2 : Int),
        ((offset : Int) + nw2 : Int), co1 + nw2)
    else
      (st1, bcurrent, record, nspace - ((offset : Int) + gsize),
        ioOff + ((offset : Int) + gsize), co1)
  let st' := c.1
  let b' := c.2.1
  let rec' := c.2.2.1
  let nspace' := c.2.2.2.1
  let ioOff' := c.2.2.2.2.1
  let co' := c.2.2.2.2.2
  if nspace' ≤ 0 then
    let stx := setDirty st' b'
    let recx := rec' + (((IOBUFLEN : Int) - nspace').toNat / IOBUFLEN)
    let sty := ffldrc stx f recx IGNORE_EOF
    let bx := ((sty.files f).curbuf).toNat
    let bufpos := (-nspace').toNat % IOBUFLEN
    (sty, bx, recx, ((IOBUFLEN : Int) - bufpos : Int), (bufpos : Int), co')
  else
    (st', b', rec', nspace', ioOff', co')

/-- Iterate `ffpbytoffStep` over the non-final groups. -/
def ffpbytoffLoop (f : Nat) (gsize offset : Nat) (src : Nat → Nat) :
    Nat → CacheState × Nat × Nat × Int × Int × Nat → CacheState × Nat × Nat × Int × Int × Nat
  | 0, c => c
  | k + 1, c =>
    ffpbytoffLoop f gsize offset src k
      (ffpbytoffStep f gsize offset src c.1 c.2.1 c.2.2.1 c.2.2.2.1 c.2.2.2.2.1 c.2.2.2.2.2)

/-- `ffpbytoff`: write `ngroups` groups of `gsize` bytes separated by
`offset` gap bytes, starting at the current position, without re-resolving
the cursor between groups. -/
def ffpbytoff (st : CacheState) (f : Nat) (gsize ngroups offset : Nat) (src : Nat → Nat) :
    CacheState :=
  if st.stat > 0 then st
  else
    let bcurrent := ((st.files f).curbuf).toNat
    let record := st.bufrecnum bcurrent
    let bufpos : Int := ((st.files f).bytepos : Int) - (record : Int) * IOBUFLEN
    let c := ffpbytoffLoop f gsize offset src (ngroups - 1)
      (st, bcurrent, record, ((IOBUFLEN : Int) - bufpos : Int), bufpos, 0)
    let st' := c.1
    let b' := c.2.1
    let rec' := c.2.2.1
    let nspace' := c.2.2.2.1
    let ioOff' := c.2.2.2.2.1
    let co' := c.2.2.2.2.2
    let nwrite : Int := min (gsize : Int) nspace'
    let st1 := slotWrite st' b' ioOff'.toNat nwrite.toNat (fun j => src (co' + j))
    let last :=
      if nwrite < (gsize : Int) then
        let st2 := setDirty st1 b'
        let st3 := ffldrc st2 f (rec' + 1) IGNORE_EOF
        let b1 := ((st3.files f).curbuf).toNat
        (slotWrite st3 b1 0 (gsize - nwrite.toNat) (fun j => src (co' + nwrite.toNat + j)), b1)
      else (st1, b')
    let st4 := setDirty last.1 last.2
    updFile st4 f (fun fl =>
      { fl with bytepos := fl.bytepos + ngroups * gsize + (ngroups - 1) * offset })

/-- The cursor after reading one non-final group (the loop body of
`ffgbytoff`); reads do not mark buffers dirty and load with `REPORT_EOF`. -/
def ffgbytoffStep (f : Nat) (gsize offset : Nat)
    (st : CacheState) (bcurrent record : Nat) (nspace ioOff : Int) (co : Nat)
    (dst : Nat → Nat) :
    CacheState × Nat × Nat × Int × Int × Nat × (Nat → Nat) :=
  let nread : Int := min (gsize : Int) nspace
  let dst1 := ovw dst co nread.toNat (fun j => st.iobuffer bcurrent (ioOff.toNat + j))
  let co1 := co + nread.toNat
  let c :=
    if nread < (gsize : Int) then
      let record1 := record + 1
      let st3 := ffldrc st f record1 REPORT_EOF
      let b1 := ((st3.files f).curbuf).toNat
      let nr2 := gsize - nread.toNat
      let dst2 := ovw dst1 co1 nr2 (fun j => st3.iobuffer b1 j)
      (st3, b1, record1, ((IOBUFLEN : Int) - offset - nr2 : Int),
        ((offset : Int) + nr2 : Int), co1 + nr2, dst2)
    else
      (st, bcurrent, record, nspace - ((offset : Int) + gsize),
        ioOff + ((offset : Int) + gsize), co1, dst1)
  let st' := c.1
  let b' := c.2.1
  let rec' := c.2.2.1
  let nspace' := c.2.2.2.1
  let ioOff' := c.2.2.2.2.1
  let co' := c.2.2.2.2.2.1
  let dst' := c.2.2.2.2.2.2
  if nspace' ≤ 0 then
    let recx := rec' + (((IOBUFLEN : Int) - nspace').toNat / IOBUFLEN)
    let sty := ffldrc st' f recx REPORT_EOF
    let bx := ((sty.files f).curbuf).toNat
    let bufpos := (-nspace').toNat % IOBUFLEN
    (sty, bx, recx, ((IOBUFLEN : Int) - bufpos : Int), (bufpos : Int), co', dst')
  else
    (st', b', rec', nspace', ioOff', co', dst')

/-- Iterate `ffgbytoffStep` over the non-final groups. -/
def ffgbytoffLoop (f : Nat) (gsize offset : Nat) :
    Nat → CacheState × Nat × Nat × Int × Int × Nat × (Nat → Nat) →
    CacheState × Nat × Nat × Int × Int × Nat × (Nat → Nat)
  | 0, c => c
  | k + 1, c =>
    ffgbytoffLoop f gsize offset k
      (ffgbytoffStep f gsize offset c.1 c.2.1 c.2.2.1 c.2.2.2.1 c.2.2.2.2.1
        c.2.2.2.2.2.1 c.2.2.2.2.2.2)

/-- `ffgbytoff`: read `ngroups` groups of `gsize` bytes separated by
`offset` gap bytes into `dst`, starting at the current position. -/
def ffgbytoff (st : CacheState) (f : Nat) (gsize ngroups offset : Nat) (dst : Nat → Nat) :
    CacheState × (Nat → Nat) :=
  if st.stat > 0 then (st, dst)
  else
    let bcurrent := ((st.files f).curbuf).toNat
    let record := st.bufrecnum bcurrent
    let bufpos : Int := ((st.files f).bytepos : Int) - (record : Int) * IOBUFLEN
    let c := ffgbytoffLoop f gsize offset (ngroups - 1)
      (st, bcurrent, record, ((IOBUFLEN : Int) - bufpos : Int), bufpos, 0, dst)
    let st' := c.1
    let b' := c.2.1
    let rec' := c.2.2.1
    let nspace' := c.2.2.2.1
    let ioOff' := c.2.2.2.2.1
    let co' := c.2.2.2.2.2.1
    let dst' := c.2.2.2.2.2.2
    let nread : Int := min (gsize : Int) nspace'
    let dst1 := ovw dst' co' nread.toNat (fun j => st'.iobuffer b' (ioOff'.toNat + j))
    let last :=
      if nread < (gsize : Int) then
        let st3 := ffldrc st' f (rec' + 1) REPORT_EOF
        let b1 := ((st3.files f).curbuf).toNat
        (st3, ovw dst1 (co' + nread.toNat) (gsize - nread.toNat) (fun j => st3.iobuffer b1 j))
      else (st', dst1)
    let st4 := updFile last.1 f (fun fl =>
      { fl with bytepos := fl.bytepos + ngroups * gsize + (ngroups - 1) * offset })
    (st4, last.2)

/-! ## Flush, EOF cleanup, chunk advisor -/

/-- `ffflsh`: write back every dirty buffer of `f`; when `clearbuf` is set,
also disassociate every buffer of `f`.  (`ffflushx`, the system flush,
changes nothing observable in the model.) -/
def ffflsh (st : CacheState) (f : Nat) (clearbuf : Bool) : CacheState :=
  (List.range NIOBUF).foldl
    (fun s ii =>
      if s.bufptr ii = some f then
        let s1 := if s.dirty ii then ffbfwt s ii else s
        if clearbuf then { s1 with bufptr := updf s1.bufptr ii none } else s1
      else s) st

/-- `ffbfeof`: disassociate every buffer of `f` lying at or beyond the
physical EOF. -/
def ffbfeof (st : CacheState) (f : Nat) : CacheState :=
  (List.range NIOBUF).foldl
    (fun s ii =>
      if s.bufptr ii = some f ∧ (s.files f).filesize ≤ s.bufrecnum ii * IOBUFLEN then
        { s with bufptr := updf s.bufptr ii none }
      else s) st

/-- `fits_get_num_files`: the number of distinct files owning at least one
pool slot. -/
def fitsGetNumFiles (st : CacheState) : Nat :=
  ((List.range NIOBUF).filter (fun ii =>
    (st.bufptr ii).isSome &&
      (List.range ii).all (fun jj => !(st.bufptr jj == st.bufptr ii)))).length

/-- `ffgrsz`: the advisory number of pixels (image HDU) or rows (table HDU)
to access at a time.  For images the stride is bytes-per-pixel
(`typecode / 10`, via the `ffgtcl` collaborator); for tables it is the row
length, and only the table branch floors the result at 1. -/
def ffgrsz (st : CacheState) (f : Nat) : Nat :=
  let nfiles := fitsGetNumFiles st
  if (st.files f).hdutype = IMAGE_HDU then
    ((NIOBUF - nfiles) * IOBUFLEN) / ((st.files f).typecode / 10)
  else
    max 1 (((NIOBUF - nfiles) * IOBUFLEN) / (max 1 (st.files f).rowlength))

end Buffers

namespace Buffers

/-! ## Frame lemmas for the primitive operations -/

@[simp] theorem updFile_bufptr (st : CacheState) (f : Nat) (g : FITSfile → FITSfile) :
    (updFile st f g).bufptr = st.bufptr := rfl

@[simp] theorem updFile_bufrecnum (st : CacheState) (f : Nat) (g : FITSfile → FITSfile) :
    (updFile st f g).bufrecnum = st.bufrecnum := rfl

@[simp] theorem updFile_dirty (st : CacheState) (f : Nat) (g : FITSfile → FITSfile) :
    (updFile st f g).dirty = st.dirty := rfl

@[simp] theorem updFile_iobuffer (st : CacheState) (f : Nat) (g : FITSfile → FITSfile) :
    (updFile st f g).iobuffer = st.iobuffer := rfl

@[simp] theorem updFile_ageindex (st : CacheState) (f : Nat) (g : FITSfile → FITSfile) :
    (updFile st f g).ageindex = st.ageindex := rfl

@[simp] theorem updFile_ageinit (st : CacheState) (f : Nat) (g : FITSfile → FITSfile) :
    (updFile st f g).ageinit = st.ageinit := rfl

@[simp] theorem updFile_stat (st : CacheState) (f : Nat) (g : FITSfile → FITSfile) :
    (updFile st f g).stat = st.stat := rfl

@[simp] theorem updFile_disk (st : CacheState) (f : Nat) (g : FITSfile → FITSfile) :
    (updFile st f g).disk = st.disk := rfl

@[simp] theorem updFile_disklen (st : CacheState) (f : Nat) (g : FITSfile → FITSfile) :
    (updFile st f g).disklen = st.disklen := rfl

@[simp] theorem updFile_ospos (st : CacheState) (f : Nat) (g : FITSfile → FITSfile) :
    (updFile st f g).ospos = st.ospos := rfl

@[simp] theorem updFile_werr (st : CacheState) (f : Nat) (g : FITSfile → FITSfile) :
    (updFile st f g).werr = st.werr := rfl

@[simp] theorem updFile_wlog (st : CacheState) (f : Nat) (g : FITSfile → FITSfile) :
    (updFile st f g).wlog = st.wlog := rfl

theorem ffwrite_cases (st : CacheState) (f : Nat) (n : Nat) (src : Nat → Nat) :
    ffwrite st f n src = st ∨
    (st.stat = 0 ∧ ffwrite st f n src = { st with stat := WRITE_ERROR, werr := st.werr.tail }) ∨
    (st.stat = 0 ∧ ffwrite st f n src =
      { st with
        disk := fun g i =>
          if g = f ∧ st.ospos f ≤ i ∧ i < st.ospos f + n then src (i - st.ospos f)
          else st.disk g i,
        disklen := updf st.disklen f (max (st.disklen f) (st.ospos f + n)),
        ospos := updf st.ospos f (st.ospos f + n),
        werr := st.werr.tail,
        wlog := st.wlog ++ [(f, st.ospos f, n)] }) := by
  unfold ffwrite
  by_cases h : st.stat > 0
  · exact Or.inl (by simp [h])
  · have h0 : st.stat = 0 := Nat.eq_zero_of_not_pos h
    cases hw : st.werr with
    | nil => exact Or.inr (Or.inr ⟨h0, by simp [h, hw]⟩)
    | cons b rest =>
      cases b with
      | true => exact Or.inr (Or.inl ⟨h0, by simp [h, hw]⟩)
      | false => exact Or.inr (Or.inr ⟨h0, by simp [h, hw]⟩)

@[simp] theorem ffwrite_bufptr (st : CacheState) (f : Nat) (n : Nat) (src : Nat → Nat) :
    (ffwrite st f n src).bufptr = st.bufptr := by
  rcases ffwrite_cases st f n src with h | ⟨_, h⟩ | ⟨_, h⟩ <;> rw [h]

@[simp] theorem ffwrite_bufrecnum (st : CacheState) (f : Nat) (n : Nat) (src : Nat → Nat) :
    (ffwrite st f n src).bufrecnum = st.bufrecnum := by
  rcases ffwrite_cases st f n src with h | ⟨_, h⟩ | ⟨_, h⟩ <;> rw [h]

@[simp] theorem ffwrite_dirty (st : CacheState) (f : Nat) (n : Nat) (src : Nat → Nat) :
    (ffwrite st f n src).dirty = st.dirty := by
  rcases ffwrite_cases st f n src with h | ⟨_, h⟩ | ⟨_, h⟩ <;> rw [h]

@[simp] theorem ffwrite_iobuffer (st : CacheState) (f : Nat) (n : Nat) (src : Nat → Nat) :
    (ffwrite st f n src).iobuffer = st.iobuffer := by
  rcases ffwrite_cases st f n src with h | ⟨_, h⟩ | ⟨_, h⟩ <;> rw [h]

@[simp] theorem ffwrite_ageindex (st : CacheState) (f : Nat) (n : Nat) (src : Nat → Nat) :
    (ffwrite st f n src).ageindex = st.ageindex := by
  rcases ffwrite_cases st f n src with h | ⟨_, h⟩ | ⟨_, h⟩ <;> rw [h]

@[simp] theorem ffwrite_ageinit (st : CacheState) (f : Nat) (n : Nat) (src : Nat → Nat) :
    (ffwrite st f n src).ageinit = st.ageinit := by
  rcases ffwrite_cases st f n src with h | ⟨_, h⟩ | ⟨_, h⟩ <;> rw [h]

@[simp] theorem ffwrite_files (st : CacheState) (f : Nat) (n : Nat) (src : Nat → Nat) :
    (ffwrite st f n src).files = st.files := by
  rcases ffwrite_cases st f n src with h | ⟨_, h⟩ | ⟨_, h⟩ <;> rw [h]

theorem ffwrite_stat (st : CacheState) (f : Nat) (n : Nat) (src : Nat → Nat) :
    (ffwrite st f n src).stat = st.stat ∨ (ffwrite st f n src).stat = WRITE_ERROR := by
  rcases ffwrite_cases st f n src with h | ⟨_, h⟩ | ⟨_, h⟩ <;> rw [h] <;> simp

@[simp] theorem ffseek_frame (st : CacheState) (f : Nat) (pos : Nat) :
    (ffseek st f pos).bufptr = st.bufptr ∧ (ffseek st f pos).bufrecnum = st.bufrecnum ∧
    (ffseek st f pos).dirty = st.dirty ∧ (ffseek st f pos).iobuffer = st.iobuffer ∧
    (ffseek st f pos).ageindex = st.ageindex ∧ (ffseek st f pos).ageinit = st.ageinit ∧
    (ffseek st f pos).files = st.files ∧ (ffseek st f pos).stat = st.stat ∧
    (ffseek st f pos).disk = st.disk ∧ (ffseek st f pos).wlog = st.wlog :=
  ⟨rfl, rfl, rfl, rfl, rfl, rfl, rfl, rfl, rfl, rfl⟩

theorem ffreadAdv_frame (st : CacheState) (f : Nat) (n : Nat) :
    (ffreadAdv st f n).bufptr = st.bufptr ∧ (ffreadAdv st f n).bufrecnum = st.bufrecnum ∧
    (ffreadAdv st f n).dirty = st.dirty ∧ (ffreadAdv st f n).iobuffer = st.iobuffer ∧
    (ffreadAdv st f n).ageindex = st.ageindex ∧ (ffreadAdv st f n).ageinit = st.ageinit ∧
    (ffreadAdv st f n).files = st.files ∧ (ffreadAdv st f n).stat = st.stat ∧
    (ffreadAdv st f n).disk = st.disk ∧ (ffreadAdv st f n).wlog = st.wlog := by
  unfold ffreadAdv; split <;> exact ⟨rfl, rfl, rfl, rfl, rfl, rfl, rfl, rfl, rfl, rfl⟩

theorem ffreadSlot_frame (st : CacheState) (f : Nat) (nbuff : Nat) :
    (ffreadSlot st f nbuff).bufptr = st.bufptr ∧
    (ffreadSlot st f nbuff).bufrecnum = st.bufrecnum ∧
    (ffreadSlot st f nbuff).dirty = st.dirty ∧
    (ffreadSlot st f nbuff).ageindex = st.ageindex ∧
    (ffreadSlot st f nbuff).ageinit = st.ageinit ∧
    (ffreadSlot st f nbuff).files = st.files ∧
    (ffreadSlot st f nbuff).stat = st.stat ∧
    (ffreadSlot st f nbuff).disk = st.disk ∧
    (ffreadSlot st f nbuff).wlog = st.wlog := by
  unfold ffreadSlot ffreadAdv
  split
  · exact ⟨rfl, rfl, rfl, rfl, rfl, rfl, rfl, rfl, rfl⟩
  · rename_i h
    simp [h]

/-! ## Concrete states for witnesses and counterexamples -/

/-- The zero file state (a freshly calloc-ed `FITSfile`). -/
def file0 : FITSfile :=
  { bytepos := 0, io_pos := 0, filesize := 0, logfilesize := 0, curbuf := 0,
    hdutype := 0, rowlength := 0, numrows := 0, datastart := 0, typecode := 0 }

/-- The process-start state of the C module: all pool arrays zero-initialised
(`iobuffer`, `bufptr`, `bufrecnum`, `dirty`, and in particular the age index,
whose one-time initialisation has not yet run). -/
def initState : CacheState :=
  { iobuffer := fun _ _ => 0, bufptr := fun _ => none, bufrecnum := fun _ => 0,
    dirty := fun _ => false, ageindex := List.replicate NIOBUF 0, ageinit := false,
    files := fun _ => file0, disk := fun _ _ => 0, disklen := fun _ => 0,
    ospos := fun _ => 0, stat := 0, werr := [], wlog := [] }

end Buffers

namespace Buffers

/-! ## Claim C10: `ffmbyt` with a matching current-record guard -/

/-- C10.  For every file `f`, position `pos ≥ 0` and clean entry status:
whenever `pos / IOBUFLEN` equals the record number recorded in the slot
`f.curbuf`, `ffmbyt` performs no load and mutates no pool slot — the entire
resulting state equals the input state with only `f.bytepos` set to `pos`.
No ownership hypothesis appears, so this holds even when that slot's owner
is no longer `f` (e.g. after `ffflsh(f, true)` disassociated it). -/
theorem ffmbyt_noload_frame (st : CacheState) (f : Nat) (pos : Int) (err_mode : Nat)
    (hstat : st.stat = 0) (hpos : 0 ≤ pos)
    (hrec : pos.toNat / IOBUFLEN = st.bufrecnum (((st.files f).curbuf).toNat)) :
    ffmbyt st f pos err_mode =
      updFile st f (fun fl => { fl with bytepos := pos.toNat }) := by
  unfold ffmbyt
  rw [if_neg (by omega), if_neg (by omega)]
  simp only [hrec, ne_eq, not_true_eq_false, reduceIte, hstat, if_pos rfl]

/-- Witness for C10 at a concrete state. -/
theorem ffmbyt_noload_frame_witness :
    initState.stat = 0 ∧ (0 : Int) ≤ 100 ∧
      (100 : Int).toNat / IOBUFLEN =
        initState.bufrecnum (((initState.files 0).curbuf).toNat) ∧
      ffmbyt initState 0 100 IGNORE_EOF =
        updFile initState 0 (fun fl => { fl with bytepos := (100 : Int).toNat }) :=
  ⟨rfl, by decide, by decide,
    ffmbyt_noload_frame initState 0 100 IGNORE_EOF rfl (by decide) (by decide)⟩

end Buffers

namespace Buffers

/-! ## Claim C5: the victim selector -/

theorem find?_split {α : Type} (p : α → Bool) (l : List α) (a : α)
    (h : l.find? p = some a) :
    ∃ l1 l2, l = l1 ++ a :: l2 ∧ (∀ x ∈ l1, p x = false) ∧ p a = true := by
  induction l with
  | nil => simp at h
  | cons b t ih =>
    by_cases hb : p b = true
    · rw [List.find?_cons_of_pos _ hb] at h
      obtain rfl : b = a := by injection h
      exact ⟨[], t, rfl, by simp, hb⟩
    · rw [List.find?_cons_of_neg _ hb] at h
      obtain ⟨l1, l2, rfl, h1, h2⟩ := ih h
      refine ⟨b :: l1, l2, rfl, ?_, h2⟩
      intro x hx
      rcases List.mem_cons.mp hx with rfl | hx'
      · exact Bool.eq_false_iff.mpr hb
      · exact h1 x hx'

theorem find?_of_mem {α : Type} (p : α → Bool) (l : List α) (a : α)
    (ha : a ∈ l) (hp : p a = true) : ∃ b, l.find? p = some b := by
  induction l with
  | nil => simp at ha
  | cons b t ih =>
    by_cases hb : p b = true
    · exact ⟨b, List.find?_cons_of_pos _ hb⟩
    · rw [List.find?_cons_of_neg _ hb]
      rcases List.mem_cons.mp ha with rfl | h
      · exact absurd hp hb
      · exact ih h

/-- C5.  `ffwhbf` traverses the age index from oldest to youngest and
returns the first slot that is empty or not the `curbuf` of its owning file
(`unpinned`); if every slot is pinned it returns the requesting file's own
`curbuf`; and when that is negative (no current buffer), `ffldrc` surfaces
the result as `TOO_MANY_FILES`. -/
theorem ffwhbf_victim_spec (st : CacheState) (f : Nat) :
    ((∃ i ∈ effAge st, unpinned st i = true) →
      ∃ l1 i l2, effAge st = l1 ++ i :: l2 ∧ unpinned st i = true ∧
        (∀ j ∈ l1, unpinned st j = false) ∧ (ffwhbf st f).2 = (i : Int))
    ∧ ((∀ i ∈ effAge st, unpinned st i = false) →
      (ffwhbf st f).2 = (st.files f).curbuf)
    ∧ (∀ record err_mode,
      hitScan st f record = none →
      record * IOBUFLEN < (st.files f).logfilesize →
      (ffwhbf st f).2 < 0 →
      (ffldrc st f record err_mode).stat = TOO_MANY_FILES) := by
  refine ⟨?_, ?_, ?_⟩
  · rintro ⟨i, hi, hp⟩
    obtain ⟨b, hb⟩ := find?_of_mem _ _ i hi hp
    obtain ⟨l1, l2, heq, h1, h2⟩ := find?_split _ _ b hb
    refine ⟨l1, b, l2, heq, h2, h1, ?_⟩
    unfold ffwhbf
    rw [hb]
  · intro hall
    unfold ffwhbf
    rw [List.find?_eq_none.mpr (fun x hx => by simp [hall x hx])]
  · intro record err_mode hscan hlt hneg
    unfold ffldrc
    rw [hscan]
    simp only
    rw [if_neg (by omega), if_pos hneg]

/-- A state in which all 40 slots are pinned: file `i` owns slot `i` and has
`curbuf = i`; file 40 owns nothing and has no current buffer. -/
def stPin : CacheState :=
  { initState with
    bufptr := fun i => if i < NIOBUF then some i else none,
    files := fun g =>
      if g < NIOBUF then { file0 with curbuf := (g : Int), logfilesize := IOBUFLEN }
      else { file0 with curbuf := -1, logfilesize := IOBUFLEN },
    ageindex := List.range NIOBUF,
    ageinit := true }

/-- Witness for C5: in `stPin` every slot is pinned, so the selector falls
back to the requesting file's `curbuf` (here `-1`), and the loader surfaces
`TOO_MANY_FILES`. -/
theorem ffwhbf_victim_spec_witness :
    (ffwhbf stPin 40).2 = (stPin.files 40).curbuf ∧
    (ffldrc stPin 40 0 REPORT_EOF).stat = TOO_MANY_FILES :=
  ⟨(ffwhbf_victim_spec stPin 40).2.1 (by decide),
   (ffwhbf_victim_spec stPin 40).2.2 0 REPORT_EOF (by decide) (by decide) (by decide)⟩

end Buffers

namespace Buffers

/-! ## A frame relation for the writeback protocol -/

/-- What `ffbfwt` on a slot owned by `F` may change: the dirty flags (only
ever cleared), `F`'s `filesize` and `io_pos`, `F`'s disk, the status (only
to a write error) and the driver bookkeeping.  Everything else — the pool
arrays, the age index, every other file and its disk — is untouched. -/
def WBFrame (F : Nat) (st st' : CacheState) : Prop :=
  st'.bufptr = st.bufptr ∧ st'.bufrecnum = st.bufrecnum ∧ st'.iobuffer = st.iobuffer ∧
  st'.ageindex = st.ageindex ∧ st'.ageinit = st.ageinit ∧
  (∀ g, g ≠ F → st'.files g = st.files g ∧ st'.disk g = st.disk g ∧
    st'.disklen g = st.disklen g ∧ st'.ospos g = st.ospos g) ∧
  (∃ fs ip, st'.files F = { st.files F with filesize := fs, io_pos := ip }) ∧
  (∀ j, st'.dirty j = st.dirty j ∨ st'.dirty j = false) ∧
  (st'.stat = st.stat ∨ st'.stat = WRITE_ERROR)

theorem WBFrame.refl (F : Nat) (st : CacheState) : WBFrame F st st :=
  ⟨rfl, rfl, rfl, rfl, rfl, fun _ _ => ⟨rfl, rfl, rfl, rfl⟩,
   ⟨(st.files F).filesize, (st.files F).io_pos, rfl⟩,
   fun _ => Or.inl rfl, Or.inl rfl⟩

theorem WBFrame.trans {F : Nat} {st1 st2 st3 : CacheState}
    (h12 : WBFrame F st1 st2) (h23 : WBFrame F st2 st3) : WBFrame F st1 st3 := by
  obtain ⟨b1, r1, i1, a1, g1, o1, ⟨fs1, ip1, f1⟩, d1, s1⟩ := h12
  obtain ⟨b2, r2, i2, a2, g2, o2, ⟨fs2, ip2, f2⟩, d2, s2⟩ := h23
  refine ⟨b2.trans b1, r2.trans r1, i2.trans i1, a2.trans a1, g2.trans g1, ?_, ?_, ?_, ?_⟩
  · intro g hg
    obtain ⟨x1, y1, z1, w1⟩ := o1 g hg
    obtain ⟨x2, y2, z2, w2⟩ := o2 g hg
    exact ⟨x2.trans x1, y2.trans y1, z2.trans z1, w2.trans w1⟩
  · exact ⟨fs2, ip2, by rw [f2, f1]⟩
  · intro j
    rcases d2 j with h | h
    · rw [h]; exact d1 j
    · exact Or.inr h
  · rcases s2 with h | h
    · rw [h]; exact s1
    · exact Or.inr h

theorem wb_ffwrite (F : Nat) (st : CacheState) (n : Nat) (src : Nat → Nat) :
    WBFrame F st (ffwrite st F n src) := by
  rcases ffwrite_cases st F n src with h | ⟨_, h⟩ | ⟨_, h⟩ <;> rw [h]
  · exact WBFrame.refl F st
  · exact ⟨rfl, rfl, rfl, rfl, rfl, fun _ _ => ⟨rfl, rfl, rfl, rfl⟩,
      ⟨(st.files F).filesize, (st.files F).io_pos, rfl⟩, fun _ => Or.inl rfl, Or.inr rfl⟩
  · refine ⟨rfl, rfl, rfl, rfl, rfl, ?_,
      ⟨(st.files F).filesize, (st.files F).io_pos, rfl⟩, fun _ => Or.inl rfl, Or.inl rfl⟩
    intro g hg
    refine ⟨rfl, ?_, ?_, ?_⟩
    · funext i; simp [hg]
    · simp [updf, hg]
    · simp [updf, hg]

theorem wb_ffseek (F : Nat) (st : CacheState) (p : Nat) :
    WBFrame F st (ffseek st F p) := by
  refine ⟨rfl, rfl, rfl, rfl, rfl, ?_,
    ⟨(st.files F).filesize, (st.files F).io_pos, rfl⟩, fun _ => Or.inl rfl, Or.inl rfl⟩
  intro g hg
  exact ⟨rfl, rfl, rfl, by simp [ffseek, updf, hg]⟩

theorem wb_setFilesize (F : Nat) (st : CacheState) (v : Nat) :
    WBFrame F st (setFilesize st F v) := by
  refine ⟨rfl, rfl, rfl, rfl, rfl, ?_, ?_, fun _ => Or.inl rfl, Or.inl rfl⟩
  · intro g hg
    refine ⟨?_, rfl, rfl, rfl⟩
    simp [setFilesize, hg]
  · exact ⟨v, (st.files F).io_pos, by simp [setFilesize]⟩

theorem wb_setIopos (F : Nat) (st : CacheState) (v : Nat) :
    WBFrame F st (setIopos st F v) := by
  refine ⟨rfl, rfl, rfl, rfl, rfl, ?_, ?_, fun _ => Or.inl rfl, Or.inl rfl⟩
  · intro g hg
    refine ⟨?_, rfl, rfl, rfl⟩
    simp [setIopos, hg]
  · exact ⟨(st.files F).filesize, v, by simp [setIopos]⟩

theorem wb_clearDirty (F : Nat) (st : CacheState) (b : Nat) :
    WBFrame F st { st with dirty := fun j => if j = b then false else st.dirty j } := by
  refine ⟨rfl, rfl, rfl, rfl, rfl, fun _ _ => ⟨rfl, rfl, rfl, rfl⟩,
    ⟨(st.files F).filesize, (st.files F).io_pos, rfl⟩, ?_, Or.inl rfl⟩
  intro j
  by_cases hj : j = b <;> simp [hj]

theorem wb_writeZeros (F : Nat) (k : Nat) :
    ∀ st : CacheState, WBFrame F st (writeZeros st F k) := by
  induction k with
  | zero => intro st; exact WBFrame.refl F st
  | succ m ih =>
    intro st
    exact (wb_ffwrite F st IOBUFLEN (fun _ => 0)).trans (ih _)

theorem wb_ffbfwtBody (F nbuff : Nat) (st : CacheState) :
    WBFrame F st (ffbfwtBody F nbuff st).1 := by
  unfold ffbfwtBody
  dsimp only
  refine WBFrame.trans ?_ (wb_setFilesize F _ _)
  refine WBFrame.trans ?_ (wb_clearDirty F _ _)
  refine WBFrame.trans ?_ (wb_ffwrite F _ IOBUFLEN _)
  split
  · exact (wb_writeZeros F _ st).trans (wb_setFilesize F _ _)
  · exact WBFrame.refl F st

theorem wb_ffbfwtLoop (F nbuff : Nat) (fuel : Nat) :
    ∀ st : CacheState, WBFrame F st (ffbfwtLoop F nbuff fuel st) := by
  induction fuel with
  | zero => intro st; exact WBFrame.refl F st
  | succ m ih =>
    intro st
    rw [ffbfwtLoop]
    split
    · exact wb_ffbfwtBody F nbuff st
    · exact (wb_ffbfwtBody F nbuff st).trans (ih _)

theorem ffbfwt_none (st : CacheState) (nbuff : Nat) (h : st.bufptr nbuff = none) :
    ffbfwt st nbuff = st := by
  unfold ffbfwt
  rw [h]

theorem wb_ffbfwt (st : CacheState) (nbuff F : Nat) (h : st.bufptr nbuff = some F) :
    WBFrame F st (ffbfwt st nbuff) := by
  unfold ffbfwt
  rw [h]
  dsimp only
  have hbase : ∀ s : CacheState, WBFrame F st s →
      WBFrame F st
        (if st.bufrecnum nbuff * IOBUFLEN =
            ((setIopos (ffwrite s F IOBUFLEN (s.iobuffer nbuff)) F
              (st.bufrecnum nbuff * IOBUFLEN + IOBUFLEN)).files F).filesize then
          setFilesize
            (setIopos (ffwrite s F IOBUFLEN (s.iobuffer nbuff)) F
              (st.bufrecnum nbuff * IOBUFLEN + IOBUFLEN)) F
            (((setIopos (ffwrite s F IOBUFLEN (s.iobuffer nbuff)) F
              (st.bufrecnum nbuff * IOBUFLEN + IOBUFLEN)).files F).filesize + IOBUFLEN)
        else
          setIopos (ffwrite s F IOBUFLEN (s.iobuffer nbuff)) F
            (st.bufrecnum nbuff * IOBUFLEN + IOBUFLEN)) := by
    intro s hs
    have h1 : WBFrame F st
        (setIopos (ffwrite s F IOBUFLEN (s.iobuffer nbuff)) F
          (st.bufrecnum nbuff * IOBUFLEN + IOBUFLEN)) :=
      hs.trans ((wb_ffwrite F s IOBUFLEN _).trans (wb_setIopos F _ _))
    split
    · exact h1.trans (wb_setFilesize F _ _)
    · exact h1
  split
  · refine WBFrame.trans ?_ (wb_clearDirty F _ nbuff)
    refine hbase _ ?_
    split
    · exact wb_ffseek F st _
    · exact WBFrame.refl F st
  · refine WBFrame.trans ?_ (wb_setIopos F _ _)
    refine WBFrame.trans ?_ (wb_ffbfwtLoop F nbuff _ _)
    split
    · exact wb_ffseek F st _
    · exact WBFrame.refl F st

end Buffers

namespace Buffers

/-! ## Claim C6: the loader's EndOfFile condition -/

@[simp] theorem adoptBuf_stat (st : CacheState) (f n : Nat) (p : Option Nat) :
    (adoptBuf st f n p).stat = st.stat := by
  unfold adoptBuf; cases p <;> rfl

@[simp] theorem adoptBuf_bufptr (st : CacheState) (f n : Nat) (p : Option Nat) :
    (adoptBuf st f n p).bufptr = st.bufptr := by
  unfold adoptBuf; cases p <;> rfl

@[simp] theorem adoptBuf_bufrecnum (st : CacheState) (f n : Nat) (p : Option Nat) :
    (adoptBuf st f n p).bufrecnum = st.bufrecnum := by
  unfold adoptBuf; cases p <;> rfl

@[simp] theorem adoptBuf_dirty (st : CacheState) (f n : Nat) (p : Option Nat) :
    (adoptBuf st f n p).dirty = st.dirty := by
  unfold adoptBuf; cases p <;> rfl

@[simp] theorem adoptBuf_iobuffer (st : CacheState) (f n : Nat) (p : Option Nat) :
    (adoptBuf st f n p).iobuffer = st.iobuffer := by
  unfold adoptBuf; cases p <;> rfl

@[simp] theorem adoptBuf_disk (st : CacheState) (f n : Nat) (p : Option Nat) :
    (adoptBuf st f n p).disk = st.disk := by
  unfold adoptBuf; cases p <;> rfl

@[simp] theorem adoptBuf_disklen (st : CacheState) (f n : Nat) (p : Option Nat) :
    (adoptBuf st f n p).disklen = st.disklen := by
  unfold adoptBuf; cases p <;> rfl

@[simp] theorem adoptBuf_ospos (st : CacheState) (f n : Nat) (p : Option Nat) :
    (adoptBuf st f n p).ospos = st.ospos := by
  unfold adoptBuf; cases p <;> rfl

@[simp] theorem adoptBuf_werr (st : CacheState) (f n : Nat) (p : Option Nat) :
    (adoptBuf st f n p).werr = st.werr := by
  unfold adoptBuf; cases p <;> rfl

@[simp] theorem adoptBuf_wlog (st : CacheState) (f n : Nat) (p : Option Nat) :
    (adoptBuf st f n p).wlog = st.wlog := by
  unfold adoptBuf; cases p <;> rfl

@[simp] theorem adoptBuf_files (st : CacheState) (f n : Nat) (p : Option Nat) (g : Nat) :
    (adoptBuf st f n p).files g =
      if g = f then { st.files g with curbuf := (n : Int) } else st.files g := by
  unfold adoptBuf; cases p <;> rfl

theorem ffwhbf_fst (st : CacheState) (f : Nat) :
    (ffwhbf st f).1 = { st with ageindex := effAge st, ageinit := true } := by
  unfold ffwhbf
  split <;> rfl

theorem hitScan_some (st : CacheState) (f record : Nat) (hit : Nat × Nat)
    (h : hitScan st f record = some hit) :
    st.bufptr hit.2 = some f ∧ st.bufrecnum hit.2 = record ∧
    hit.1 < NIOBUF ∧ st.ageindex.getD hit.1 0 = hit.2 := by
  obtain ⟨ib, hmem, hf⟩ := List.exists_of_findSome?_eq_some h
  have hib : ib < NIOBUF := List.mem_range.mp (List.mem_reverse.mp hmem)
  dsimp only at hf
  by_cases hp : st.bufptr (st.ageindex.getD ib 0) = some f ∧
      st.bufrecnum (st.ageindex.getD ib 0) = record
  · rw [if_pos hp] at hf
    injection hf with hf
    subst hf
    exact ⟨hp.1, hp.2, hib, rfl⟩
  · rw [if_neg hp] at hf
    exact absurd hf (by simp)

theorem hitScan_none_iff (st : CacheState) (f record : Nat)
    (hage : st.ageindex.Perm (List.range NIOBUF)) :
    hitScan st f record = none ↔
      ∀ nb, nb < NIOBUF → ¬(st.bufptr nb = some f ∧ st.bufrecnum nb = record) := by
  have hlen : st.ageindex.length = NIOBUF := by simpa using hage.length_eq
  unfold hitScan
  rw [List.findSome?_eq_none_iff]
  constructor
  · intro h nb hnb hpred
    have hmemA : nb ∈ st.ageindex := (hage.mem_iff).mpr (List.mem_range.mpr hnb)
    obtain ⟨⟨ib, hib⟩, hget⟩ := List.mem_iff_get.mp hmemA
    have hib' : ib ∈ (List.range NIOBUF).reverse := by
      rw [List.mem_reverse, List.mem_range]
      omega
    have hthis := h ib hib'
    dsimp only at hthis
    rw [List.getD_eq_getElem _ _ hib] at hthis
    rw [List.get_eq_getElem] at hget
    rw [hget, if_pos hpred] at hthis
    exact absurd hthis (by simp)
  · intro h ib hib
    have hib' : ib < NIOBUF := List.mem_range.mp (List.mem_reverse.mp hib)
    have hnb : st.ageindex.getD ib 0 ∈ st.ageindex := by
      rw [List.getD_eq_getElem _ _ (by omega)]
      exact List.getElem_mem _
    have hlt : st.ageindex.getD ib 0 < NIOBUF :=
      List.mem_range.mp ((hage.mem_iff).mp hnb)
    dsimp only
    rw [if_neg (h _ hlt)]

@[simp] theorem ffldrcFill_stat (st : CacheState) (f nbuff record : Nat) :
    (ffldrcFill st f nbuff record).stat = st.stat := rfl

@[simp] theorem ffldrcRead_stat (st : CacheState) (f nbuff record : Nat) :
    (ffldrcRead st f nbuff record).stat = st.stat := by
  unfold ffldrcRead
  dsimp only
  rw [setIopos, updFile_stat]
  rw [(ffreadSlot_frame _ _ _).2.2.2.2.2.2.1]
  split <;> rfl

theorem ffldrcMiss_stat (st : CacheState) (f nbuff record : Nat) :
    (ffldrcMiss st f nbuff record).stat = st.stat ∨
    (ffldrcMiss st f nbuff record).stat = WRITE_ERROR := by
  unfold ffldrcMiss
  dsimp only
  rw [adoptBuf_stat]
  have h2 : (if st.dirty nbuff then ffbfwt st nbuff else st).stat = st.stat ∨
      (if st.dirty nbuff then ffbfwt st nbuff else st).stat = WRITE_ERROR := by
    split
    · cases hbp : st.bufptr nbuff with
      | none => rw [ffbfwt_none _ _ hbp]; exact Or.inl rfl
      | some F => exact (wb_ffbfwt _ _ F hbp).2.2.2.2.2.2.2.2
    · exact Or.inl rfl
  set st2 := (if st.dirty nbuff then ffbfwt st nbuff else st) with hst2
  have h3 : (if (st2.files f).filesize ≤ record * IOBUFLEN then
      ffldrcFill st2 f nbuff record else ffldrcRead st2 f nbuff record).stat = st2.stat := by
    split
    · exact ffldrcFill_stat st2 f nbuff record
    · exact ffldrcRead_stat st2 f nbuff record
  rw [show ({ (if (st2.files f).filesize ≤ record * IOBUFLEN then
      ffldrcFill st2 f nbuff record else ffldrcRead st2 f nbuff record) with
      bufptr := updf (if (st2.files f).filesize ≤ record * IOBUFLEN then
        ffldrcFill st2 f nbuff record else ffldrcRead st2 f nbuff record).bufptr nbuff (some f),
      bufrecnum := updf (if (st2.files f).filesize ≤ record * IOBUFLEN then
        ffldrcFill st2 f nbuff record else
        ffldrcRead st2 f nbuff record).bufrecnum nbuff record } : CacheState).stat =
      (if (st2.files f).filesize ≤ record * IOBUFLEN then
        ffldrcFill st2 f nbuff record else ffldrcRead st2 f nbuff record).stat from rfl]
  rw [h3]
  exact h2

theorem ffldrc_stat_cases (st : CacheState) (f record err_mode : Nat)
    (hs : hitScan st f record = none)
    (hguard : ¬(err_mode = 0 ∧ (st.files f).logfilesize ≤ record * IOBUFLEN)) :
    (ffldrc st f record err_mode).stat = st.stat ∨
    (ffldrc st f record err_mode).stat = TOO_MANY_FILES ∨
    (ffldrc st f record err_mode).stat = WRITE_ERROR := by
  unfold ffldrc
  rw [hs]
  dsimp only
  rw [if_neg hguard]
  split
  · exact Or.inr (Or.inl rfl)
  · rcases ffldrcMiss_stat (ffwhbf st f).1 f ((ffwhbf st f).2.toNat) record with h | h
    · rw [h, ffwhbf_fst]
      exact Or.inl rfl
    · exact Or.inr (Or.inr h)

end Buffers

namespace Buffers

/-- C6.  With a clean entry status and a well-formed age index, a
`REPORT_EOF` load fails with `END_OF_FILE` exactly when no pool slot
already holds `(f, record)` and the record starts at or beyond
`logfilesize`; and a block already resident in the pool is adopted
successfully (status stays clean, `f.curbuf` points at a slot holding the
record) even when its offset is at or beyond `logfilesize`. -/
theorem ffldrc_eof_characterisation (st : CacheState) (f record : Nat)
    (hstat : st.stat = 0)
    (hage : st.ageindex.Perm (List.range NIOBUF)) :
    ((ffldrc st f record REPORT_EOF).stat = END_OF_FILE ↔
      (∀ nb, nb < NIOBUF → ¬(st.bufptr nb = some f ∧ st.bufrecnum nb = record)) ∧
      (st.files f).logfilesize ≤ record * IOBUFLEN)
    ∧ ((∃ nb, nb < NIOBUF ∧ st.bufptr nb = some f ∧ st.bufrecnum nb = record) →
      (ffldrc st f record REPORT_EOF).stat = 0 ∧
      ∃ nb, nb < NIOBUF ∧ st.bufptr nb = some f ∧ st.bufrecnum nb = record ∧
        ((ffldrc st f record REPORT_EOF).files f).curbuf = (nb : Int)) := by
  have hlen : st.ageindex.length = NIOBUF := by simpa using hage.length_eq
  cases hscan : hitScan st f record with
  | some hit =>
    have hhit := hitScan_some st f record hit hscan
    have heq : ffldrc st f record REPORT_EOF = adoptBuf st f hit.2 (some hit.1) := by
      unfold ffldrc; rw [hscan]
    have hmem : st.ageindex.getD hit.1 0 ∈ st.ageindex := by
      rw [List.getD_eq_getElem _ _ (by omega)]
      exact List.getElem_mem _
    have hnb : hit.2 < NIOBUF := by
      rw [← hhit.2.2.2]
      exact List.mem_range.mp (hage.mem_iff.mp hmem)
    constructor
    · rw [heq, adoptBuf_stat, hstat]
      constructor
      · intro h107
        exact absurd h107 (by norm_num [END_OF_FILE])
      · rintro ⟨hnone, _⟩
        exact absurd ⟨hhit.1, hhit.2.1⟩ (hnone hit.2 hnb)
    · intro _
      refine ⟨by rw [heq, adoptBuf_stat, hstat], hit.2, hnb, hhit.1, hhit.2.1, ?_⟩
      rw [heq]
      simp
  | none =>
    have hnone := (hitScan_none_iff st f record hage).mp hscan
    constructor
    · by_cases hle : (st.files f).logfilesize ≤ record * IOBUFLEN
      · have heq : ffldrc st f record REPORT_EOF = { st with stat := END_OF_FILE } := by
          unfold ffldrc; rw [hscan]; dsimp only; rw [if_pos ⟨rfl, hle⟩]
        rw [heq]
        exact ⟨fun _ => ⟨hnone, hle⟩, fun _ => rfl⟩
      · have hguard : ¬(REPORT_EOF = 0 ∧ (st.files f).logfilesize ≤ record * IOBUFLEN) :=
          fun hcon => hle hcon.2
        constructor
        · intro h107
          rcases ffldrc_stat_cases st f record REPORT_EOF hscan hguard with h | h | h <;>
            rw [h107] at h
          · rw [hstat] at h; exact absurd h (by norm_num [END_OF_FILE])
          · exact absurd h (by norm_num [END_OF_FILE, TOO_MANY_FILES])
          · exact absurd h (by norm_num [END_OF_FILE, WRITE_ERROR])
        · rintro ⟨_, hle'⟩
          exact absurd hle' hle
    · rintro ⟨nb, hnb, hown, hrec⟩
      exact absurd ⟨hown, hrec⟩ (hnone nb hnb)

/-- A clean state with an initialised (identity) age index and empty pool. -/
def stAge : CacheState :=
  { initState with ageindex := List.range NIOBUF, ageinit := true }

/-- Witness for C6: in a clean empty-pool state a `REPORT_EOF` load of
record 9 (beyond `logfilesize = 0`) fails with `END_OF_FILE`. -/
theorem ffldrc_eof_characterisation_witness :
    (ffldrc stAge 0 9 REPORT_EOF).stat = END_OF_FILE :=
  ((ffldrc_eof_characterisation stAge 0 9 rfl (List.Perm.refl _)).1).mpr
    ⟨by decide, by decide⟩

end Buffers

namespace Buffers

/-! ## Claim C7: the optimal-chunk advisor -/

/-- A state in which all 40 pool slots are owned by 40 distinct files and
file 0 is positioned at an image HDU with 1-byte pixels (`typecode 11`). -/
def stFull : CacheState :=
  { initState with
    bufptr := fun i => if i < NIOBUF then some i else none,
    files := fun _ => { file0 with hdutype := IMAGE_HDU, typecode := 11 } }

/-- Counterexample for C7: with 40 distinct open files every slot counts,
so for an image HDU `ffgrsz` returns `((40 − 40) × 2880) / 1 = 0` — the
image branch has no floor at 1. -/
theorem ffgrsz_floor_counterexample :
    ffgrsz stFull 0 = 0 ∧ ¬(1 ≤ ffgrsz stFull 0) := by decide

/-- C7 (amended).  The floor at 1 applies only to the table branch: for a
non-image HDU the result is at least 1, while for an image HDU the result
is the unfloored quotient `((N − nfiles) × L) / bytesperpixel`, which is 0
precisely when `(N − nfiles) × L` is smaller than the pixel size. -/
theorem ffgrsz_advisory (st : CacheState) (f : Nat) :
    ((st.files f).hdutype ≠ IMAGE_HDU → 1 ≤ ffgrsz st f)
    ∧ ((st.files f).hdutype = IMAGE_HDU → 10 ≤ (st.files f).typecode →
      (ffgrsz st f = 0 ↔
        (NIOBUF - fitsGetNumFiles st) * IOBUFLEN < (st.files f).typecode / 10)) := by
  constructor
  · intro h
    unfold ffgrsz
    rw [if_neg h]
    exact le_max_left 1 _
  · intro h htc
    unfold ffgrsz
    rw [if_pos h]
    exact Nat.div_eq_zero_iff (Nat.div_pos htc (by norm_num))

/-- A state with an empty pool and a binary-table HDU. -/
def stTbl : CacheState :=
  { initState with files := fun _ => { file0 with hdutype := BINARY_TBL, rowlength := 100 } }

/-- Witness for the amended C7 at concrete states: the table branch is
floored at 1, and the image branch of `stFull` is 0 because no free slot
remains. -/
theorem ffgrsz_advisory_witness :
    1 ≤ ffgrsz stTbl 0 ∧
    (ffgrsz stFull 0 = 0 ↔
      (NIOBUF - fitsGetNumFiles stFull) * IOBUFLEN < (stFull.files 0).typecode / 10) :=
  ⟨(ffgrsz_advisory stTbl 0).1 (by decide),
   (ffgrsz_advisory stFull 0).2 (by decide) (by decide)⟩

end Buffers


namespace Buffers

/-! ## Claim C9: the age index

The age invariant: once the one-time initialisation in `ffwhbf` has run
(`ageinit = true`) the age index is a permutation of `0..NIOBUF-1`; before
that it is the all-zero array the C runtime zero-initialised it to.  Every
file's `curbuf` stays below `NIOBUF`. -/
def AgeOK (st : CacheState) : Prop :=
  (st.ageinit = true → st.ageindex.Perm (List.range NIOBUF)) ∧
  (st.ageinit = false → st.ageindex = List.replicate NIOBUF 0) ∧
  (∀ g, (st.files g).curbuf < (NIOBUF : Int))

theorem ageOK_of_eq (st st' : CacheState)
    (h1 : st'.ageindex = st.ageindex) (h2 : st'.ageinit = st.ageinit)
    (h3 : ∀ g, (st'.files g).curbuf = (st.files g).curbuf)
    (hA : AgeOK st) : AgeOK st' := by
  refine ⟨?_, ?_, ?_⟩
  · intro h; rw [h1]; exact hA.1 (h2 ▸ h)
  · intro h; rw [h1]; exact hA.2.1 (h2 ▸ h)
  · intro g; rw [h3]; exact hA.2.2 g

theorem ageOK_of_WBFrame {F : Nat} {st st' : CacheState}
    (h : WBFrame F st st') (hA : AgeOK st) : AgeOK st' := by
  obtain ⟨_, _, _, ha, hai, hoth, ⟨fs, ip, hF⟩, _, _⟩ := h
  refine ageOK_of_eq st st' ha hai ?_ hA
  intro g
  by_cases hg : g = F
  · subst hg; rw [hF]
  · rw [(hoth g hg).1]

theorem ageOK_ffbfwt (st : CacheState) (n : Nat) (hA : AgeOK st) :
    AgeOK (ffbfwt st n) := by
  cases hbp : st.bufptr n with
  | none => rw [ffbfwt_none _ _ hbp]; exact hA
  | some F => exact ageOK_of_WBFrame (wb_ffbfwt st n F hbp) hA

@[simp] theorem adoptBuf_ageinit (st : CacheState) (f n : Nat) (p : Option Nat) :
    (adoptBuf st f n p).ageinit = st.ageinit := by
  unfold adoptBuf; cases p <;> rfl

theorem adoptBuf_ageindex_some (st : CacheState) (f n p : Nat) :
    (adoptBuf st f n (some p)).ageindex = ageMove st.ageindex p n := by
  unfold adoptBuf; rfl

theorem adoptBuf_ageindex_none (st : CacheState) (f n : Nat) :
    (adoptBuf st f n none).ageindex = ageMove st.ageindex (st.ageindex.indexOf n) n := by
  unfold adoptBuf; rfl

theorem ageMove_perm (l : List Nat) (p n : Nat) (hp : p < l.length)
    (hget : l.getD p 0 = n) : (ageMove l p n).Perm l := by
  unfold ageMove
  rw [if_pos hp]
  rw [List.getD_eq_getElem _ _ hp] at hget
  have hsplit : l.take p ++ l[p] :: l.drop (p + 1) = l := by
    rw [List.get_drop_eq_drop l p hp, List.take_append_drop]
  rw [List.append_assoc]
  have h3 : (l.take p ++ (l.drop (p + 1) ++ [n])).Perm
      (l.take p ++ (n :: l.drop (p + 1))) :=
    List.Perm.append_left _ (List.perm_append_singleton n _)
  refine h3.trans ?_
  rw [← hget, hsplit]

theorem ageMove_replicate (p : Nat) (hp : p < NIOBUF) :
    ageMove (List.replicate NIOBUF 0) p 0 = List.replicate NIOBUF 0 := by
  unfold ageMove
  rw [if_pos (by simpa using hp)]
  apply List.eq_replicate_iff.mpr
  constructor
  · simp
    omega
  · intro b hb
    rcases List.mem_append.mp hb with hb | hb
    · rcases List.mem_append.mp hb with hb | hb
      · exact List.eq_of_mem_replicate (List.mem_of_mem_take hb)
      · exact List.eq_of_mem_replicate (List.mem_of_mem_drop hb)
    · simpa using hb

theorem getD_replicate_zero (p : Nat) : (List.replicate NIOBUF 0).getD p 0 = 0 := by
  by_cases hp : p < NIOBUF
  · rw [List.getD_eq_getElem _ _ (by simpa using hp)]
    simp
  · rw [List.getD_eq_default _ _ (by simpa using hp)]

theorem ageOK_adoptBuf_hit (st : CacheState) (f n p : Nat) (hA : AgeOK st)
    (hplen : p < st.ageindex.length) (hget : st.ageindex.getD p 0 = n) :
    AgeOK (adoptBuf st f n (some p)) := by
  have hn : n < NIOBUF := by
    cases hinit : st.ageinit with
    | true =>
      have hperm := hA.1 hinit
      have hmem : n ∈ st.ageindex := by
        rw [← hget, List.getD_eq_getElem _ _ hplen]
        exact List.getElem_mem _
      exact List.mem_range.mp (hperm.mem_iff.mp hmem)
    | false =>
      have hrep := hA.2.1 hinit
      rw [hrep, getD_replicate_zero] at hget
      rw [← hget]
      decide
  refine ⟨?_, ?_, ?_⟩
  · intro hinit
    rw [adoptBuf_ageinit] at hinit
    rw [adoptBuf_ageindex_some]
    exact (ageMove_perm _ p n hplen hget).trans (hA.1 hinit)
  · intro hinit
    rw [adoptBuf_ageinit] at hinit
    have hrep := hA.2.1 hinit
    have hz : n = 0 := by rw [hrep, getD_replicate_zero] at hget; omega
    rw [adoptBuf_ageindex_some, hrep, hz]
    exact ageMove_replicate p (by rw [hrep] at hplen; simpa using hplen)
  · intro g
    rw [adoptBuf_files]
    by_cases hg : g = f
    · rw [if_pos hg]
      show (n : Int) < (NIOBUF : Int)
      exact_mod_cast hn
    · rw [if_neg hg]
      exact hA.2.2 g

theorem ageOK_adoptBuf_miss (st : CacheState) (f n : Nat) (hA : AgeOK st)
    (hinit : st.ageinit = true) (hn : n < NIOBUF) :
    AgeOK (adoptBuf st f n none) := by
  have hperm := hA.1 hinit
  have hmem : n ∈ st.ageindex := hperm.mem_iff.mpr (List.mem_range.mpr hn)
  have hidx : st.ageindex.indexOf n < st.ageindex.length := List.indexOf_lt_length.mpr hmem
  have hget : st.ageindex.getD (st.ageindex.indexOf n) 0 = n := by
    rw [List.getD_eq_getElem _ _ hidx]
    exact List.getElem_indexOf hidx
  refine ⟨?_, ?_, ?_⟩
  · intro _
    rw [adoptBuf_ageindex_none]
    exact (ageMove_perm _ _ n hidx hget).trans hperm
  · intro hcon
    rw [adoptBuf_ageinit, hinit] at hcon
    cases hcon
  · intro g
    rw [adoptBuf_files]
    by_cases hg : g = f
    · rw [if_pos hg]
      show (n : Int) < (NIOBUF : Int)
      exact_mod_cast hn
    · rw [if_neg hg]
      exact hA.2.2 g

end Buffers

namespace Buffers

theorem ageOK_ffwhbf (st : CacheState) (f : Nat) (hA : AgeOK st) :
    AgeOK (ffwhbf st f).1 := by
  rw [ffwhbf_fst]
  refine ⟨?_, ?_, hA.2.2⟩
  · intro _
    show (effAge st).Perm (List.range NIOBUF)
    unfold effAge
    split
    · exact hA.1 ‹_›
    · exact List.Perm.refl _
  · intro hcon
    exact absurd hcon (by simp)

theorem mem_effAge_lt (st : CacheState) (i : Nat) (hA : AgeOK st)
    (h : i ∈ effAge st) : i < NIOBUF := by
  unfold effAge at h
  split at h
  · exact List.mem_range.mp ((hA.1 ‹_›).mem_iff.mp h)
  · exact List.mem_range.mp h

theorem ffwhbf_snd_bound (st : CacheState) (f : Nat) (hA : AgeOK st)
    (hge : ¬(ffwhbf st f).2 < 0) : (ffwhbf st f).2.toNat < NIOBUF := by
  unfold ffwhbf at hge ⊢
  cases hfind : (effAge st).find? (fun i => unpinned st i) with
  | some i =>
    dsimp only at hge ⊢
    have hmem : i ∈ effAge st := List.mem_of_find?_eq_some hfind
    have hi := mem_effAge_lt st i hA hmem
    simpa using hi
  | none =>
    dsimp only at hge ⊢
    rw [hfind] at hge
    dsimp only at hge
    have := hA.2.2 f
    omega

theorem ffwhbf_fst_ageinit (st : CacheState) (f : Nat) :
    (ffwhbf st f).1.ageinit = true := by
  rw [ffwhbf_fst]

theorem ffldrcFill_ageindex (st : CacheState) (f n r : Nat) :
    (ffldrcFill st f n r).ageindex = st.ageindex := rfl

theorem ffldrcFill_ageinit (st : CacheState) (f n r : Nat) :
    (ffldrcFill st f n r).ageinit = st.ageinit := rfl

theorem ffldrcFill_curbuf (st : CacheState) (f n r g : Nat) :
    ((ffldrcFill st f n r).files g).curbuf = (st.files g).curbuf := by
  unfold ffldrcFill
  dsimp only
  rw [updFile_files]
  by_cases hg : g = f <;> simp [hg]

theorem ffldrcRead_ageindex (st : CacheState) (f n r : Nat) :
    (ffldrcRead st f n r).ageindex = st.ageindex := by
  unfold ffldrcRead
  dsimp only
  rw [setIopos, updFile_ageindex, (ffreadSlot_frame _ _ _).2.2.2.1]
  split <;> rfl

theorem ffldrcRead_ageinit (st : CacheState) (f n r : Nat) :
    (ffldrcRead st f n r).ageinit = st.ageinit := by
  unfold ffldrcRead
  dsimp only
  rw [setIopos, updFile_ageinit, (ffreadSlot_frame _ _ _).2.2.2.2.1]
  split <;> rfl

theorem ffldrcRead_curbuf (st : CacheState) (f n r g : Nat) :
    ((ffldrcRead st f n r).files g).curbuf = (st.files g).curbuf := by
  unfold ffldrcRead
  dsimp only
  unfold setIopos
  rw [updFile_files]
  have hfl : ∀ s1 : CacheState, s1.files = st.files →
      (ffreadSlot s1 f n).files = st.files := by
    intro s1 h
    rw [(ffreadSlot_frame _ _ _).2.2.2.2.2.1, h]
  by_cases hg : g = f
  · rw [if_pos hg]
    dsimp only
    split
    · rw [hfl (ffseek st f (r * IOBUFLEN)) rfl]
    · rw [hfl st rfl]
  · rw [if_neg hg]
    split
    · rw [hfl (ffseek st f (r * IOBUFLEN)) rfl]
    · rw [hfl st rfl]

theorem ageOK_ffldrcMiss (st : CacheState) (f nbuff record : Nat) (hA : AgeOK st)
    (hinit : st.ageinit = true) (hn : nbuff < NIOBUF) :
    AgeOK (ffldrcMiss st f nbuff record) := by
  unfold ffldrcMiss
  dsimp only
  set st2 := (if st.dirty nbuff then ffbfwt st nbuff else st) with hst2
  have hA2 : AgeOK st2 := by
    rw [hst2]; split
    · exact ageOK_ffbfwt st nbuff hA
    · exact hA
  have hinit2 : st2.ageinit = true := by
    rw [hst2]; split
    · cases hbp : st.bufptr nbuff with
      | none => rw [ffbfwt_none _ _ hbp]; exact hinit
      | some F => rw [(wb_ffbfwt st nbuff F hbp).2.2.2.2.1]; exact hinit
    · exact hinit
  set st3 := (if (st2.files f).filesize ≤ record * IOBUFLEN then
    ffldrcFill st2 f nbuff record else ffldrcRead st2 f nbuff record) with hst3
  have hA3 : AgeOK st3 := by
    rw [hst3]; split
    · exact ageOK_of_eq _ _ (ffldrcFill_ageindex _ _ _ _) (ffldrcFill_ageinit _ _ _ _)
        (fun g => ffldrcFill_curbuf _ _ _ _ g) hA2
    · exact ageOK_of_eq _ _ (ffldrcRead_ageindex _ _ _ _) (ffldrcRead_ageinit _ _ _ _)
        (fun g => ffldrcRead_curbuf _ _ _ _ g) hA2
  have hinit3 : st3.ageinit = true := by
    rw [hst3]; split
    · rw [ffldrcFill_ageinit]; exact hinit2
    · rw [ffldrcRead_ageinit]; exact hinit2
  have hA4 : AgeOK { st3 with
      bufptr := updf st3.bufptr nbuff (some f),
      bufrecnum := updf st3.bufrecnum nbuff record } :=
    ageOK_of_eq _ _ rfl rfl (fun _ => rfl) hA3
  exact ageOK_adoptBuf_miss _ f nbuff hA4 hinit3 hn

theorem ageOK_ffldrc (st : CacheState) (f record err_mode : Nat) (hA : AgeOK st) :
    AgeOK (ffldrc st f record err_mode) := by
  unfold ffldrc
  cases hscan : hitScan st f record with
  | some hit =>
    have hhit := hitScan_some st f record hit hscan
    have hlen : st.ageindex.length = NIOBUF := by
      cases hinit : st.ageinit with
      | true => simpa using (hA.1 hinit).length_eq
      | false => rw [hA.2.1 hinit]; simp
    exact ageOK_adoptBuf_hit st f hit.2 hit.1 hA (by omega) hhit.2.2.2
  | none =>
    dsimp only
    split
    · exact ageOK_of_eq _ _ rfl rfl (fun _ => rfl) hA
    · split
      · exact ageOK_of_eq _ _ rfl rfl (fun _ => rfl) (ageOK_ffwhbf st f hA)
      · exact ageOK_ffldrcMiss _ f _ record (ageOK_ffwhbf st f hA)
          (ffwhbf_fst_ageinit st f) (ffwhbf_snd_bound st f hA ‹_›)

end Buffers

namespace Buffers

theorem ageOK_updFile_keep (st : CacheState) (f : Nat) (gg : FITSfile → FITSfile)
    (hkeep : ∀ fl, (gg fl).curbuf = fl.curbuf) (hA : AgeOK st) :
    AgeOK (updFile st f gg) := by
  refine ageOK_of_eq st _ rfl rfl ?_ hA
  intro g
  rw [updFile_files]
  by_cases hg : g = f
  · rw [if_pos hg, hkeep]
  · rw [if_neg hg]

theorem ageOK_slotWrite (st : CacheState) (b o l : Nat) (d : Nat → Nat) (hA : AgeOK st) :
    AgeOK (slotWrite st b o l d) :=
  ageOK_of_eq st _ rfl rfl (fun _ => rfl) hA

theorem ageOK_setDirty (st : CacheState) (b : Nat) (hA : AgeOK st) :
    AgeOK (setDirty st b) :=
  ageOK_of_eq st _ rfl rfl (fun _ => rfl) hA

theorem ageOK_ffseek (st : CacheState) (f p : Nat) (hA : AgeOK st) :
    AgeOK (ffseek st f p) :=
  ageOK_of_eq st _ rfl rfl (fun _ => rfl) hA

theorem ageOK_ffwrite (st : CacheState) (f n : Nat) (src : Nat → Nat) (hA : AgeOK st) :
    AgeOK (ffwrite st f n src) :=
  ageOK_of_eq st _ (ffwrite_ageindex _ _ _ _) (ffwrite_ageinit _ _ _ _)
    (fun g => by rw [ffwrite_files]) hA

theorem ageOK_ffreadSlot (st : CacheState) (f n : Nat) (hA : AgeOK st) :
    AgeOK (ffreadSlot st f n) :=
  ageOK_of_eq st _ (ffreadSlot_frame _ _ _).2.2.2.1 (ffreadSlot_frame _ _ _).2.2.2.2.1
    (fun g => by rw [(ffreadSlot_frame _ _ _).2.2.2.2.2.1]) hA

theorem ageOK_setIopos (st : CacheState) (f v : Nat) (hA : AgeOK st) :
    AgeOK (setIopos st f v) :=
  ageOK_updFile_keep st f _ (fun _ => rfl) hA

theorem ageOK_setFilesize (st : CacheState) (f v : Nat) (hA : AgeOK st) :
    AgeOK (setFilesize st f v) :=
  ageOK_updFile_keep st f _ (fun _ => rfl) hA

theorem ageOK_foldl {α : Type} (step : CacheState → α → CacheState) (l : List α)
    (hstep : ∀ s x, AgeOK s → AgeOK (step s x)) :
    ∀ s, AgeOK s → AgeOK (l.foldl step s) := by
  induction l with
  | nil => intro s hs; exact hs
  | cons x t ih =>
    intro s hs
    exact ih _ (hstep s x hs)

theorem ageOK_ffmbyt (st : CacheState) (f : Nat) (pos : Int) (err_mode : Nat)
    (hA : AgeOK st) : AgeOK (ffmbyt st f pos err_mode) := by
  unfold ffmbyt
  split
  · exact hA
  · split
    · exact ageOK_of_eq st _ rfl rfl (fun _ => rfl) hA
    · dsimp only
      have hgen : ∀ s : CacheState, AgeOK s →
          AgeOK (if s.stat = 0 then
            updFile s f (fun fl => { fl with bytepos := pos.toNat }) else s) := by
        intro s hs
        split
        · exact ageOK_updFile_keep s f _ (fun _ => rfl) hs
        · exact hs
      split
      · exact hgen _ (ageOK_ffldrc st f _ err_mode hA)
      · exact hgen st hA

theorem ageOK_ffpbytSmall (f : Nat) (src : Nat → Nat) :
    ∀ (fuel : Nat) (st : CacheState) (bufpos nspace co ntodo : Nat), AgeOK st →
      AgeOK (ffpbytSmall f src fuel st bufpos nspace co ntodo) := by
  intro fuel
  induction fuel with
  | zero => intro st _ _ _ _ hA; exact hA
  | succ m ih =>
    intro st bufpos nspace co ntodo hA
    rw [ffpbytSmall]
    split
    · exact hA
    · dsimp only
      split
      · exact ageOK_setDirty _ _ (ageOK_updFile_keep _ f _ (fun _ => rfl)
          (ageOK_slotWrite _ _ _ _ _ hA))
      · exact ih _ _ _ _ _ (ageOK_ffldrc _ f _ IGNORE_EOF
          (ageOK_setDirty _ _ (ageOK_updFile_keep _ f _ (fun _ => rfl)
            (ageOK_slotWrite _ _ _ _ _ hA))))

theorem ageOK_ffgbytSmall (f : Nat) :
    ∀ (fuel : Nat) (st : CacheState) (bufpos nspace co ntodo : Nat) (dst : Nat → Nat),
      AgeOK st → AgeOK (ffgbytSmall f fuel st bufpos nspace co ntodo dst).1 := by
  intro fuel
  induction fuel with
  | zero => intro st _ _ _ _ _ hA; exact hA
  | succ m ih =>
    intro st bufpos nspace co ntodo dst hA
    rw [ffgbytSmall]
    split
    · exact hA
    · dsimp only
      have h1 : AgeOK (updFile st f
          (fun fl => { fl with bytepos := fl.bytepos + min ntodo nspace })) :=
        ageOK_updFile_keep _ f _ (fun _ => rfl) hA
      split
      · exact h1
      · exact ih _ _ _ _ _ _ (ageOK_ffldrc _ f _ REPORT_EOF h1)

end Buffers

namespace Buffers

theorem ageOK_pool_update (s : CacheState) (bp : Nat → Option Nat) (br : Nat → Nat)
    (hA : AgeOK s) : AgeOK { s with bufptr := bp, bufrecnum := br } :=
  ageOK_of_eq s _ rfl rfl (fun _ => rfl) hA

theorem ageOK_bufptr_update (s : CacheState) (bp : Nat → Option Nat)
    (hA : AgeOK s) : AgeOK { s with bufptr := bp } :=
  ageOK_of_eq s _ rfl rfl (fun _ => rfl) hA

theorem ageOK_iobuffer_update (s : CacheState) (io : Nat → Nat → Nat)
    (hA : AgeOK s) : AgeOK { s with iobuffer := io } :=
  ageOK_of_eq s _ rfl rfl (fun _ => rfl) hA

theorem ageOK_ffreadAdv (st : CacheState) (f n : Nat) (hA : AgeOK st) :
    AgeOK (ffreadAdv st f n) :=
  ageOK_of_eq st _ (ffreadAdv_frame _ _ _).2.2.2.2.1 (ffreadAdv_frame _ _ _).2.2.2.2.2.1
    (fun g => by rw [(ffreadAdv_frame _ _ _).2.2.2.2.2.2.1]) hA

theorem ageOK_updFile_tail (st : CacheState) (f a b : Nat) (hA : AgeOK st) :
    AgeOK (updFile st f (fun fl =>
      { fl with logfilesize := max fl.logfilesize a, bytepos := b })) :=
  ageOK_updFile_keep st f _ (fun _ => rfl) hA

theorem ageOK_flushRange (st : CacheState) (f a b : Nat) (hA : AgeOK st) :
    AgeOK (flushRange st f a b) := by
  unfold flushRange
  refine ageOK_foldl _ _ ?_ st hA
  intro s ii hs
  split
  · dsimp only
    apply ageOK_bufptr_update
    split
    · exact ageOK_ffbfwt _ _ hs
    · exact hs
  · exact hs

theorem ageOK_flushRangeRead (st : CacheState) (f a b : Nat) (hA : AgeOK st) :
    AgeOK (flushRangeRead st f a b) := by
  unfold flushRangeRead
  refine ageOK_foldl _ _ ?_ st hA
  intro s ii hs
  split
  · exact ageOK_ffbfwt _ _ hs
  · exact hs

theorem ageOK_ffpbytLargeEnd (st : CacheState) (f nbuff recend ntodo co filepos : Nat)
    (src : Nat → Nat) (hA : AgeOK st) :
    AgeOK (ffpbytLargeEnd st f nbuff recend ntodo co filepos src) := by
  unfold ffpbytLargeEnd
  dsimp only
  apply ageOK_updFile_tail
  apply ageOK_pool_update
  apply ageOK_setDirty
  apply ageOK_slotWrite
  split <;> split <;>
    (first
      | (apply ageOK_iobuffer_update
         apply ageOK_setFilesize)
      | (apply ageOK_setIopos
         apply ageOK_ffreadSlot)) <;>
    apply ageOK_setIopos <;>
    apply ageOK_ffwrite <;>
    (first
      | (apply ageOK_ffseek; exact hA)
      | exact hA)

theorem ageOK_ffgbytLargeEnd (st : CacheState) (f nbytes filepos : Nat) (dst : Nat → Nat)
    (hA : AgeOK st) : AgeOK (ffgbytLargeEnd st f nbytes filepos dst).1 := by
  unfold ffgbytLargeEnd ffreadUser
  dsimp only
  split <;> split <;> (try dsimp only) <;>
    apply ageOK_setIopos <;>
    (first
      | apply ageOK_ffreadAdv
      | skip) <;>
    (first
      | (apply ageOK_ffseek; exact hA)
      | exact hA)

theorem ageOK_ffpbyt (st : CacheState) (f n : Nat) (src : Nat → Nat) (hA : AgeOK st) :
    AgeOK (ffpbyt st f n src) := by
  unfold ffpbyt
  split
  · exact hA
  split
  · dsimp only
    apply ageOK_ffpbytLargeEnd
    apply ageOK_flushRange
    split
    · exact ageOK_setDirty _ _ (ageOK_slotWrite _ _ _ _ _ hA)
    · exact hA
  · exact ageOK_ffpbytSmall f src n st _ _ 0 n hA

theorem ageOK_ffgbyt (st : CacheState) (f n : Nat) (dst : Nat → Nat) (hA : AgeOK st) :
    AgeOK (ffgbyt st f n dst).1 := by
  unfold ffgbyt
  split
  · exact hA
  split
  · dsimp only
    apply ageOK_ffgbytLargeEnd
    exact ageOK_flushRangeRead _ _ _ _ hA
  · exact ageOK_ffgbytSmall f n st _ _ 0 n dst hA

end Buffers

namespace Buffers

theorem ageOK_updFile_adv (st : CacheState) (f a b : Nat) (hA : AgeOK st) :
    AgeOK (updFile st f (fun fl => { fl with bytepos := fl.bytepos + a + b })) :=
  ageOK_updFile_keep st f _ (fun _ => rfl) hA

set_option maxHeartbeats 1000000 in
theorem ageOK_ffpbytoffStep (f gsize offset : Nat) (src : Nat → Nat) (st : CacheState)
    (b r : Nat) (nspace ioOff : Int) (co : Nat) (hA : AgeOK st) :
    AgeOK (ffpbytoffStep f gsize offset src st b r nspace ioOff co).1 := by
  unfold ffpbytoffStep
  dsimp only
  split <;> split <;> (try dsimp only) <;>
    (first
      | (apply ageOK_ffldrc
         apply ageOK_setDirty)
      | skip) <;>
    (first
      | (apply ageOK_slotWrite
         apply ageOK_ffldrc
         apply ageOK_setDirty
         apply ageOK_slotWrite
         exact hA)
      | (apply ageOK_slotWrite
         exact hA))

theorem ageOK_ffpbytoffLoop (f gsize offset : Nat) (src : Nat → Nat) :
    ∀ (k : Nat) (c : CacheState × Nat × Nat × Int × Int × Nat), AgeOK c.1 →
      AgeOK (ffpbytoffLoop f gsize offset src k c).1 := by
  intro k
  induction k with
  | zero => intro c hc; exact hc
  | succ m ih =>
    intro c hc
    rw [ffpbytoffLoop]
    exact ih _ (ageOK_ffpbytoffStep f gsize offset src c.1 c.2.1 c.2.2.1 c.2.2.2.1
      c.2.2.2.2.1 c.2.2.2.2.2 hc)

set_option maxHeartbeats 1000000 in
theorem ageOK_ffpbytoff (st : CacheState) (f gsize ngroups offset : Nat)
    (src : Nat → Nat) (hA : AgeOK st) :
    AgeOK (ffpbytoff st f gsize ngroups offset src) := by
  unfold ffpbytoff
  split
  · exact hA
  · dsimp only
    apply ageOK_updFile_adv
    apply ageOK_setDirty
    have hc : AgeOK (ffpbytoffLoop f gsize offset src (ngroups - 1)
        (st, ((st.files f).curbuf).toNat,
          st.bufrecnum (((st.files f).curbuf).toNat),
          ((IOBUFLEN : Int) - (((st.files f).bytepos : Int) -
            (st.bufrecnum (((st.files f).curbuf).toNat) : Int) * IOBUFLEN) : Int),
          (((st.files f).bytepos : Int) -
            (st.bufrecnum (((st.files f).curbuf).toNat) : Int) * IOBUFLEN), 0)).1 :=
      ageOK_ffpbytoffLoop f gsize offset src (ngroups - 1) _ hA
    split <;> (try dsimp only) <;>
      (first
        | (apply ageOK_slotWrite
           apply ageOK_ffldrc
           apply ageOK_setDirty
           apply ageOK_slotWrite
           exact hc)
        | (apply ageOK_slotWrite
           exact hc))

set_option maxHeartbeats 1000000 in
theorem ageOK_ffgbytoffStep (f gsize offset : Nat) (st : CacheState)
    (b r : Nat) (nspace ioOff : Int) (co : Nat) (dst : Nat → Nat) (hA : AgeOK st) :
    AgeOK (ffgbytoffStep f gsize offset st b r nspace ioOff co dst).1 := by
  unfold ffgbytoffStep
  dsimp only
  split <;> split <;> (try dsimp only) <;>
    (first
      | apply ageOK_ffldrc
      | skip) <;>
    (first
      | (apply ageOK_ffldrc
         exact hA)
      | exact hA)

theorem ageOK_ffgbytoffLoop (f gsize offset : Nat) :
    ∀ (k : Nat) (c : CacheState × Nat × Nat × Int × Int × Nat × (Nat → Nat)),
      AgeOK c.1 → AgeOK (ffgbytoffLoop f gsize offset k c).1 := by
  intro k
  induction k with
  | zero => intro c hc; exact hc
  | succ m ih =>
    intro c hc
    rw [ffgbytoffLoop]
    exact ih _ (ageOK_ffgbytoffStep f gsize offset c.1 c.2.1 c.2.2.1 c.2.2.2.1
      c.2.2.2.2.1 c.2.2.2.2.2.1 c.2.2.2.2.2.2 hc)

set_option maxHeartbeats 1000000 in
theorem ageOK_ffgbytoff (st : CacheState) (f gsize ngroups offset : Nat)
    (dst : Nat → Nat) (hA : AgeOK st) :
    AgeOK (ffgbytoff st f gsize ngroups offset dst).1 := by
  unfold ffgbytoff
  split
  · exact hA
  · dsimp only
    have hc : AgeOK (ffgbytoffLoop f gsize offset (ngroups - 1)
        (st, ((st.files f).curbuf).toNat,
          st.bufrecnum (((st.files f).curbuf).toNat),
          ((IOBUFLEN : Int) - (((st.files f).bytepos : Int) -
            (st.bufrecnum (((st.files f).curbuf).toNat) : Int) * IOBUFLEN) : Int),
          (((st.files f).bytepos : Int) -
            (st.bufrecnum (((st.files f).curbuf).toNat) : Int) * IOBUFLEN), 0, dst)).1 :=
      ageOK_ffgbytoffLoop f gsize offset (ngroups - 1) _ hA
    split <;> (try dsimp only) <;>
      apply ageOK_updFile_adv <;>
      (first
        | (apply ageOK_ffldrc
           exact hc)
        | exact hc)

theorem ageOK_ffflsh (st : CacheState) (f : Nat) (clearbuf : Bool) (hA : AgeOK st) :
    AgeOK (ffflsh st f clearbuf) := by
  unfold ffflsh
  refine ageOK_foldl _ _ ?_ st hA
  intro s ii hs
  split
  · dsimp only
    have h1 : AgeOK (if s.dirty ii then ffbfwt s ii else s) := by
      split
      · exact ageOK_ffbfwt _ _ hs
      · exact hs
    split
    · exact ageOK_bufptr_update _ _ h1
    · exact h1
  · exact hs

theorem ageOK_ffbfeof (st : CacheState) (f : Nat) (hA : AgeOK st) :
    AgeOK (ffbfeof st f) := by
  unfold ffbfeof
  refine ageOK_foldl _ _ ?_ st hA
  intro s ii hs
  split
  · exact ageOK_bufptr_update _ _ hs
  · exact hs

end Buffers

namespace Buffers

/-- The core operations of the module, as a single step alphabet. -/
inductive CoreOp where
  | mbyt (f : Nat) (pos : Int) (err : Nat)
  | pbyt (f n : Nat) (src : Nat → Nat)
  | gbyt (f n : Nat) (dst : Nat → Nat)
  | pbytoff (f gsize ngroups offset : Nat) (src : Nat → Nat)
  | gbytoff (f gsize ngroups offset : Nat) (dst : Nat → Nat)
  | ldrc (f record err : Nat)
  | whbf (f : Nat)
  | bfwt (n : Nat)
  | flsh (f : Nat) (clear : Bool)
  | bfeof (f : Nat)

/-- Apply one core operation to the state. -/
def applyOp (st : CacheState) : CoreOp → CacheState
  | .mbyt f pos err => ffmbyt st f pos err
  | .pbyt f n src => ffpbyt st f n src
  | .gbyt f n dst => (ffgbyt st f n dst).1
  | .pbytoff f gsize ngroups offset src => ffpbytoff st f gsize ngroups offset src
  | .gbytoff f gsize ngroups offset dst => (ffgbytoff st f gsize ngroups offset dst).1
  | .ldrc f record err => ffldrc st f record err
  | .whbf f => (ffwhbf st f).1
  | .bfwt n => ffbfwt st n
  | .flsh f clear => ffflsh st f clear
  | .bfeof f => ffbfeof st f

/-- Counterexample for C9: the age index at process start is the all-zero
array the C runtime initialises the globals to — not a permutation of
`0..NIOBUF-1`.  The claim's "at all times, including before every core
operation from process start" is therefore false. -/
theorem age_permutation_counterexample :
    initState.ageindex = List.replicate NIOBUF 0 ∧
    ¬ initState.ageindex.Perm (List.range NIOBUF) := by
  constructor
  · rfl
  · intro h
    have h0 : (1 : Nat) ∈ initState.ageindex := h.mem_iff.mpr (by decide)
    have := List.eq_of_mem_replicate h0
    omega

/-- C9 (amended).  Every core operation preserves the age invariant: once
the selector's one-time initialisation has run, the age index is a
permutation of `0..NIOBUF-1` (before that it is still the all-zero array),
and every file's `curbuf` stays in range.  Together with
`age_permutation_counterexample`, this pins the claim down to: the age
index is a permutation at all times from the first victim-selector call
onwards. -/
theorem age_permutation_preserved (op : CoreOp) (st : CacheState) (hA : AgeOK st) :
    AgeOK (applyOp st op) := by
  cases op with
  | mbyt f pos err => exact ageOK_ffmbyt st f pos err hA
  | pbyt f n src => exact ageOK_ffpbyt st f n src hA
  | gbyt f n dst => exact ageOK_ffgbyt st f n dst hA
  | pbytoff f gsize ngroups offset src => exact ageOK_ffpbytoff st f gsize ngroups offset src hA
  | gbytoff f gsize ngroups offset dst => exact ageOK_ffgbytoff st f gsize ngroups offset dst hA
  | ldrc f record err => exact ageOK_ffldrc st f record err hA
  | whbf f => exact ageOK_ffwhbf st f hA
  | bfwt n => exact ageOK_ffbfwt st n hA
  | flsh f clear => exact ageOK_ffflsh st f clear hA
  | bfeof f => exact ageOK_ffbfeof st f hA

theorem ageOK_initState : AgeOK initState := by
  refine ⟨?_, ?_, ?_⟩
  · intro h; cases h
  · intro _; rfl
  · intro g; norm_num [initState, file0, NIOBUF]

/-- Witness for the amended C9: from the process-start state, a load
establishes the invariant concretely — after it, the age index is a
permutation of `0..39`. -/
theorem age_permutation_preserved_witness :
    AgeOK (applyOp initState (CoreOp.ldrc 0 0 IGNORE_EOF)) ∧
    (applyOp initState (CoreOp.ldrc 0 0 IGNORE_EOF)).ageinit = true ∧
    (applyOp initState (CoreOp.ldrc 0 0 IGNORE_EOF)).ageindex.Perm (List.range NIOBUF) := by
  have h := age_permutation_preserved (CoreOp.ldrc 0 0 IGNORE_EOF) initState ageOK_initState
  refine ⟨h, by decide, ?_⟩
  exact h.1 (by decide)

end Buffers

namespace Buffers

/-! ## Claim C3: writeback on a failing collaborator write -/

theorem selectMin_inv (st : CacheState) (F minrec i0 b0 : Nat) :
    selectMin st F minrec i0 b0 = (i0, b0) ∨
    (minrec ≤ (selectMin st F minrec i0 b0).1 ∧ (selectMin st F minrec i0 b0).1 < i0) := by
  unfold selectMin
  generalize List.range NIOBUF = l
  suffices h : ∀ (p : Nat × Nat), (p = (i0, b0) ∨ (minrec ≤ p.1 ∧ p.1 < i0)) →
      (l.foldl (fun p ii =>
        if st.bufptr ii = some F ∧ minrec ≤ st.bufrecnum ii ∧ st.bufrecnum ii < p.1
        then (st.bufrecnum ii, ii) else p) p = (i0, b0) ∨
      (minrec ≤ (l.foldl (fun p ii =>
        if st.bufptr ii = some F ∧ minrec ≤ st.bufrecnum ii ∧ st.bufrecnum ii < p.1
        then (st.bufrecnum ii, ii) else p) p).1 ∧
      (l.foldl (fun p ii =>
        if st.bufptr ii = some F ∧ minrec ≤ st.bufrecnum ii ∧ st.bufrecnum ii < p.1
        then (st.bufrecnum ii, ii) else p) p).1 < i0)) by
    exact h (i0, b0) (Or.inl rfl)
  induction l with
  | nil => intro p hp; exact hp
  | cons x t ih =>
    intro p hp
    rw [List.foldl_cons]
    apply ih
    split
    · rename_i hcond
      right
      refine ⟨hcond.2.1, ?_⟩
      rcases hp with rfl | ⟨_, hlt⟩
      · exact hcond.2.2
      · exact lt_trans hcond.2.2 hlt
    · exact hp

theorem ffbfwtBody_snd (F nbuff : Nat) (st : CacheState) :
    (ffbfwtBody F nbuff st).2 =
      (selectMin st F ((st.files F).filesize / IOBUFLEN) (st.bufrecnum nbuff) nbuff).2 := rfl

theorem writeZeros_files (F k : Nat) :
    ∀ st : CacheState, (writeZeros st F k).files = st.files := by
  induction k with
  | zero => intro st; rfl
  | succ m ih =>
    intro st
    rw [writeZeros, ih, ffwrite_files]

theorem ffbfwtBody_bufrecnum (F nbuff : Nat) (st : CacheState) :
    (ffbfwtBody F nbuff st).1.bufrecnum = st.bufrecnum :=
  (wb_ffbfwtBody F nbuff st).2.1

theorem ffbfwtBody_filesize (F nbuff : Nat) (st : CacheState) :
    ((ffbfwtBody F nbuff st).1.files F).filesize =
      (if (st.files F).filesize <
          (selectMin st F ((st.files F).filesize / IOBUFLEN)
            (st.bufrecnum nbuff) nbuff).1 * IOBUFLEN then
        (selectMin st F ((st.files F).filesize / IOBUFLEN)
          (st.bufrecnum nbuff) nbuff).1 * IOBUFLEN
      else (st.files F).filesize) + IOBUFLEN := by
  have hsetfs : ∀ (s : CacheState) (v : Nat), ((setFilesize s F v).files F).filesize = v := by
    intro s v
    simp [setFilesize]
  unfold ffbfwtBody
  dsimp only
  rw [hsetfs]
  congr 1
  rw [ffwrite_files]
  split
  · rw [hsetfs]
  · rfl

theorem ffbfwtBody_clears (F nbuff : Nat) (st : CacheState)
    (h : (ffbfwtBody F nbuff st).2 = nbuff) :
    (ffbfwtBody F nbuff st).1.dirty nbuff = false := by
  unfold ffbfwtBody at h ⊢
  dsimp only at h ⊢
  rw [setFilesize, updFile_dirty]
  dsimp only
  rw [h]
  simp

theorem ffbfwtLoop_clears (F nbuff : Nat) :
    ∀ (fuel : Nat) (st : CacheState),
      st.bufrecnum nbuff + 1 - (st.files F).filesize / IOBUFLEN ≤ fuel →
      (st.files F).filesize / IOBUFLEN ≤ st.bufrecnum nbuff →
      (ffbfwtLoop F nbuff fuel st).dirty nbuff = false := by
  intro fuel
  induction fuel with
  | zero => intro st h1 h2; omega
  | succ m ih =>
    intro st h1 h2
    rw [ffbfwtLoop]
    by_cases hsel : (ffbfwtBody F nbuff st).2 = nbuff
    · rw [if_pos hsel]
      exact ffbfwtBody_clears F nbuff st hsel
    · rw [if_neg hsel]
      have hLpos : 0 < IOBUFLEN := by norm_num [IOBUFLEN]
      rw [ffbfwtBody_snd] at hsel
      have hinv := selectMin_inv st F ((st.files F).filesize / IOBUFLEN)
        (st.bufrecnum nbuff) nbuff
      rcases hinv with heq | ⟨hge, hlt⟩
      · exact absurd (by rw [heq]) hsel
      · set sel := selectMin st F ((st.files F).filesize / IOBUFLEN)
          (st.bufrecnum nbuff) nbuff with hseldef
        have hrec : (ffbfwtBody F nbuff st).1.bufrecnum = st.bufrecnum :=
          ffbfwtBody_bufrecnum F nbuff st
        have hfs := ffbfwtBody_filesize F nbuff st
        have hminrec' : ((ffbfwtBody F nbuff st).1.files F).filesize / IOBUFLEN
            = (if (st.files F).filesize < sel.1 * IOBUFLEN then sel.1
               else (st.files F).filesize / IOBUFLEN) + 1 := by
          rw [hfs]
          split
          · rw [Nat.add_div_right _ hLpos, Nat.mul_div_cancel _ hLpos]
          · rw [Nat.add_div_right _ hLpos]
        have hup : sel.1 + 1 ≤ ((ffbfwtBody F nbuff st).1.files F).filesize / IOBUFLEN := by
          rw [hminrec']
          split
          · omega
          · rename_i hng
            have : sel.1 * IOBUFLEN ≤ (st.files F).filesize := le_of_not_lt hng
            have := Nat.le_div_iff_mul_le hLpos |>.mpr (by omega : sel.1 * IOBUFLEN ≤ (st.files F).filesize)
            omega
        have hdown : ((ffbfwtBody F nbuff st).1.files F).filesize / IOBUFLEN ≤
            st.bufrecnum nbuff := by
          rw [hminrec']
          split
          · omega
          · omega
        apply ih
        · rw [hrec]
          omega
        · rw [hrec]
          exact hdown

/-- C3 (amended).  `ffbfwt` clears the dirty flag of the requested buffer
unconditionally — also when the collaborator write fails (no hypothesis on
the error schedule or status appears), and the past-EOF extension loop runs
on to the requested buffer regardless of failures, which is what makes this
provable without any no-error assumption. -/
theorem ffbfwt_clears_dirty (st : CacheState) (nbuff F : Nat)
    (hown : st.bufptr nbuff = some F) :
    (ffbfwt st nbuff).dirty nbuff = false := by
  unfold ffbfwt
  rw [hown]
  dsimp only
  split
  · simp
  · rename_i hpast
    rw [setIopos, updFile_dirty]
    have hLpos : 0 < IOBUFLEN := by norm_num [IOBUFLEN]
    have hlt : (st.files F).filesize < st.bufrecnum nbuff * IOBUFLEN := by omega
    have hminrec : (st.files F).filesize / IOBUFLEN ≤ st.bufrecnum nbuff := by
      have := (Nat.div_lt_iff_lt_mul hLpos).mpr hlt
      omega
    apply ffbfwtLoop_clears
    · split
      · exact Nat.sub_le _ _
      · exact Nat.sub_le _ _
    · split
      · exact hminrec
      · exact hminrec

/-- A state with one dirty slot owned by file 0 at record 0, and a driver
that fails the next write. -/
def stW : CacheState :=
  { initState with
    bufptr := fun i => if i = 0 then some 0 else none,
    dirty := fun i => i == 0,
    werr := [true] }

/-- Counterexample for C3: the collaborator write fails (`WRITE_ERROR` is
reported) yet the dirty flag of the written slot is cleared, so no retry is
possible — the claim that a failing write leaves the flag set is false. -/
theorem writeback_error_counterexample :
    (ffbfwt stW 0).stat = WRITE_ERROR ∧ (ffbfwt stW 0).dirty 0 = false := by
  constructor
  · rfl
  · rfl

/-- Witness for the amended C3 at the same concrete failing-write state. -/
theorem ffbfwt_clears_dirty_witness :
    stW.bufptr 0 = some 0 ∧ (ffbfwt stW 0).dirty 0 = false :=
  ⟨rfl, ffbfwt_clears_dirty stW 0 0 rfl⟩

end Buffers

namespace Buffers

/-! ## Claim C4: selection and write ordering in the past-EOF extension loop -/

/-- The fold step of `ffbfwt`'s inner scan (the `for (ii = 0; ...)` loop
body): replace the candidate when slot `ii` is owned by `F`, its record is
at or beyond `minrec`, and it is lower than the candidate's record. -/
def selStep (st : CacheState) (F minrec : Nat) (p : Nat × Nat) (ii : Nat) : Nat × Nat :=
  if st.bufptr ii = some F ∧ minrec ≤ st.bufrecnum ii ∧ st.bufrecnum ii < p.1
  then (st.bufrecnum ii, ii) else p

theorem selectMin_eq_fold (st : CacheState) (F minrec i0 b0 : Nat) :
    selectMin st F minrec i0 b0 =
      (List.range NIOBUF).foldl (selStep st F minrec) (i0, b0) := rfl

theorem selStep_fold_min (st : CacheState) (F minrec : Nat) :
    ∀ (l : List Nat) (p : Nat × Nat),
      (l.foldl (selStep st F minrec) p).1 ≤ p.1 ∧
      ∀ ii ∈ l, st.bufptr ii = some F → minrec ≤ st.bufrecnum ii →
        (l.foldl (selStep st F minrec) p).1 ≤ st.bufrecnum ii := by
  intro l
  induction l with
  | nil =>
    intro p
    exact ⟨le_refl _, by intro ii h; simp at h⟩
  | cons x t ih =>
    intro p
    rw [List.foldl_cons]
    have hstep : (selStep st F minrec p x).1 ≤ p.1 := by
      unfold selStep
      split
      · rename_i hc
        exact le_of_lt hc.2.2
      · exact le_refl _
    refine ⟨le_trans (ih (selStep st F minrec p x)).1 hstep, ?_⟩
    intro ii hii hown hge
    rcases List.mem_cons.mp hii with rfl | hmem
    · by_cases hlt : st.bufrecnum ii < p.1
      · have hsx : selStep st F minrec p ii = (st.bufrecnum ii, ii) := by
          unfold selStep
          rw [if_pos ⟨hown, hge, hlt⟩]
        rw [hsx]
        exact (ih (st.bufrecnum ii, ii)).1
      · exact le_trans (le_trans (ih (selStep st F minrec p ii)).1 hstep) (le_of_not_lt hlt)
    · exact (ih (selStep st F minrec p x)).2 ii hmem hown hge

theorem selStep_fold_owner (st : CacheState) (F minrec : Nat) :
    ∀ (l : List Nat) (p : Nat × Nat),
      (p = (l.foldl (selStep st F minrec) p) ∨
        (st.bufptr (l.foldl (selStep st F minrec) p).2 = some F ∧
         st.bufrecnum (l.foldl (selStep st F minrec) p).2 =
           (l.foldl (selStep st F minrec) p).1)) := by
  intro l
  induction l with
  | nil =>
    intro p
    exact Or.inl rfl
  | cons x t ih =>
    intro p
    rw [List.foldl_cons]
    rcases ih (selStep st F minrec p x) with h | h
    · rw [← h]
      unfold selStep
      split
      · rename_i hc
        exact Or.inr ⟨hc.1, rfl⟩
      · exact Or.inl rfl
    · exact Or.inr h

theorem selectMin_le_init (st : CacheState) (F minrec i0 b0 : Nat) :
    (selectMin st F minrec i0 b0).1 ≤ i0 := by
  rw [selectMin_eq_fold]
  exact (selStep_fold_min st F minrec (List.range NIOBUF) (i0, b0)).1

theorem selectMin_min (st : CacheState) (F minrec i0 b0 : Nat) :
    ∀ ii, ii < NIOBUF → st.bufptr ii = some F → minrec ≤ st.bufrecnum ii →
      (selectMin st F minrec i0 b0).1 ≤ st.bufrecnum ii := by
  intro ii hii hown hge
  rw [selectMin_eq_fold]
  exact (selStep_fold_min st F minrec (List.range NIOBUF) (i0, b0)).2 ii
    (List.mem_range.mpr hii) hown hge

theorem selectMin_owner (st : CacheState) (F minrec i0 b0 : Nat) :
    selectMin st F minrec i0 b0 = (i0, b0) ∨
    (st.bufptr (selectMin st F minrec i0 b0).2 = some F ∧
     st.bufrecnum (selectMin st F minrec i0 b0).2 = (selectMin st F minrec i0 b0).1) := by
  rw [selectMin_eq_fold]
  rcases selStep_fold_owner st F minrec (List.range NIOBUF) (i0, b0) with h | h
  · exact Or.inl h.symm
  · exact Or.inr h

/-- A `Chain'` list stays a `Chain'` when an element above all its members
is appended. -/
theorem chain_append_one {α : Type} {R : α → α → Prop} (a : α) :
    ∀ (l : List α), List.Chain' R l → (∀ x ∈ l, R x a) → List.Chain' R (l ++ [a]) := by
  intro l
  induction l with
  | nil =>
    intro _ _
    exact List.chain'_singleton a
  | cons x t ih =>
    intro hch h
    cases t with
    | nil =>
      exact List.chain'_cons.mpr ⟨h x (by simp), List.chain'_singleton a⟩
    | cons y u =>
      rw [List.chain'_cons] at hch
      have hrest := ih hch.2 (fun z hz => h z (List.mem_cons_of_mem _ hz))
      exact List.chain'_cons.mpr ⟨hch.1, hrest⟩

/-- Since the snapshot `base` of the write log, only writes for file `F`
were issued, at strictly increasing offsets; every logged write has
positive size and ends at or before `F`'s current OS position. -/
def wlogMono (F : Nat) (base : List (Nat × Nat × Nat)) (st : CacheState) : Prop :=
  ∃ tr, st.wlog = base ++ tr ∧
    List.Chain' (fun a b : Nat × Nat × Nat => a.2.1 < b.2.1) tr ∧
    ∀ e ∈ tr, e.1 = F ∧ 1 ≤ e.2.2 ∧ e.2.1 + e.2.2 ≤ st.ospos F

theorem wlogMono_of_eq (F : Nat) (base : List (Nat × Nat × Nat)) (s s' : CacheState)
    (h1 : s'.wlog = s.wlog) (h2 : s'.ospos F = s.ospos F) :
    wlogMono F base s → wlogMono F base s' := by
  rintro ⟨tr, htr, hch, hall⟩
  refine ⟨tr, by rw [h1, htr], hch, fun e he => ?_⟩
  obtain ⟨ha, hb, hc⟩ := hall e he
  refine ⟨ha, hb, ?_⟩
  rw [h2]
  exact hc

theorem wlogMono_ffwrite (F : Nat) (base : List (Nat × Nat × Nat)) (s : CacheState)
    (n : Nat) (src : Nat → Nat) (hn : 1 ≤ n) :
    wlogMono F base s → wlogMono F base (ffwrite s F n src) := by
  rintro ⟨tr, htr, hch, hall⟩
  rcases ffwrite_cases s F n src with h | ⟨_, h⟩ | ⟨_, h⟩
  · rw [h]
    exact ⟨tr, htr, hch, hall⟩
  · rw [h]
    exact ⟨tr, htr, hch, hall⟩
  · rw [h]
    refine ⟨tr ++ [(F, s.ospos F, n)], ?_, ?_, ?_⟩
    · dsimp only
      rw [htr, List.append_assoc]
    · apply chain_append_one _ tr hch
      intro x hx
      obtain ⟨_, hb, hc⟩ := hall x hx
      dsimp only
      omega
    · intro e he
      dsimp only
      rw [updf]
      try dsimp only
      rw [if_pos rfl]
      rcases List.mem_append.mp he with he | he
      · obtain ⟨ha, hb, hc⟩ := hall e he
        exact ⟨ha, hb, by omega⟩
      · have : e = (F, s.ospos F, n) := by
          cases List.mem_singleton.mp he
          rfl
        rw [this]
        exact ⟨rfl, hn, le_refl _⟩

theorem wlogMono_writeZeros (F : Nat) (base : List (Nat × Nat × Nat)) :
    ∀ (k : Nat) (s : CacheState),
      wlogMono F base s → wlogMono F base (writeZeros s F k) := by
  intro k
  induction k with
  | zero =>
    intro s h
    exact h
  | succ m ih =>
    intro s h
    rw [writeZeros]
    exact ih _ (wlogMono_ffwrite F base s IOBUFLEN _ (by decide) h)

theorem wlogMono_setFilesize (F : Nat) (base : List (Nat × Nat × Nat))
    (s : CacheState) (G v : Nat) :
    wlogMono F base s → wlogMono F base (setFilesize s G v) :=
  wlogMono_of_eq F base s _ rfl rfl

theorem wlogMono_ffbfwtBody (F nbuff : Nat) (base : List (Nat × Nat × Nat))
    (s : CacheState) :
    wlogMono F base s → wlogMono F base (ffbfwtBody F nbuff s).1 := by
  intro h
  unfold ffbfwtBody
  dsimp only
  apply wlogMono_setFilesize
  apply wlogMono_of_eq F base _ _ rfl rfl
  apply wlogMono_ffwrite F base _ IOBUFLEN _ (by decide)
  split
  · apply wlogMono_setFilesize
    apply wlogMono_writeZeros
    exact h
  · exact h

theorem wlogMono_ffbfwtLoop (F nbuff : Nat) (base : List (Nat × Nat × Nat)) :
    ∀ (fuel : Nat) (s : CacheState),
      wlogMono F base s → wlogMono F base (ffbfwtLoop F nbuff fuel s) := by
  intro fuel
  induction fuel with
  | zero =>
    intro s h
    exact h
  | succ m ih =>
    intro s h
    rw [ffbfwtLoop]
    by_cases hsel : (ffbfwtBody F nbuff s).2 = nbuff
    · rw [if_pos hsel]
      exact wlogMono_ffbfwtBody F nbuff base s h
    · rw [if_neg hsel]
      exact ih _ (wlogMono_ffbfwtBody F nbuff base s h)

/-- The candidate `ffbfwt`'s extension loop computes at a loop head:
`selectMin` started from the requested buffer, with `minrec` the current
`filesize / IOBUFLEN`. -/
def selRec (s : CacheState) (F nbuff : Nat) : Nat × Nat :=
  selectMin s F ((s.files F).filesize / IOBUFLEN) (s.bufrecnum nbuff) nbuff

/-- C4.  Writeback of a slot lying strictly past EOF: every iteration of the
extension loop writes the slot `selectMin` picks, which is owned by `F` with
record at or beyond `filesize / IOBUFLEN` and minimal such (falling back to
the requested buffer itself); the gap up to that record is filled (the
`filesize` advances to the record's offset plus one block); and the write
log of the whole invocation grows only by writes to `F` at strictly
increasing offsets, so no block is written before a block of lower offset. -/
theorem writeback_order (st : CacheState) (nbuff F : Nat)
    (hown : st.bufptr nbuff = some F)
    (hpast : (st.files F).filesize < st.bufrecnum nbuff * IOBUFLEN) :
    (∀ s : CacheState,
      (ffbfwtBody F nbuff s).2 = (selRec s F nbuff).2 ∧
      (selRec s F nbuff).1 ≤ s.bufrecnum nbuff ∧
      (∀ ii, ii < NIOBUF → s.bufptr ii = some F →
        (s.files F).filesize / IOBUFLEN ≤ s.bufrecnum ii →
        (selRec s F nbuff).1 ≤ s.bufrecnum ii) ∧
      (selRec s F nbuff = (s.bufrecnum nbuff, nbuff) ∨
        (s.bufptr (selRec s F nbuff).2 = some F ∧
         s.bufrecnum (selRec s F nbuff).2 = (selRec s F nbuff).1)) ∧
      ((ffbfwtBody F nbuff s).1.files F).filesize =
        (if (s.files F).filesize < (selRec s F nbuff).1 * IOBUFLEN
         then (selRec s F nbuff).1 * IOBUFLEN
         else (s.files F).filesize) + IOBUFLEN) ∧
    (∃ tr, (ffbfwt st nbuff).wlog = st.wlog ++ tr ∧
      List.Chain' (fun a b : Nat × Nat × Nat => a.2.1 < b.2.1) tr ∧
      ∀ e ∈ tr, e.1 = F) := by
  constructor
  · intro s
    refine ⟨ffbfwtBody_snd F nbuff s, selectMin_le_init s F _ _ nbuff,
      selectMin_min s F _ _ nbuff, selectMin_owner s F _ _ nbuff, ?_⟩
    exact ffbfwtBody_filesize F nbuff s
  · unfold ffbfwt
    rw [hown]
    dsimp only
    rw [if_neg (not_le.mpr hpast)]
    have hbase : wlogMono F st.wlog
        (if (st.files F).io_pos ≠ (st.files F).filesize then
          ffseek st F (st.files F).filesize
        else st) := by
      refine ⟨[], ?_, List.chain'_nil, ?_⟩
      · rw [List.append_nil]
        split
        · rfl
        · rfl
      · intro e he
        simp at he
    obtain ⟨tr, htr, hch, hall⟩ :=
      wlogMono_ffbfwtLoop F nbuff st.wlog (st.bufrecnum nbuff + 1) _ hbase
    refine ⟨tr, ?_, hch, fun e he => (hall e he).1⟩
    rw [setIopos, updFile_wlog]
    exact htr

/-- A past-EOF configuration: slot 0 is owned by file 0 at record 2 while
the file's physical size is 0. -/
def stW2 : CacheState :=
  { initState with
    bufptr := fun i => if i = 0 then some 0 else none,
    bufrecnum := fun i => if i = 0 then 2 else 0,
    dirty := fun i => i == 0 }

/-- Witness for C4 at the concrete past-EOF state `stW2`. -/
theorem writeback_order_witness :
    stW2.bufptr 0 = some 0 ∧
    (stW2.files 0).filesize < stW2.bufrecnum 0 * IOBUFLEN ∧
    ∃ tr, (ffbfwt stW2 0).wlog = stW2.wlog ++ tr ∧
      List.Chain' (fun a b : Nat × Nat × Nat => a.2.1 < b.2.1) tr ∧
      ∀ e ∈ tr, e.1 = 0 :=
  ⟨rfl, by decide, (writeback_order stW2 0 0 rfl (by decide)).2⟩

end Buffers

namespace Buffers

/-! ## Claim C2: gap fill bytes of the past-EOF extension -/

theorem selectMin_self (st : CacheState) (F minrec i0 b0 : Nat)
    (h : ∀ ii, ¬(st.bufptr ii = some F ∧ minrec ≤ st.bufrecnum ii ∧
      st.bufrecnum ii < i0)) :
    selectMin st F minrec i0 b0 = (i0, b0) := by
  rw [selectMin_eq_fold]
  generalize List.range NIOBUF = l
  induction l with
  | nil => rfl
  | cons x t ih =>
    have hx : selStep st F minrec (i0, b0) x = (i0, b0) := by
      unfold selStep
      exact if_neg (h x)
    rw [List.foldl_cons, hx]
    exact ih

/-- A driver write with clean status and an empty error schedule succeeds. -/
theorem ffwrite_success (s : CacheState) (f n : Nat) (src : Nat → Nat)
    (h0 : s.stat = 0) (hw : s.werr = []) :
    ffwrite s f n src =
      { s with
        disk := fun g i =>
          if g = f ∧ s.ospos f ≤ i ∧ i < s.ospos f + n then src (i - s.ospos f)
          else s.disk g i,
        disklen := updf s.disklen f (max (s.disklen f) (s.ospos f + n)),
        ospos := updf s.ospos f (s.ospos f + n),
        werr := [],
        wlog := s.wlog ++ [(f, s.ospos f, n)] } := by
  unfold ffwrite
  rw [hw, if_neg (by omega)]
  rfl

theorem ffwrite_success_fields (s : CacheState) (f n : Nat) (src : Nat → Nat)
    (h0 : s.stat = 0) (hw : s.werr = []) :
    (ffwrite s f n src).stat = 0 ∧
    (ffwrite s f n src).werr = [] ∧
    (ffwrite s f n src).ospos f = s.ospos f + n ∧
    (ffwrite s f n src).disklen f = max (s.disklen f) (s.ospos f + n) ∧
    (∀ g i, (ffwrite s f n src).disk g i =
      if g = f ∧ s.ospos f ≤ i ∧ i < s.ospos f + n then src (i - s.ospos f)
      else s.disk g i) := by
  rw [ffwrite_success s f n src h0 hw]
  refine ⟨h0, rfl, ?_, ?_, fun g i => rfl⟩
  · show updf s.ospos f (s.ospos f + n) f = s.ospos f + n
    simp [updf]
  · show updf s.disklen f (max (s.disklen f) (s.ospos f + n)) f
      = max (s.disklen f) (s.ospos f + n)
    simp [updf]

theorem writeZeros_effect (F : Nat) :
    ∀ (j : Nat) (s : CacheState), s.stat = 0 → s.werr = [] →
      s.ospos F ≤ s.disklen F →
      (writeZeros s F j).stat = 0 ∧ (writeZeros s F j).werr = [] ∧
      (writeZeros s F j).ospos F = s.ospos F + j * IOBUFLEN ∧
      (writeZeros s F j).disklen F = max (s.disklen F) (s.ospos F + j * IOBUFLEN) ∧
      (∀ i, (writeZeros s F j).disk F i =
        if s.ospos F ≤ i ∧ i < s.ospos F + j * IOBUFLEN then 0 else s.disk F i) ∧
      (writeZeros s F j).iobuffer = s.iobuffer ∧
      (writeZeros s F j).files = s.files := by
  intro j
  induction j with
  | zero =>
    intro s h0 hw hle
    refine ⟨h0, hw, ?_, ?_, ?_, rfl, rfl⟩
    · show s.ospos F = s.ospos F + 0 * IOBUFLEN
      omega
    · show s.disklen F = max (s.disklen F) (s.ospos F + 0 * IOBUFLEN)
      omega
    · intro i
      show s.disk F i =
        if s.ospos F ≤ i ∧ i < s.ospos F + 0 * IOBUFLEN then 0 else s.disk F i
      rw [if_neg (by omega)]
  | succ q ih =>
    intro s h0 hw hle
    rw [writeZeros]
    obtain ⟨f1, f2, f3, f4, f5⟩ :=
      ffwrite_success_fields s F IOBUFLEN (fun _ => 0) h0 hw
    have hle' : (ffwrite s F IOBUFLEN (fun _ => 0)).ospos F ≤
        (ffwrite s F IOBUFLEN (fun _ => 0)).disklen F := by
      rw [f3, f4]
      exact le_max_right _ _
    obtain ⟨c1, c2, c3, c4, c5, c6, c7⟩ := ih _ f1 f2 hle'
    rw [f3] at c3 c4 c5
    rw [f4] at c4
    refine ⟨c1, c2, ?_, ?_, ?_, by rw [c6]; simp, by rw [c7]; simp⟩
    · rw [c3]
      ring
    · rw [c4, Nat.succ_mul]
      omega
    · intro i
      rw [c5 i, Nat.succ_mul, f5 F i]
      by_cases hin1 : s.ospos F + IOBUFLEN ≤ i ∧ i < s.ospos F + IOBUFLEN + q * IOBUFLEN
      · rw [if_pos hin1, if_pos (by omega : s.ospos F ≤ i ∧ i < s.ospos F + (q * IOBUFLEN + IOBUFLEN))]
      · rw [if_neg hin1]
        by_cases hin2 : F = F ∧ s.ospos F ≤ i ∧ i < s.ospos F + IOBUFLEN
        · rw [if_pos hin2, if_pos (by omega : s.ospos F ≤ i ∧ i < s.ospos F + (q * IOBUFLEN + IOBUFLEN))]
        · rw [if_neg hin2]
          have hn : ¬(s.ospos F ≤ i ∧ i < s.ospos F + (q * IOBUFLEN + IOBUFLEN)) := by
            intro hc
            rcases Nat.lt_or_ge i (s.ospos F + IOBUFLEN) with hlt | hge
            · exact hin2 ⟨rfl, hc.1, hlt⟩
            · exact hin1 ⟨hge, by omega⟩
          rw [if_neg hn]

/-- The state after the gap-fill phase of one `ffbfwt` extension-loop
iteration (the `if (filepos > Fptr->filesize)` block). -/
def ffbfwtGap (F nbuff : Nat) (st : CacheState) : CacheState :=
  let filepos := (selRec st F nbuff).1 * IOBUFLEN
  if (st.files F).filesize < filepos then
    setFilesize (writeZeros st F ((filepos - (st.files F).filesize) / IOBUFLEN)) F filepos
  else st

theorem ffbfwtBody_eq (F nbuff : Nat) (st : CacheState) :
    ffbfwtBody F nbuff st =
      (setFilesize
        { ffwrite (ffbfwtGap F nbuff st) F IOBUFLEN
            ((ffbfwtGap F nbuff st).iobuffer (selRec st F nbuff).2) with
          dirty := fun j => if j = (selRec st F nbuff).2 then false
            else (ffwrite (ffbfwtGap F nbuff st) F IOBUFLEN
              ((ffbfwtGap F nbuff st).iobuffer (selRec st F nbuff).2)).dirty j }
        F
        (((ffwrite (ffbfwtGap F nbuff st) F IOBUFLEN
            ((ffbfwtGap F nbuff st).iobuffer (selRec st F nbuff).2)).files F).filesize
          + IOBUFLEN),
       (selRec st F nbuff).2) := rfl

set_option maxHeartbeats 1000000 in
/-- One extension-loop iteration on the scenario of a single dirty block of
`F` held in slot 0 at record `k`, past a block-aligned EOF `m * IOBUFLEN`:
the selected slot is slot 0, the file grows to `(k + 1)` blocks, the gap
`[m * IOBUFLEN, k * IOBUFLEN)` is zero-filled on disk and the block itself
lands at `[k * IOBUFLEN, (k + 1) * IOBUFLEN)`. -/
theorem ffbfwtBody_ext_effect (st1 : CacheState) (F m k : Nat)
    (hmk : m < k)
    (hrec : st1.bufrecnum 0 = k)
    (hothers : ∀ i, i ≠ 0 → st1.bufptr i ≠ some F)
    (hfs : (st1.files F).filesize = m * IOBUFLEN)
    (hdl : st1.disklen F = m * IOBUFLEN)
    (hop : st1.ospos F = m * IOBUFLEN)
    (hst : st1.stat = 0)
    (hwe : st1.werr = []) :
    (ffbfwtBody F 0 st1).2 = 0 ∧
    ((ffbfwtBody F 0 st1).1.files F).filesize = (k + 1) * IOBUFLEN ∧
    (ffbfwtBody F 0 st1).1.disklen F = (k + 1) * IOBUFLEN ∧
    (∀ i, m * IOBUFLEN ≤ i → i < k * IOBUFLEN →
      (ffbfwtBody F 0 st1).1.disk F i = 0) ∧
    (∀ j, j < IOBUFLEN →
      (ffbfwtBody F 0 st1).1.disk F (k * IOBUFLEN + j) = st1.iobuffer 0 j) := by
  have hL : 0 < IOBUFLEN := by decide
  have hsel : selectMin st1 F ((st1.files F).filesize / IOBUFLEN)
      (st1.bufrecnum 0) 0 = (st1.bufrecnum 0, 0) := by
    apply selectMin_self
    intro ii
    rintro ⟨hcown, _, hclt⟩
    by_cases h0 : ii = 0
    · subst h0
      exact absurd hclt (lt_irrefl _)
    · exact hothers ii h0 hcown
  have hselRec : selRec st1 F 0 = (k, 0) := by
    unfold selRec
    rw [hsel, hrec]
  have hdiv : (k * IOBUFLEN - m * IOBUFLEN) / IOBUFLEN = k - m := by
    rw [← Nat.sub_mul]
    exact Nat.mul_div_cancel _ hL
  have hlt : m * IOBUFLEN < k * IOBUFLEN := (mul_lt_mul_right hL).mpr hmk
  have hgap : ffbfwtGap F 0 st1 =
      setFilesize (writeZeros st1 F (k - m)) F (k * IOBUFLEN) := by
    unfold ffbfwtGap
    rw [hselRec]
    dsimp only
    rw [hfs, if_pos hlt, hdiv]
  obtain ⟨w1, w2, w3, w4, w5, w6, w7⟩ :=
    writeZeros_effect F (k - m) st1 hst hwe (by rw [hop, hdl])
  rw [hop] at w3 w4 w5
  rw [hdl] at w4
  have hmmk : m + (k - m) = k := by omega
  rw [← Nat.add_mul, hmmk] at w3 w4
  have hw4 : (writeZeros st1 F (k - m)).disklen F = k * IOBUFLEN := by
    rw [w4]
    omega
  -- the gap-phase state
  have hG1 : (ffbfwtGap F 0 st1).stat = 0 := by
    rw [hgap, setFilesize, updFile_stat]
    exact w1
  have hG2 : (ffbfwtGap F 0 st1).werr = [] := by
    rw [hgap, setFilesize, updFile_werr]
    exact w2
  have hG3 : (ffbfwtGap F 0 st1).ospos F = k * IOBUFLEN := by
    rw [hgap, setFilesize, updFile_ospos]
    exact w3
  have hG4 : (ffbfwtGap F 0 st1).disklen F = k * IOBUFLEN := by
    rw [hgap, setFilesize, updFile_disklen]
    exact hw4
  have hG5 : ∀ i, (ffbfwtGap F 0 st1).disk F i =
      if m * IOBUFLEN ≤ i ∧ i < k * IOBUFLEN then 0 else st1.disk F i := by
    intro i
    rw [hgap, setFilesize, updFile_disk, w5 i]
    rw [← Nat.add_mul, hmmk]
  have hG6 : (ffbfwtGap F 0 st1).iobuffer = st1.iobuffer := by
    rw [hgap, setFilesize, updFile_iobuffer]
    exact w6
  have hG7 : ((ffbfwtGap F 0 st1).files F).filesize = k * IOBUFLEN := by
    rw [hgap]
    simp [setFilesize]
  -- the block write
  obtain ⟨e1, e2, e3, e4, e5⟩ := ffwrite_success_fields (ffbfwtGap F 0 st1) F IOBUFLEN
    ((ffbfwtGap F 0 st1).iobuffer (selRec st1 F 0).2) hG1 hG2
  have hE : (ffbfwtBody F 0 st1).1.disk =
      (ffwrite (ffbfwtGap F 0 st1) F IOBUFLEN
        ((ffbfwtGap F 0 st1).iobuffer (selRec st1 F 0).2)).disk := by
    rw [ffbfwtBody_eq]
    rfl
  have hEdl : (ffbfwtBody F 0 st1).1.disklen =
      (ffwrite (ffbfwtGap F 0 st1) F IOBUFLEN
        ((ffbfwtGap F 0 st1).iobuffer (selRec st1 F 0).2)).disklen := by
    rw [ffbfwtBody_eq]
    rfl
  have hEfs : ((ffbfwtBody F 0 st1).1.files F).filesize =
      ((ffwrite (ffbfwtGap F 0 st1) F IOBUFLEN
        ((ffbfwtGap F 0 st1).iobuffer (selRec st1 F 0).2)).files F).filesize
        + IOBUFLEN := by
    rw [ffbfwtBody_eq]
    dsimp only
    rw [setFilesize, updFile_files]
    rw [if_pos rfl]
  refine ⟨?_, ?_, ?_, ?_, ?_⟩
  · rw [ffbfwtBody_snd, hsel]
  · rw [hEfs, ffwrite_files, hG7, Nat.succ_mul]
  · rw [hEdl, e4, hG4, hG3, Nat.succ_mul]
    omega
  · intro i h1 h2
    rw [hE, e5 F i, hG3]
    rw [if_neg (by rintro ⟨_, hc, _⟩; omega)]
    rw [hG5 i, if_pos ⟨h1, h2⟩]
  · intro j hj
    rw [hE, e5 F (k * IOBUFLEN + j), hG3]
    rw [if_pos ⟨rfl, Nat.le_add_right _ _, by omega⟩]
    rw [hG6, hselRec, Nat.add_sub_cancel_left]

theorem ffflsh_fold_skip (F : Nat) (cb : Bool) :
    ∀ (l : List Nat) (s : CacheState), (∀ i ∈ l, s.bufptr i ≠ some F) →
      l.foldl (fun s ii =>
        if s.bufptr ii = some F then
          let s1 := if s.dirty ii then ffbfwt s ii else s
          if cb then { s1 with bufptr := updf s1.bufptr ii none } else s1
        else s) s = s := by
  intro l
  induction l with
  | nil =>
    intro s _
    rfl
  | cons x t ih =>
    intro s h
    rw [List.foldl_cons]
    dsimp only
    rw [if_neg (h x (List.mem_cons_self x t))]
    exact ih s (fun i hi => h i (List.mem_cons_of_mem x hi))

/-- `ffflsh` without buffer clearing, on a file owning exactly the single
dirty slot 0, is the writeback of that slot. -/
theorem ffflsh_single0 (st : CacheState) (F : Nat)
    (hown : st.bufptr 0 = some F)
    (hothers : ∀ i, i ≠ 0 → st.bufptr i ≠ some F)
    (hdirty : st.dirty 0 = true)
    (hbp : (ffbfwt st 0).bufptr = st.bufptr) :
    ffflsh st F false = ffbfwt st 0 := by
  unfold ffflsh
  have hr : List.range NIOBUF = 0 :: List.map Nat.succ (List.range 39) := by rfl
  rw [hr, List.foldl_cons]
  dsimp only
  rw [if_pos hown, if_pos hdirty]
  rw [if_neg (by decide : ¬((false : Bool) = true))]
  apply ffflsh_fold_skip
  intro i hi
  rw [hbp]
  obtain ⟨j, _, rfl⟩ := List.mem_map.mp hi
  exact hothers _ (Nat.succ_ne_zero j)

set_option maxHeartbeats 1000000 in
/-- C2 (amended).  Flushing a file whose single dirty block sits at record
`k` strictly past a block-aligned EOF `m * IOBUFLEN` yields a disk file of
exactly `(k + 1) * IOBUFLEN` bytes with the user data at
`[k * IOBUFLEN, (k + 1) * IOBUFLEN)` — but the gap
`[m * IOBUFLEN, k * IOBUFLEN)` is always zero-filled: the extension loop
writes from the static `zeros` array for every HDU type, so the fill byte
is `0x00` also for an ASCII-table HDU, not the `0x20` the claim states. -/
theorem past_eof_extension (st : CacheState) (F m k : Nat)
    (hmk : m < k)
    (hown : st.bufptr 0 = some F)
    (hrec : st.bufrecnum 0 = k)
    (hothers : ∀ i, i ≠ 0 → st.bufptr i ≠ some F)
    (hdirty : st.dirty 0 = true)
    (hfs : (st.files F).filesize = m * IOBUFLEN)
    (hdl : st.disklen F = m * IOBUFLEN)
    (hop : st.ospos F = m * IOBUFLEN)
    (hst : st.stat = 0)
    (hwe : st.werr = []) :
    ((ffflsh st F false).files F).filesize = (k + 1) * IOBUFLEN ∧
    (ffflsh st F false).disklen F = (k + 1) * IOBUFLEN ∧
    (∀ i, m * IOBUFLEN ≤ i → i < k * IOBUFLEN →
      (ffflsh st F false).disk F i = 0) ∧
    (∀ j, j < IOBUFLEN →
      (ffflsh st F false).disk F (k * IOBUFLEN + j) = st.iobuffer 0 j) := by
  have hflsh : ffflsh st F false = ffbfwt st 0 :=
    ffflsh_single0 st F hown hothers hdirty (wb_ffbfwt st 0 F hown).1
  rw [hflsh]
  have hL : 0 < IOBUFLEN := by decide
  have hlt : m * IOBUFLEN < k * IOBUFLEN := (mul_lt_mul_right hL).mpr hmk
  unfold ffbfwt
  rw [hown]
  dsimp only
  rw [if_neg (by rw [hrec, hfs]; exact not_le.mpr hlt)]
  set s1 := (if (st.files F).io_pos ≠ (st.files F).filesize then
    ffseek st F (st.files F).filesize else st) with hs1
  have a1 : s1.bufrecnum 0 = k := by
    rw [hs1]
    split
    · exact hrec
    · exact hrec
  have a2 : ∀ i, i ≠ 0 → s1.bufptr i ≠ some F := by
    rw [hs1]
    split
    · exact hothers
    · exact hothers
  have a3 : (s1.files F).filesize = m * IOBUFLEN := by
    rw [hs1]
    split
    · exact hfs
    · exact hfs
  have a4 : s1.disklen F = m * IOBUFLEN := by
    rw [hs1]
    split
    · exact hdl
    · exact hdl
  have a5 : s1.ospos F = m * IOBUFLEN := by
    rw [hs1]
    split
    · simp [ffseek, updf, hfs]
    · exact hop
  have a6 : s1.stat = 0 := by
    rw [hs1]
    split
    · exact hst
    · exact hst
  have a7 : s1.werr = [] := by
    rw [hs1]
    split
    · exact hwe
    · exact hwe
  have a8 : s1.iobuffer = st.iobuffer := by
    rw [hs1]
    split
    · rfl
    · rfl
  obtain ⟨p0, p1, p2, p3, p4⟩ :=
    ffbfwtBody_ext_effect s1 F m k hmk a1 a2 a3 a4 a5 a6 a7
  have hloop : ffbfwtLoop F 0 (st.bufrecnum 0 + 1) s1 = (ffbfwtBody F 0 s1).1 := by
    rw [ffbfwtLoop]
    try dsimp only
    rw [if_pos p0]
  rw [hloop]
  have hiofs : ∀ (X : CacheState) (v : Nat),
      ((setIopos X F v).files F).filesize = (X.files F).filesize := by
    intro X v
    simp [setIopos]
  refine ⟨?_, ?_, ?_, ?_⟩
  · rw [hiofs, p1]
  · rw [setIopos, updFile_disklen, p2]
  · intro i h1 h2
    rw [setIopos, updFile_disk]
    exact p3 i h1 h2
  · intro j hj
    rw [setIopos, updFile_disk, p4 j hj, a8]

/-- An ASCII-table file of physical size 0 whose slot 0 holds the block at
record 1, dirty, filled with byte 65. -/
def stA : CacheState :=
  { initState with
    bufptr := fun i => if i = 0 then some 0 else none,
    bufrecnum := fun i => if i = 0 then 1 else 0,
    dirty := fun i => i == 0,
    iobuffer := fun i => fun _ => if i = 0 then 65 else 0,
    files := fun _ => { file0 with hdutype := ASCII_TBL } }

/-- Counterexample for C2: flushing one block written at offset `IOBUFLEN`
of an empty ASCII-table file puts byte `0x00` in the gap, not the ASCII
blank `0x20` the claim requires for ASCII-table HDUs — `ffbfwt` fills from
the static `zeros` array for every HDU type. -/
theorem extension_fill_counterexample :
    (stA.files 0).hdutype = ASCII_TBL ∧
    (ffflsh stA 0 false).disklen 0 = 2 * IOBUFLEN ∧
    (ffflsh stA 0 false).disk 0 0 = 0 ∧
    ¬((ffflsh stA 0 false).disk 0 0 = 32) := by
  refine ⟨rfl, rfl, rfl, ?_⟩
  intro h
  rw [show (ffflsh stA 0 false).disk 0 0 = 0 from rfl] at h
  exact absurd h (by decide)

/-- Witness for the amended C2 at the concrete ASCII-table state `stA`. -/
theorem past_eof_extension_witness :
    (0 : Nat) < 1 ∧
    ((ffflsh stA 0 false).files 0).filesize = (1 + 1) * IOBUFLEN ∧
    (ffflsh stA 0 false).disklen 0 = (1 + 1) * IOBUFLEN ∧
    (∀ i, 0 * IOBUFLEN ≤ i → i < 1 * IOBUFLEN →
      (ffflsh stA 0 false).disk 0 i = 0) ∧
    (∀ j, j < IOBUFLEN →
      (ffflsh stA 0 false).disk 0 (1 * IOBUFLEN + j) = stA.iobuffer 0 j) := by
  have h := past_eof_extension stA 0 0 1 (by decide) rfl rfl
    (by intro i hi; simp [stA, hi]) rfl rfl rfl rfl rfl rfl
  exact ⟨by decide, h.1, h.2.1, h.2.2.1, h.2.2.2⟩

end Buffers

namespace Buffers

/-! ## Claim C1: the write/flush/read round trip -/

/-- Position the cursor at byte 2880 (record 1) of file 0 and write one
byte `65` there, from process start. -/
def rtWrite1 : CacheState :=
  ffpbyt (ffmbyt initState 0 2880 IGNORE_EOF) 0 1 (fun _ => 65)

/-- Flush-and-clear, then seek back to byte 2880: `ffflsh(.., TRUE)` nulls
`bufptr` of the slot but leaves `curbuf` pointing at it, and the seek loads
nothing because the stale slot still carries the matching record number. -/
def rtState : CacheState :=
  ffmbyt (ffflsh rtWrite1 0 true) 0 2880 IGNORE_EOF

/-- Write 5760 bytes of `7` at byte 2880 (the direct path: `MINDIRECT`
reached), then flush. -/
def rtWrite2 : CacheState :=
  ffflsh (ffpbyt rtState 0 5760 (fun _ => 7)) 0 true

/-- Seek back to byte 2880 and read the 5760 bytes just written. -/
def rtRead : CacheState × (Nat → Nat) :=
  ffgbyt (ffmbyt rtWrite2 0 2880 REPORT_EOF) 0 5760 (fun _ => 0)

set_option maxRecDepth 100000 in
set_option maxHeartbeats 2000000 in
/-- C1 fails: the write/flush/read round trip loses data.  Running the
claimed sequence (seek, write, flush-with-clear, seek, read) twice from
process start, the second round returns byte `65` — a leftover of the first
round — instead of the `7` that was written, with a clean status.  The
head block of the direct write is copied into the slot `curbuf` still
names, but that slot was disassociated by the previous flush, so the
flush-affected-buffers loop skips it (NULL `bufptr`) and the last-block
rebuild then overwrites it: bytes `[2880, 5760)` of the second write never
reach the file. -/
theorem round_trip_data_loss :
    rtRead.1.stat = 0 ∧ rtRead.2 0 = 65 ∧ rtRead.2 2880 = 7 ∧
      ¬(rtRead.2 0 = 7) := by
  refine ⟨rfl, rfl, rfl, ?_⟩
  intro h
  rw [show rtRead.2 0 = 65 from rfl] at h
  exact absurd h (by decide)

end Buffers

namespace Buffers

/-! ## Claim C8: the strided round trip -/

theorem updf_updf {α : Type} (f : Nat → α) (i : Nat) (a b : α) :
    updf (updf f i a) i b = updf f i b := by
  funext j
  by_cases h : j = i
  · simp [updf, h]
  · simp [updf, h]

theorem updf_self {α : Type} (f : Nat → α) (i : Nat) :
    updf f i (f i) = f := by
  funext j
  by_cases h : j = i
  · simp [updf, h]
  · simp [updf, h]

/-- `ffmbyt` when the target record matches the current buffer's tag: no
load, only `bytepos` changes (helper for sequencing lemmas). -/
theorem ffmbyt_noload (st : CacheState) (f : Nat) (pos : Int) (err_mode : Nat)
    (hstat : st.stat = 0) (hpos : 0 ≤ pos)
    (hrec : pos.toNat / IOBUFLEN = st.bufrecnum (((st.files f).curbuf).toNat)) :
    ffmbyt st f pos err_mode =
      updFile st f (fun fl => { fl with bytepos := pos.toNat }) := by
  unfold ffmbyt
  rw [if_neg (by omega), if_neg (by omega)]
  simp only [hrec, ne_eq, not_true_eq_false, reduceIte, hstat, if_pos rfl]

theorem updFile_bp_curbuf (st : CacheState) (F : Nat) (h : FITSfile → Nat) :
    ((updFile st F (fun fl => { fl with bytepos := h fl })).files F).curbuf =
      (st.files F).curbuf := by
  simp [updFile]

theorem updFile_bp_bytepos (st : CacheState) (F : Nat) (h : FITSfile → Nat) :
    ((updFile st F (fun fl => { fl with bytepos := h fl })).files F).bytepos =
      h (st.files F) := by
  simp [updFile]

end Buffers

namespace Buffers

/-! ## Claim C8, block-crossing form

The strided transfer is tracked by the flat byte position of each group:
group `t` starts at `gpos t = rn * L + bufpos + t * (gsize + offset)`.  At
every loop head the C cursor satisfies `record = gpos t / L` and
`ioptr offset = gpos t % L`, also across record crossings and the
`(-nspace) % L` rebase after a gap skip.  Crossing loads hit records that
are resident in the pool, so the loader takes its hit path. -/

/-- Flat byte position of the first byte of group `t`. -/
def gpos (rn bufpos gsize offset : Nat) (t : Nat) : Nat :=
  rn * IOBUFLEN + bufpos + t * (gsize + offset)

theorem gpos_succ (rn bufpos gsize offset t : Nat) :
    gpos rn bufpos gsize offset (t + 1) =
      gpos rn bufpos gsize offset t + (gsize + offset) := by
  unfold gpos
  rw [Nat.succ_mul]
  omega

theorem gpos_mono (rn bufpos gsize offset : Nat) {t1 t2 : Nat} (h : t1 ≤ t2) :
    gpos rn bufpos gsize offset t1 ≤ gpos rn bufpos gsize offset t2 := by
  unfold gpos
  have := Nat.mul_le_mul_right (gsize + offset) h
  omega

theorem gpos_ge (rn bufpos gsize offset t : Nat) :
    rn * IOBUFLEN ≤ gpos rn bufpos gsize offset t := by
  unfold gpos
  omega

theorem gpos_div_ge (rn bufpos gsize offset t : Nat) :
    rn ≤ gpos rn bufpos gsize offset t / IOBUFLEN := by
  rw [Nat.le_div_iff_mul_le (by decide : 0 < IOBUFLEN)]
  exact gpos_ge rn bufpos gsize offset t

/-- `ffldrc` on a record resident in a unique slot is the hit path: it only
adopts that slot (no eviction, no EOF guard, no I/O). -/
theorem ffldrc_hit (s : CacheState) (f r nb : Nat) (err : Nat)
    (hperm : s.ageindex.Perm (List.range NIOBUF))
    (hnb : nb < NIOBUF)
    (hown : s.bufptr nb = some f) (hrec : s.bufrecnum nb = r)
    (huni : ∀ b, b < NIOBUF → s.bufptr b = some f → s.bufrecnum b = r → b = nb) :
    ∃ p, p < NIOBUF ∧ s.ageindex.getD p 0 = nb ∧
      ffldrc s f r err = adoptBuf s f nb (some p) := by
  cases hscan : hitScan s f r with
  | none =>
    exact absurd ⟨hown, hrec⟩ ((hitScan_none_iff s f r hperm).mp hscan nb hnb)
  | some hit =>
    obtain ⟨h1, h2, h3, h4⟩ := hitScan_some s f r hit hscan
    have hlen : s.ageindex.length = NIOBUF := by simpa using hperm.length_eq
    have hmem : hit.2 ∈ s.ageindex := by
      rw [← h4, List.getD_eq_getElem _ _ (by omega)]
      exact List.getElem_mem _
    have hlt2 : hit.2 < NIOBUF := List.mem_range.mp (hperm.mem_iff.mp hmem)
    have heq : hit.2 = nb := huni hit.2 hlt2 h1 h2
    refine ⟨hit.1, h3, by rw [h4, heq], ?_⟩
    unfold ffldrc
    rw [hscan]
    dsimp only
    rw [heq]

/-- A `slotWrite` leaves untouched every byte in another slot or outside
the written range. -/
theorem slotWrite_other (s : CacheState) (b off len : Nat) (d : Nat → Nat)
    (b' p' : Nat) (h : b' ≠ b ∨ p' < off ∨ off + len ≤ p') :
    (slotWrite s b off len d).iobuffer b' p' = s.iobuffer b' p' := by
  unfold slotWrite
  dsimp only
  rw [updf_eval]
  by_cases hb : b' = b
  · rw [if_pos hb]
    unfold ovw
    rw [if_neg ?_]
    · rw [hb]
    · rcases h with h | h | h
      · exact absurd hb h
      · omega
      · omega
  · rw [if_neg hb]

/-- A `slotWrite` puts `d q` at offset `off + q` of the written slot. -/
theorem slotWrite_at (s : CacheState) (b off len : Nat) (d : Nat → Nat)
    (q : Nat) (hq : q < len) :
    (slotWrite s b off len d).iobuffer b (off + q) = d q := by
  unfold slotWrite
  dsimp only
  rw [updf_eval, if_pos rfl]
  unfold ovw
  rw [if_pos ⟨by omega, by omega⟩]
  congr 1
  omega

end Buffers

namespace Buffers

/-- Bytes of the first `t` groups, as laid out in the resident slots: group
`t'` byte `q` sits in the slot of record `(gpos t' + q) / L` at in-slot
offset `(gpos t' + q) % L`. -/
def WContent (σ : Nat → Nat) (rn bufpos gsize offset : Nat) (src : Nat → Nat)
    (t : Nat) (s : CacheState) : Prop :=
  ∀ t' q, t' < t → q < gsize →
    s.iobuffer (σ ((gpos rn bufpos gsize offset t' + q) / IOBUFLEN - rn))
      ((gpos rn bufpos gsize offset t' + q) % IOBUFLEN) = src (t' * gsize + q)

/-- The write-loop invariant at the head of group `t`: clean status, pool
tags and the age permutation intact, the slot of the current record
current, the first `t` groups in place, and the C cursor variables equal to
the flat-position decomposition of `gpos t`. -/
def WConf (st : CacheState) (F : Nat) (σ : Nat → Nat)
    (rn bufpos gsize offset : Nat) (src : Nat → Nat)
    (t : Nat) (c : CacheState × Nat × Nat × Int × Int × Nat) : Prop :=
  c.1.stat = 0 ∧
  c.1.bufptr = st.bufptr ∧
  c.1.bufrecnum = st.bufrecnum ∧
  c.1.ageindex.Perm (List.range NIOBUF) ∧
  (c.1.files F).curbuf =
    ((σ (gpos rn bufpos gsize offset t / IOBUFLEN - rn) : Nat) : Int) ∧
  WContent σ rn bufpos gsize offset src t c.1 ∧
  c.2.1 = σ (gpos rn bufpos gsize offset t / IOBUFLEN - rn) ∧
  c.2.2.1 = gpos rn bufpos gsize offset t / IOBUFLEN ∧
  c.2.2.2.1 = (IOBUFLEN : Int) - ((gpos rn bufpos gsize offset t % IOBUFLEN : Nat) : Int) ∧
  c.2.2.2.2.1 = ((gpos rn bufpos gsize offset t % IOBUFLEN : Nat) : Int) ∧
  c.2.2.2.2.2 = t * gsize

/-- A write whose flat start is at or past `gpos t` cannot disturb the
bytes of the first `t` groups. -/
theorem wcontent_slotWrite (σ : Nat → Nat) (rn bufpos gsize offset rend : Nat)
    (src d : Nat → Nat) (t : Nat) (s : CacheState) (i a len : Nat)
    (hinj : ∀ i1 i2, i1 ≤ rend - rn → i2 ≤ rend - rn → σ i1 = σ i2 → i1 = i2)
    (hiK : i ≤ rend - rn)
    (haL : a ≤ IOBUFLEN)
    (hpast : gpos rn bufpos gsize offset t ≤ (rn + i) * IOBUFLEN + a)
    (hc : WContent σ rn bufpos gsize offset src t s) :
    WContent σ rn bufpos gsize offset src t (slotWrite s (σ i) a len d) := by
  intro t' q ht' hq
  rw [slotWrite_other]
  · exact hc t' q ht' hq
  · have hL : (0 : Nat) < IOBUFLEN := by decide
    have hplt : gpos rn bufpos gsize offset t' + q < gpos rn bufpos gsize offset t := by
      have h1 : gpos rn bufpos gsize offset t' + q <
          gpos rn bufpos gsize offset (t' + 1) := by
        rw [gpos_succ]
        omega
      exact lt_of_lt_of_le h1 (gpos_mono rn bufpos gsize offset ht')
    set p := gpos rn bufpos gsize offset t' + q with hp
    have hrnp : rn * IOBUFLEN ≤ p :=
      le_trans (gpos_ge rn bufpos gsize offset t') (by omega)
    have hdivge : rn ≤ p / IOBUFLEN := by
      rw [Nat.le_div_iff_mul_le hL]
      exact hrnp
    have hdm : IOBUFLEN * (p / IOBUFLEN) + p % IOBUFLEN = p := Nat.div_add_mod p IOBUFLEN
    have hmodlt : p % IOBUFLEN < IOBUFLEN := Nat.mod_lt _ hL
    have hplt2 : p < (rn + i) * IOBUFLEN + a := lt_of_lt_of_le hplt hpast
    have hidx : p / IOBUFLEN - rn ≤ i := by
      have hstep : (rn + i + 1) * IOBUFLEN = (rn + i) * IOBUFLEN + IOBUFLEN :=
        Nat.succ_mul _ _
      have hlt3 : p < (rn + i + 1) * IOBUFLEN := by omega
      have hdivlt : p / IOBUFLEN < rn + i + 1 := by
        rw [Nat.div_lt_iff_lt_mul hL]
        exact hlt3
      omega
    by_cases hii : p / IOBUFLEN - rn = i
    · right
      left
      have hmul : IOBUFLEN * (p / IOBUFLEN) = (rn + i) * IOBUFLEN := by
        rw [Nat.mul_comm]
        congr 1
        omega
      omega
    · left
      intro heq
      exact hii (hinj _ i (le_trans hidx hiK) hiK heq)

end Buffers


namespace Buffers

/-- The residency context of a strided transfer: every record the transfer
touches lives in its own pool slot of `F`, distinct records in distinct
slots, and no other slot claims those records. -/
def ResCtx (st : CacheState) (F : Nat) (σ : Nat → Nat) (rn rend : Nat) : Prop :=
  (∀ i, i ≤ rend - rn →
    st.bufptr (σ i) = some F ∧ st.bufrecnum (σ i) = rn + i ∧ σ i < NIOBUF) ∧
  (∀ i j, i ≤ rend - rn → j ≤ rend - rn → σ i = σ j → i = j) ∧
  (∀ b i, b < NIOBUF → i ≤ rend - rn → st.bufptr b = some F →
    st.bufrecnum b = rn + i → b = σ i)

set_option maxHeartbeats 1000000 in
/-- The gap-skip reload at the bottom of the strided-write loop body
(`nspace <= 0`): the record containing the next group start is loaded (a
hit on a resident slot) and the cursor is rebased to `(-nspace) % L`,
re-establishing the loop invariant for the next group. -/
theorem reload_inv (st : CacheState) (F : Nat) (σ : Nat → Nat)
    (rn bufpos gsize offset rend : Nat) (src : Nat → Nat)
    (hctx : ResCtx st F σ rn rend)
    (t1 : Nat) (s' : CacheState) (b' rec' : Nat) (ns' : Int) (co' : Nat)
    (h1 : s'.stat = 0) (h2 : s'.bufptr = st.bufptr) (h3 : s'.bufrecnum = st.bufrecnum)
    (h4 : s'.ageindex.Perm (List.range NIOBUF))
    (hcont : WContent σ rn bufpos gsize offset src t1 s')
    (hposrel : ((rec' : Nat) : Int) * ((IOBUFLEN : Nat) : Int) + (((IOBUFLEN : Nat) : Int) - ns')
        = ((gpos rn bufpos gsize offset t1 : Nat) : Int))
    (hns : ns' ≤ 0)
    (hrecle : gpos rn bufpos gsize offset t1 / IOBUFLEN ≤ rend)
    (hrnle : rn ≤ rec')
    (hco : co' = t1 * gsize) :
    WConf st F σ rn bufpos gsize offset src t1
      (ffldrc (setDirty s' b') F
        (rec' + (((IOBUFLEN : Int) - ns').toNat / IOBUFLEN)) IGNORE_EOF,
       (((ffldrc (setDirty s' b') F
          (rec' + (((IOBUFLEN : Int) - ns').toNat / IOBUFLEN)) IGNORE_EOF).files F).curbuf).toNat,
       rec' + (((IOBUFLEN : Int) - ns').toNat / IOBUFLEN),
       ((IOBUFLEN : Int) - (((-ns').toNat % IOBUFLEN : Nat) : Int)),
       ((((-ns').toNat % IOBUFLEN : Nat)) : Int),
       co') := by
  obtain ⟨hres, hinj, huniq⟩ := hctx
  set recx := rec' + (((IOBUFLEN : Int) - ns').toNat / IOBUFLEN) with hrecxdef
  have hrecx : recx = gpos rn bufpos gsize offset t1 / IOBUFLEN := by
    rw [hrecxdef]
    simp only [IOBUFLEN] at hposrel hns ⊢
    omega
  have hmodx : (-ns').toNat % IOBUFLEN = gpos rn bufpos gsize offset t1 % IOBUFLEN := by
    simp only [IOBUFLEN] at hposrel hns ⊢
    omega
  have hrnx : rn ≤ recx := le_trans hrnle (Nat.le_add_right _ _)
  have hKx : recx - rn ≤ rend - rn := by
    rw [hrecx]
    omega
  have hresx := hres (recx - rn) hKx
  have hrnback : rn + (recx - rn) = recx := by omega
  obtain ⟨p, hpP, hpget, hffl⟩ :=
    ffldrc_hit (setDirty s' b') F recx (σ (recx - rn)) IGNORE_EOF h4 hresx.2.2
      (by rw [show (setDirty s' b').bufptr = s'.bufptr from rfl, h2]; exact hresx.1)
      (by rw [show (setDirty s' b').bufrecnum = s'.bufrecnum from rfl, h3,
        hresx.2.1, hrnback])
      (by
        intro b hb hbp hbr
        rw [show (setDirty s' b').bufptr = s'.bufptr from rfl, h2] at hbp
        rw [show (setDirty s' b').bufrecnum = s'.bufrecnum from rfl, h3] at hbr
        exact huniq b (recx - rn) hb hKx hbp (by rw [hbr, hrnback]))
  rw [hffl]
  have hlen : s'.ageindex.length = NIOBUF := by simpa using h4.length_eq
  have hplen : p < (setDirty s' b').ageindex.length := by
    show p < s'.ageindex.length
    rw [hlen]
    exact hpP
  unfold WConf
  dsimp only
  refine ⟨?_, ?_, ?_, ?_, ?_, ?_, ?_, hrecx, ?_, ?_, hco⟩
  · rw [adoptBuf_stat]
    exact h1
  · rw [adoptBuf_bufptr]
    exact h2
  · rw [adoptBuf_bufrecnum]
    exact h3
  · rw [adoptBuf_ageindex_some]
    exact (ageMove_perm _ p _ hplen hpget).trans h4
  · rw [adoptBuf_files, if_pos rfl]
    dsimp only
    rw [← hrecx]
  · intro t' q ha hb
    rw [adoptBuf_iobuffer]
    exact hcont t' q ha hb
  · rw [adoptBuf_files, if_pos rfl]
    dsimp only
    rw [Int.toNat_natCast, ← hrecx]
  · rw [hmodx]
  · rw [hmodx]

/-- A loop-bottom cursor with space left (`nspace > 0`) already satisfies
the invariant for the next group. -/
theorem noreload_inv (st : CacheState) (F : Nat) (σ : Nat → Nat)
    (rn bufpos gsize offset : Nat) (src : Nat → Nat)
    (t1 : Nat) (s' : CacheState) (b' rec' : Nat) (ns' io' : Int) (co' : Nat)
    (h1 : s'.stat = 0) (h2 : s'.bufptr = st.bufptr) (h3 : s'.bufrecnum = st.bufrecnum)
    (h4 : s'.ageindex.Perm (List.range NIOBUF))
    (hcont : WContent σ rn bufpos gsize offset src t1 s')
    (hposrel : ((rec' : Nat) : Int) * ((IOBUFLEN : Nat) : Int) + (((IOBUFLEN : Nat) : Int) - ns')
        = ((gpos rn bufpos gsize offset t1 : Nat) : Int))
    (hns0 : 0 < ns') (hnsL : ns' ≤ ((IOBUFLEN : Nat) : Int))
    (hio : io' = ((IOBUFLEN : Nat) : Int) - ns')
    (hb : b' = σ (rec' - rn))
    (hcurb : (s'.files F).curbuf = ((σ (rec' - rn) : Nat) : Int))
    (hco : co' = t1 * gsize) :
    WConf st F σ rn bufpos gsize offset src t1 (s', b', rec', ns', io', co') := by
  have hrec : rec' = gpos rn bufpos gsize offset t1 / IOBUFLEN := by
    simp only [IOBUFLEN] at hposrel hns0 hnsL ⊢
    omega
  have hmod : ((IOBUFLEN : Nat) : Int) - ns' =
      ((gpos rn bufpos gsize offset t1 % IOBUFLEN : Nat) : Int) := by
    simp only [IOBUFLEN] at hposrel hns0 hnsL ⊢
    omega
  unfold WConf
  dsimp only
  refine ⟨h1, h2, h3, h4, ?_, hcont, ?_, hrec.symm ▸ rfl, ?_, ?_, hco⟩
  · rw [hcurb, ← hrec]
  · rw [hb, ← hrec]
  · rw [← hmod]
    omega
  · rw [hio, hmod]

end Buffers


namespace Buffers

set_option maxHeartbeats 2000000 in
/-- One non-final group of the strided write, in full generality: the group
lands in the current slot, spilling into the (resident, freshly loaded)
next record when it crosses, and the gap skip reloads the record containing
the next group when the block is exhausted. -/
theorem wconf_step (st : CacheState) (F : Nat) (σ : Nat → Nat)
    (rn bufpos gsize offset ngroups rend : Nat) (src : Nat → Nat)
    (hg : 1 ≤ gsize) (hgL : gsize ≤ IOBUFLEN)
    (hctx : ResCtx st F σ rn rend)
    (hrend : gpos rn bufpos gsize offset (ngroups - 1) + gsize ≤ (rend + 1) * IOBUFLEN)
    (t : Nat) (ht : t + 1 ≤ ngroups - 1)
    (c : CacheState × Nat × Nat × Int × Int × Nat)
    (hc : WConf st F σ rn bufpos gsize offset src t c) :
    WConf st F σ rn bufpos gsize offset src (t + 1)
      (ffpbytoffStep F gsize offset src c.1 c.2.1 c.2.2.1 c.2.2.2.1 c.2.2.2.2.1
        c.2.2.2.2.2) := by
  obtain ⟨hstat, hbp', hbr, hperm, hcurb, hcont, hb, hr, hns, hio, hco⟩ := hc
  have hres := hctx.1
  have hinj := hctx.2.1
  rw [hb, hr, hns, hio, hco]
  set β := gpos rn bufpos gsize offset t % IOBUFLEN with hβ
  set rec := gpos rn bufpos gsize offset t / IOBUFLEN with hrecdef
  have hL : (0 : Nat) < IOBUFLEN := by decide
  have hβlt : β < IOBUFLEN := by
    rw [hβ]
    exact Nat.mod_lt _ hL
  have hdm' : rec * IOBUFLEN + β = gpos rn bufpos gsize offset t := by
    rw [hβ, hrecdef, Nat.mul_comm]
    exact Nat.div_add_mod _ _
  have hrecge : rn ≤ rec := by
    rw [hrecdef]
    exact gpos_div_ge rn bufpos gsize offset t
  have hsucc1 : gpos rn bufpos gsize offset (t + 1) =
      gpos rn bufpos gsize offset t + (gsize + offset) := gpos_succ rn bufpos gsize offset t
  have hsucc2 : (t + 1) * gsize = t * gsize + gsize := Nat.succ_mul _ _
  have htb : ∀ u q, u ≤ ngroups - 1 → q < gsize →
      gpos rn bufpos gsize offset u + q < (rend + 1) * IOBUFLEN := by
    intro u q hu hq
    have := gpos_mono rn bufpos gsize offset hu
    omega
  have hrecle : rec ≤ rend := by
    have h0 := htb t 0 (by omega) (by omega)
    have h1 := (Nat.div_lt_iff_lt_mul hL).mpr (by omega :
      gpos rn bufpos gsize offset t < (rend + 1) * IOBUFLEN)
    rw [hrecdef]
    omega
  have hrec1le : gpos rn bufpos gsize offset (t + 1) / IOBUFLEN ≤ rend := by
    have h0 := htb (t + 1) 0 ht (by omega)
    have h1 := (Nat.div_lt_iff_lt_mul hL).mpr (by omega :
      gpos rn bufpos gsize offset (t + 1) < (rend + 1) * IOBUFLEN)
    omega
  unfold ffpbytoffStep
  dsimp only
  by_cases hfit : gsize + β ≤ IOBUFLEN
  · -- the group fits in the current block
    have hmin : min ((gsize : Nat) : Int) ((IOBUFLEN : Int) - ((β : Nat) : Int)) =
        ((gsize : Nat) : Int) := by
      rw [min_eq_left]
      omega
    rw [hmin, if_neg (lt_irrefl ((gsize : Nat) : Int))]
    try dsimp only
    simp only [Int.toNat_natCast]
    set s1 := slotWrite c.1 (σ (rec - rn)) β gsize (fun j => src (t * gsize + j)) with hs1
    have h1s : s1.stat = 0 := hstat
    have h2s : s1.bufptr = st.bufptr := hbp'
    have h3s : s1.bufrecnum = st.bufrecnum := hbr
    have h4s : s1.ageindex.Perm (List.range NIOBUF) := hperm
    have hcurb1 : (s1.files F).curbuf = ((σ (rec - rn) : Nat) : Int) := hcurb
    have hcont1 : WContent σ rn bufpos gsize offset src (t + 1) s1 := by
      have hpres := wcontent_slotWrite σ rn bufpos gsize offset rend src
        (fun j => src (t * gsize + j)) t c.1 (rec - rn) β gsize hinj (by omega)
        (le_of_lt hβlt)
        (by
          rw [show rn + (rec - rn) = rec from by omega]
          omega) hcont
      intro t' q ht' hq
      rcases Nat.lt_succ_iff_lt_or_eq.mp ht' with h | h
      · exact hpres t' q h hq
      · rw [h]
        have hsplit : gpos rn bufpos gsize offset t + q = IOBUFLEN * rec + (β + q) := by
          simp only [IOBUFLEN] at *
          omega
        have hq1 : (gpos rn bufpos gsize offset t + q) / IOBUFLEN = rec := by
          rw [hsplit, Nat.mul_add_div hL,
            Nat.div_eq_of_lt (by simp only [IOBUFLEN] at *; omega), Nat.add_zero]
        have hq2 : (gpos rn bufpos gsize offset t + q) % IOBUFLEN = β + q := by
          rw [hsplit, Nat.mul_add_mod, Nat.mod_eq_of_lt (by simp only [IOBUFLEN] at *; omega)]
        rw [hq1, hq2, hs1]
        exact slotWrite_at c.1 (σ (rec - rn)) β gsize _ q hq
    split
    · rename_i hle
      refine reload_inv st F σ rn bufpos gsize offset rend src hctx (t + 1) s1 _ _ _ _
        h1s h2s h3s h4s hcont1 ?_ hle hrec1le hrecge ?_
      · simp only [IOBUFLEN] at *
        omega
      · simp only [IOBUFLEN] at *
        omega
    · rename_i hgt
      refine noreload_inv st F σ rn bufpos gsize offset src (t + 1) s1 _ _ _ _ _
        h1s h2s h3s h4s hcont1 ?_ (by simp only [IOBUFLEN] at *; omega) ?_ ?_ rfl hcurb1 ?_
      · simp only [IOBUFLEN] at *
        omega
      · simp only [IOBUFLEN] at *
        omega
      · simp only [IOBUFLEN] at *
        omega
      · simp only [IOBUFLEN] at *
        omega
  · -- the group crosses into the next record
    have hrec1 : rec + 1 ≤ rend := by
      have h1 := htb t (gsize - 1) (by omega) (by omega)
      simp only [IOBUFLEN] at *
      omega
    have hmin : min ((gsize : Nat) : Int) ((IOBUFLEN : Int) - ((β : Nat) : Int)) =
        (IOBUFLEN : Int) - ((β : Nat) : Int) := by
      rw [min_eq_right]
      omega
    rw [hmin, if_pos (by omega : (IOBUFLEN : Int) - ((β : Nat) : Int) < ((gsize : Nat) : Int))]
    try dsimp only
    simp only [Int.toNat_natCast]
    rw [show ((IOBUFLEN : Int) - ((β : Nat) : Int)).toNat = IOBUFLEN - β from by omega]
    set s1 := slotWrite c.1 (σ (rec - rn)) β (IOBUFLEN - β)
      (fun j => src (t * gsize + j)) with hs1
    have h4s1 : s1.ageindex.Perm (List.range NIOBUF) := hperm
    have hlen : c.1.ageindex.length = NIOBUF := by simpa using hperm.length_eq
    have hresx := hres (rec + 1 - rn) (by omega)
    obtain ⟨p, hpP, hpget, hffl⟩ :=
      ffldrc_hit (setDirty s1 (σ (rec - rn))) F (rec + 1) (σ (rec + 1 - rn)) IGNORE_EOF
        h4s1 hresx.2.2
        (by
          show c.1.bufptr (σ (rec + 1 - rn)) = some F
          rw [hbp']
          exact hresx.1)
        (by
          show c.1.bufrecnum (σ (rec + 1 - rn)) = rec + 1
          rw [hbr, hresx.2.1]
          omega)
        (by
          intro b hb' hbp1 hbr1
          have hbp2 : st.bufptr b = some F := by
            rw [← hbp']
            exact hbp1
          have hx : c.1.bufrecnum b = rec + 1 := hbr1
          have hbr2 : st.bufrecnum b = rn + (rec + 1 - rn) := by
            rw [← hbr, hx]
            omega
          exact hctx.2.2 b (rec + 1 - rn) hb' (by omega) hbp2 hbr2)
    rw [hffl]
    have hb1 : (((adoptBuf (setDirty s1 (σ (rec - rn))) F (σ (rec + 1 - rn))
        (some p)).files F).curbuf).toNat = σ (rec + 1 - rn) := by
      rw [adoptBuf_files, if_pos rfl]
      dsimp only
      rw [Int.toNat_natCast]
    rw [hb1]
    set s3 := adoptBuf (setDirty s1 (σ (rec - rn))) F (σ (rec + 1 - rn)) (some p) with hs3
    set s4 := slotWrite s3 (σ (rec + 1 - rn)) 0 (gsize - (IOBUFLEN - β))
      (fun j => src (t * gsize + (IOBUFLEN - β) + j)) with hs4
    have h1s : s4.stat = 0 := by
      show s3.stat = 0
      rw [hs3, adoptBuf_stat]
      exact hstat
    have h2s : s4.bufptr = st.bufptr := by
      show s3.bufptr = st.bufptr
      rw [hs3, adoptBuf_bufptr]
      exact hbp'
    have h3s : s4.bufrecnum = st.bufrecnum := by
      show s3.bufrecnum = st.bufrecnum
      rw [hs3, adoptBuf_bufrecnum]
      exact hbr
    have h4s : s4.ageindex.Perm (List.range NIOBUF) := by
      show s3.ageindex.Perm _
      rw [hs3, adoptBuf_ageindex_some]
      refine (ageMove_perm _ p _ ?_ hpget).trans hperm
      show p < c.1.ageindex.length
      rw [hlen]
      exact hpP
    have hcurb4 : (s4.files F).curbuf = ((σ (rec + 1 - rn) : Nat) : Int) := by
      show (s3.files F).curbuf = _
      rw [hs3, adoptBuf_files, if_pos rfl]
    have hneq : σ (rec + 1 - rn) ≠ σ (rec - rn) := by
      intro hcontra
      have := hinj (rec + 1 - rn) (rec - rn) (by omega) (by omega) hcontra
      omega
    have hcont4 : WContent σ rn bufpos gsize offset src (t + 1) s4 := by
      have hpres1 := wcontent_slotWrite σ rn bufpos gsize offset rend src
        (fun j => src (t * gsize + j)) t c.1 (rec - rn) β (IOBUFLEN - β) hinj (by omega)
        (le_of_lt hβlt)
        (by
          rw [show rn + (rec - rn) = rec from by omega]
          omega) hcont
      have hpres3 : WContent σ rn bufpos gsize offset src t s3 := by
        intro t' q ha hb'
        show s1.iobuffer _ _ = _
        exact hpres1 t' q ha hb'
      have hpres4 := wcontent_slotWrite σ rn bufpos gsize offset rend src
        (fun j => src (t * gsize + (IOBUFLEN - β) + j)) t s3 (rec + 1 - rn) 0
        (gsize - (IOBUFLEN - β)) hinj (by omega) (by omega)
        (by
          rw [show rn + (rec + 1 - rn) = rec + 1 from by omega]
          simp only [IOBUFLEN] at *
          omega) hpres3
      intro t' q ht' hq
      rcases Nat.lt_succ_iff_lt_or_eq.mp ht' with h | h
      · exact hpres4 t' q h hq
      · rw [h]
        by_cases hhead : q < IOBUFLEN - β
        · -- head byte, written in s1, untouched since
          have hsplit : gpos rn bufpos gsize offset t + q = IOBUFLEN * rec + (β + q) := by
            simp only [IOBUFLEN] at *
            omega
          have hq1 : (gpos rn bufpos gsize offset t + q) / IOBUFLEN = rec := by
            rw [hsplit, Nat.mul_add_div hL,
              Nat.div_eq_of_lt (by simp only [IOBUFLEN] at *; omega), Nat.add_zero]
          have hq2 : (gpos rn bufpos gsize offset t + q) % IOBUFLEN = β + q := by
            rw [hsplit, Nat.mul_add_mod,
              Nat.mod_eq_of_lt (by simp only [IOBUFLEN] at *; omega)]
          rw [hq1, hq2, hs4]
          rw [slotWrite_other _ _ _ _ _ _ _ (Or.inl hneq.symm)]
          show s1.iobuffer (σ (rec - rn)) (β + q) = _
          rw [hs1]
          exact slotWrite_at c.1 (σ (rec - rn)) β (IOBUFLEN - β) _ q hhead
        · -- tail byte, written in s4
          have hsplit : gpos rn bufpos gsize offset t + q =
              IOBUFLEN * (rec + 1) + (q - (IOBUFLEN - β)) := by
            simp only [IOBUFLEN] at *
            omega
          have hq1 : (gpos rn bufpos gsize offset t + q) / IOBUFLEN = rec + 1 := by
            rw [hsplit, Nat.mul_add_div hL,
              Nat.div_eq_of_lt (by simp only [IOBUFLEN] at *; omega), Nat.add_zero]
          have hq2 : (gpos rn bufpos gsize offset t + q) % IOBUFLEN =
              q - (IOBUFLEN - β) := by
            rw [hsplit, Nat.mul_add_mod,
              Nat.mod_eq_of_lt (by simp only [IOBUFLEN] at *; omega)]
          rw [hq1, hq2, hs4]
          have hval := slotWrite_at s3 (σ (rec + 1 - rn)) 0 (gsize - (IOBUFLEN - β))
            (fun j => src (t * gsize + (IOBUFLEN - β) + j)) (q - (IOBUFLEN - β))
            (by simp only [IOBUFLEN] at *; omega)
          rw [Nat.zero_add] at hval
          rw [hval]
          show src (t * gsize + (IOBUFLEN - β) + (q - (IOBUFLEN - β))) = src (t * gsize + q)
          congr 1
          simp only [IOBUFLEN] at *
          omega
    split
    · rename_i hle
      refine reload_inv st F σ rn bufpos gsize offset rend src hctx (t + 1) s4 _ _ _ _
        h1s h2s h3s h4s hcont4 ?_ hle hrec1le (by omega) ?_
      · simp only [IOBUFLEN] at *
        omega
      · simp only [IOBUFLEN] at *
        omega
    · rename_i hgt
      refine noreload_inv st F σ rn bufpos gsize offset src (t + 1) s4 _ _ _ _ _
        h1s h2s h3s h4s hcont4 ?_ (by simp only [IOBUFLEN] at *; omega) ?_ ?_ rfl hcurb4 ?_
      · simp only [IOBUFLEN] at *
        omega
      · simp only [IOBUFLEN] at *
        omega
      · simp only [IOBUFLEN] at *
        omega
      · simp only [IOBUFLEN] at *
        omega

end Buffers

namespace Buffers

/-- Iterating the write step preserves the loop invariant. -/
theorem wconf_loop (st : CacheState) (F : Nat) (σ : Nat → Nat)
    (rn bufpos gsize offset ngroups rend : Nat) (src : Nat → Nat)
    (hg : 1 ≤ gsize) (hgL : gsize ≤ IOBUFLEN)
    (hctx : ResCtx st F σ rn rend)
    (hrend : gpos rn bufpos gsize offset (ngroups - 1) + gsize ≤ (rend + 1) * IOBUFLEN) :
    ∀ fuel t0 c, t0 + fuel ≤ ngroups - 1 →
      WConf st F σ rn bufpos gsize offset src t0 c →
      WConf st F σ rn bufpos gsize offset src (t0 + fuel)
        (ffpbytoffLoop F gsize offset src fuel c) := by
  intro fuel
  induction fuel with
  | zero =>
    intro t0 c h hc
    simpa using hc
  | succ k ih =>
    intro t0 c h hc
    have hstep := wconf_step st F σ rn bufpos gsize offset ngroups rend src hg hgL hctx
      hrend t0 (by omega) c hc
    have hrec := ih (t0 + 1)
      (ffpbytoffStep F gsize offset src c.1 c.2.1 c.2.2.1 c.2.2.2.1 c.2.2.2.2.1 c.2.2.2.2.2)
      (by omega) hstep
    rw [show t0 + (k + 1) = t0 + 1 + k from by omega]
    exact hrec

/-- Evaluating a `memcpy` inside the written window. -/
theorem ovw_in (f : Nat → Nat) (a n : Nat) (d : Nat → Nat) (i : Nat)
    (h1 : a ≤ i) (h2 : i < a + n) : ovw f a n d i = d (i - a) := by
  unfold ovw
  rw [if_pos ⟨h1, h2⟩]

/-- Evaluating a `memcpy` outside the written window. -/
theorem ovw_out (f : Nat → Nat) (a n : Nat) (d : Nat → Nat) (i : Nat)
    (h : i < a ∨ a + n ≤ i) : ovw f a n d i = f i := by
  unfold ovw
  rw [if_neg ?_]
  rintro ⟨g1, g2⟩
  omega

end Buffers

namespace Buffers

set_option maxHeartbeats 2000000 in
/-- Full characterisation of a strided write over resident records: the
status stays clean, the pool ownership maps and the age permutation are
preserved, the current buffer ends on one of the touched slots, and every
byte of every group sits in the slot of its record at the offset of its
flat position. -/
theorem ffpbytoff_strided (st : CacheState) (F : Nat) (σ : Nat → Nat)
    (rn bufpos gsize offset ngroups rend : Nat) (src : Nat → Nat)
    (hg : 1 ≤ gsize) (hgL : gsize ≤ IOBUFLEN) (hng : 1 ≤ ngroups)
    (hbp0 : bufpos < IOBUFLEN)
    (hstat : st.stat = 0)
    (hperm : st.ageindex.Perm (List.range NIOBUF))
    (hctx : ResCtx st F σ rn rend)
    (hrend : gpos rn bufpos gsize offset (ngroups - 1) + gsize ≤ (rend + 1) * IOBUFLEN)
    (hcb : (st.files F).curbuf = ((σ 0 : Nat) : Int))
    (hfbp : (st.files F).bytepos = rn * IOBUFLEN + bufpos) :
    ∃ i, i ≤ rend - rn ∧
      (ffpbytoff st F gsize ngroups offset src).stat = 0 ∧
      (ffpbytoff st F gsize ngroups offset src).bufptr = st.bufptr ∧
      (ffpbytoff st F gsize ngroups offset src).bufrecnum = st.bufrecnum ∧
      (ffpbytoff st F gsize ngroups offset src).ageindex.Perm (List.range NIOBUF) ∧
      ((ffpbytoff st F gsize ngroups offset src).files F).curbuf = ((σ i : Nat) : Int) ∧
      ∀ t q, t < ngroups → q < gsize →
        (ffpbytoff st F gsize ngroups offset src).iobuffer
            (σ ((gpos rn bufpos gsize offset t + q) / IOBUFLEN - rn))
            ((gpos rn bufpos gsize offset t + q) % IOBUFLEN) = src (t * gsize + q) := by
  have hL : (0 : Nat) < IOBUFLEN := by decide
  have hres := hctx.1
  have hinj := hctx.2.1
  have hrn : st.bufrecnum (σ 0) = rn := by
    have := (hres 0 (by omega)).2.1
    omega
  unfold ffpbytoff
  rw [if_neg (by omega)]
  dsimp only
  rw [hcb, Int.toNat_natCast, hrn, hfbp]
  rw [show ((rn * IOBUFLEN + bufpos : Nat) : Int) - ((rn : Nat) : Int) * ((IOBUFLEN : Nat) : Int)
      = ((bufpos : Nat) : Int) from by push_cast; ring]
  have hgp0 : gpos rn bufpos gsize offset 0 = IOBUFLEN * rn + bufpos := by
    simp only [gpos, IOBUFLEN]
    omega
  have hdiv0 : gpos rn bufpos gsize offset 0 / IOBUFLEN = rn := by
    rw [hgp0, Nat.mul_add_div hL, Nat.div_eq_of_lt hbp0, Nat.add_zero]
  have hmod0 : gpos rn bufpos gsize offset 0 % IOBUFLEN = bufpos := by
    rw [hgp0, Nat.mul_add_mod, Nat.mod_eq_of_lt hbp0]
  have hW0 : WConf st F σ rn bufpos gsize offset src 0
      (st, σ 0, rn, (IOBUFLEN : Int) - ((bufpos : Nat) : Int), ((bufpos : Nat) : Int), 0) := by
    unfold WConf
    dsimp only
    rw [hdiv0, hmod0, Nat.sub_self]
    refine ⟨hstat, rfl, rfl, hperm, hcb, ?_, rfl, rfl, rfl, rfl, by omega⟩
    intro t' q h1 h2
    exact absurd h1 (Nat.not_lt_zero t')
  have hWf := wconf_loop st F σ rn bufpos gsize offset ngroups rend src hg hgL hctx hrend
    (ngroups - 1) 0
    (st, σ 0, rn, (IOBUFLEN : Int) - ((bufpos : Nat) : Int), ((bufpos : Nat) : Int), 0)
    (by omega) hW0
  rw [Nat.zero_add] at hWf
  set cf := ffpbytoffLoop F gsize offset src (ngroups - 1)
    (st, σ 0, rn, (IOBUFLEN : Int) - ((bufpos : Nat) : Int), ((bufpos : Nat) : Int), 0) with hcf
  obtain ⟨h1f, h2f, h3f, h4f, hcbf, hcontf, hbf, hrf, hnsf, hiof, hcof⟩ := hWf
  rw [hbf, hrf, hnsf, hiof, hcof]
  set β := gpos rn bufpos gsize offset (ngroups - 1) % IOBUFLEN with hβ
  set rec := gpos rn bufpos gsize offset (ngroups - 1) / IOBUFLEN with hrecdef
  have hβlt : β < IOBUFLEN := by
    rw [hβ]
    exact Nat.mod_lt _ hL
  have hdm' : rec * IOBUFLEN + β = gpos rn bufpos gsize offset (ngroups - 1) := by
    rw [hβ, hrecdef, Nat.mul_comm]
    exact Nat.div_add_mod _ _
  have hrecge : rn ≤ rec := by
    rw [hrecdef]
    exact gpos_div_ge rn bufpos gsize offset _
  have hrecle : rec ≤ rend := by
    have h1 := (Nat.div_lt_iff_lt_mul hL).mpr (by omega :
      gpos rn bufpos gsize offset (ngroups - 1) < (rend + 1) * IOBUFLEN)
    rw [hrecdef]
    omega
  by_cases hfit : gsize + β ≤ IOBUFLEN
  · -- the last group fits in its block
    have hmin : min ((gsize : Nat) : Int) ((IOBUFLEN : Int) - ((β : Nat) : Int)) =
        ((gsize : Nat) : Int) := by
      rw [min_eq_left]
      omega
    rw [hmin, if_neg (lt_irrefl ((gsize : Nat) : Int))]
    try dsimp only
    simp only [Int.toNat_natCast]
    refine ⟨rec - rn, by omega, h1f, h2f, h3f, h4f, ?_, ?_⟩
    · rw [updFile_bp_curbuf]
      exact hcbf
    · have hpres := wcontent_slotWrite σ rn bufpos gsize offset rend src
        (fun j => src ((ngroups - 1) * gsize + j)) (ngroups - 1) cf.1 (rec - rn) β gsize hinj
        (by omega) (le_of_lt hβlt)
        (by
          rw [show rn + (rec - rn) = rec from by omega]
          omega) hcontf
      intro t q htq hq
      show (slotWrite cf.1 (σ (rec - rn)) β gsize
        (fun j => src ((ngroups - 1) * gsize + j))).iobuffer _ _ = _
      rcases Nat.lt_succ_iff_lt_or_eq.mp (show t < (ngroups - 1) + 1 from by omega) with h | h
      · exact hpres t q h hq
      · rw [h]
        have hsplit : gpos rn bufpos gsize offset (ngroups - 1) + q =
            IOBUFLEN * rec + (β + q) := by
          simp only [IOBUFLEN] at *
          omega
        have hq1 : (gpos rn bufpos gsize offset (ngroups - 1) + q) / IOBUFLEN = rec := by
          rw [hsplit, Nat.mul_add_div hL,
            Nat.div_eq_of_lt (by simp only [IOBUFLEN] at *; omega), Nat.add_zero]
        have hq2 : (gpos rn bufpos gsize offset (ngroups - 1) + q) % IOBUFLEN = β + q := by
          rw [hsplit, Nat.mul_add_mod, Nat.mod_eq_of_lt (by simp only [IOBUFLEN] at *; omega)]
        rw [hq1, hq2]
        exact slotWrite_at cf.1 (σ (rec - rn)) β gsize _ q hq
  · -- the last group crosses into the next record
    have hrec1 : rec + 1 ≤ rend := by
      simp only [IOBUFLEN] at *
      omega
    have hmin : min ((gsize : Nat) : Int) ((IOBUFLEN : Int) - ((β : Nat) : Int)) =
        (IOBUFLEN : Int) - ((β : Nat) : Int) := by
      rw [min_eq_right]
      omega
    rw [hmin, if_pos (by omega : (IOBUFLEN : Int) - ((β : Nat) : Int) < ((gsize : Nat) : Int))]
    try dsimp only
    simp only [Int.toNat_natCast]
    rw [show ((IOBUFLEN : Int) - ((β : Nat) : Int)).toNat = IOBUFLEN - β from by omega]
    set s1 := slotWrite cf.1 (σ (rec - rn)) β (IOBUFLEN - β)
      (fun j => src ((ngroups - 1) * gsize + j)) with hs1
    have h4s1 : s1.ageindex.Perm (List.range NIOBUF) := h4f
    have hlen : cf.1.ageindex.length = NIOBUF := by simpa using h4f.length_eq
    have hresx := hres (rec + 1 - rn) (by omega)
    obtain ⟨p, hpP, hpget, hffl⟩ :=
      ffldrc_hit (setDirty s1 (σ (rec - rn))) F (rec + 1) (σ (rec + 1 - rn)) IGNORE_EOF
        h4s1 hresx.2.2
        (by
          show cf.1.bufptr (σ (rec + 1 - rn)) = some F
          rw [h2f]
          exact hresx.1)
        (by
          show cf.1.bufrecnum (σ (rec + 1 - rn)) = rec + 1
          rw [h3f, hresx.2.1]
          omega)
        (by
          intro b hb' hbp1 hbr1
          have hbp2 : st.bufptr b = some F := by
            rw [← h2f]
            exact hbp1
          have hx : cf.1.bufrecnum b = rec + 1 := hbr1
          have hbr2 : st.bufrecnum b = rn + (rec + 1 - rn) := by
            rw [← h3f, hx]
            omega
          exact hctx.2.2 b (rec + 1 - rn) hb' (by omega) hbp2 hbr2)
    rw [hffl]
    have hb1 : (((adoptBuf (setDirty s1 (σ (rec - rn))) F (σ (rec + 1 - rn))
        (some p)).files F).curbuf).toNat = σ (rec + 1 - rn) := by
      rw [adoptBuf_files, if_pos rfl]
      dsimp only
      rw [Int.toNat_natCast]
    rw [hb1]
    set s3 := adoptBuf (setDirty s1 (σ (rec - rn))) F (σ (rec + 1 - rn)) (some p) with hs3
    set s4 := slotWrite s3 (σ (rec + 1 - rn)) 0 (gsize - (IOBUFLEN - β))
      (fun j => src ((ngroups - 1) * gsize + (IOBUFLEN - β) + j)) with hs4
    have h1s : s4.stat = 0 := by
      show s3.stat = 0
      rw [hs3, adoptBuf_stat]
      exact h1f
    have h2s : s4.bufptr = st.bufptr := by
      show s3.bufptr = st.bufptr
      rw [hs3, adoptBuf_bufptr]
      exact h2f
    have h3s : s4.bufrecnum = st.bufrecnum := by
      show s3.bufrecnum = st.bufrecnum
      rw [hs3, adoptBuf_bufrecnum]
      exact h3f
    have h4s : s4.ageindex.Perm (List.range NIOBUF) := by
      show s3.ageindex.Perm _
      rw [hs3, adoptBuf_ageindex_some]
      refine (ageMove_perm _ p _ ?_ hpget).trans h4f
      show p < cf.1.ageindex.length
      rw [hlen]
      exact hpP
    have hcurb4 : (s4.files F).curbuf = ((σ (rec + 1 - rn) : Nat) : Int) := by
      show (s3.files F).curbuf = _
      rw [hs3, adoptBuf_files, if_pos rfl]
    have hneq : σ (rec + 1 - rn) ≠ σ (rec - rn) := by
      intro hcontra
      have := hinj (rec + 1 - rn) (rec - rn) (by omega) (by omega) hcontra
      omega
    refine ⟨rec + 1 - rn, by omega, h1s, h2s, h3s, h4s, ?_, ?_⟩
    · rw [updFile_bp_curbuf]
      exact hcurb4
    · have hpres1 := wcontent_slotWrite σ rn bufpos gsize offset rend src
        (fun j => src ((ngroups - 1) * gsize + j)) (ngroups - 1) cf.1 (rec - rn) β
        (IOBUFLEN - β) hinj (by omega) (le_of_lt hβlt)
        (by
          rw [show rn + (rec - rn) = rec from by omega]
          omega) hcontf
      have hpres3 : WContent σ rn bufpos gsize offset src (ngroups - 1) s3 := by
        intro t' q ha hb'
        show s1.iobuffer _ _ = _
        exact hpres1 t' q ha hb'
      have hpres4 := wcontent_slotWrite σ rn bufpos gsize offset rend src
        (fun j => src ((ngroups - 1) * gsize + (IOBUFLEN - β) + j)) (ngroups - 1) s3
        (rec + 1 - rn) 0 (gsize - (IOBUFLEN - β)) hinj (by omega) (by omega)
        (by
          rw [show rn + (rec + 1 - rn) = rec + 1 from by omega]
          simp only [IOBUFLEN] at *
          omega) hpres3
      intro t q htq hq
      show s4.iobuffer _ _ = _
      rcases Nat.lt_succ_iff_lt_or_eq.mp (show t < (ngroups - 1) + 1 from by omega) with h | h
      · exact hpres4 t q h hq
      · rw [h]
        by_cases hhead : q < IOBUFLEN - β
        · have hsplit : gpos rn bufpos gsize offset (ngroups - 1) + q =
              IOBUFLEN * rec + (β + q) := by
            simp only [IOBUFLEN] at *
            omega
          have hq1 : (gpos rn bufpos gsize offset (ngroups - 1) + q) / IOBUFLEN = rec := by
            rw [hsplit, Nat.mul_add_div hL,
              Nat.div_eq_of_lt (by simp only [IOBUFLEN] at *; omega), Nat.add_zero]
          have hq2 : (gpos rn bufpos gsize offset (ngroups - 1) + q) % IOBUFLEN = β + q := by
            rw [hsplit, Nat.mul_add_mod,
              Nat.mod_eq_of_lt (by simp only [IOBUFLEN] at *; omega)]
          rw [hq1, hq2, hs4]
          rw [slotWrite_other _ _ _ _ _ _ _ (Or.inl hneq.symm)]
          show s1.iobuffer (σ (rec - rn)) (β + q) = _
          rw [hs1]
          exact slotWrite_at cf.1 (σ (rec - rn)) β (IOBUFLEN - β) _ q hhead
        · have hsplit : gpos rn bufpos gsize offset (ngroups - 1) + q =
              IOBUFLEN * (rec + 1) + (q - (IOBUFLEN - β)) := by
            simp only [IOBUFLEN] at *
            omega
          have hq1 : (gpos rn bufpos gsize offset (ngroups - 1) + q) / IOBUFLEN = rec + 1 := by
            rw [hsplit, Nat.mul_add_div hL,
              Nat.div_eq_of_lt (by simp only [IOBUFLEN] at *; omega), Nat.add_zero]
          have hq2 : (gpos rn bufpos gsize offset (ngroups - 1) + q) % IOBUFLEN =
              q - (IOBUFLEN - β) := by
            rw [hsplit, Nat.mul_add_mod,
              Nat.mod_eq_of_lt (by simp only [IOBUFLEN] at *; omega)]
          rw [hq1, hq2, hs4]
          have hval := slotWrite_at s3 (σ (rec + 1 - rn)) 0 (gsize - (IOBUFLEN - β))
            (fun j => src ((ngroups - 1) * gsize + (IOBUFLEN - β) + j)) (q - (IOBUFLEN - β))
            (by simp only [IOBUFLEN] at *; omega)
          rw [Nat.zero_add] at hval
          rw [hval]
          show src ((ngroups - 1) * gsize + (IOBUFLEN - β) + (q - (IOBUFLEN - β))) = _
          congr 1
          simp only [IOBUFLEN] at *
          omega

end Buffers

namespace Buffers

set_option maxHeartbeats 1000000 in
/-- Moving the byte cursor back to a position inside a resident record:
either the current buffer already holds that record (no load), or the
record is re-adopted from the pool (a hit load); in both cases the pool
contents are untouched and the cursor lands on the record's slot. -/
theorem ffmbyt_strided (s : CacheState) (F : Nat) (σ : Nat → Nat)
    (rn rend bufpos i : Nat) (err : Nat)
    (hstat : s.stat = 0)
    (hperm : s.ageindex.Perm (List.range NIOBUF))
    (hctx : ResCtx s F σ rn rend)
    (hbp0 : bufpos < IOBUFLEN)
    (hi : i ≤ rend - rn)
    (hcb : (s.files F).curbuf = ((σ i : Nat) : Int)) :
    (ffmbyt s F ((rn * IOBUFLEN + bufpos : Nat) : Int) err).stat = 0 ∧
    (ffmbyt s F ((rn * IOBUFLEN + bufpos : Nat) : Int) err).bufptr = s.bufptr ∧
    (ffmbyt s F ((rn * IOBUFLEN + bufpos : Nat) : Int) err).bufrecnum = s.bufrecnum ∧
    (ffmbyt s F ((rn * IOBUFLEN + bufpos : Nat) : Int) err).iobuffer = s.iobuffer ∧
    (ffmbyt s F ((rn * IOBUFLEN + bufpos : Nat) : Int) err).ageindex.Perm
      (List.range NIOBUF) ∧
    ((ffmbyt s F ((rn * IOBUFLEN + bufpos : Nat) : Int) err).files F).curbuf =
      ((σ 0 : Nat) : Int) ∧
    ((ffmbyt s F ((rn * IOBUFLEN + bufpos : Nat) : Int) err).files F).bytepos =
      rn * IOBUFLEN + bufpos := by
  have hL : (0 : Nat) < IOBUFLEN := by decide
  unfold ffmbyt
  rw [if_neg (by omega), if_neg (by omega)]
  dsimp only
  rw [Int.toNat_natCast]
  have hdiv : (rn * IOBUFLEN + bufpos) / IOBUFLEN = rn := by
    rw [show rn * IOBUFLEN + bufpos = IOBUFLEN * rn + bufpos from by rw [Nat.mul_comm],
      Nat.mul_add_div hL, Nat.div_eq_of_lt hbp0, Nat.add_zero]
  have hbri : s.bufrecnum (σ i) = rn + i := (hctx.1 i hi).2.1
  rw [hdiv, hcb, Int.toNat_natCast, hbri]
  by_cases hi0 : i = 0
  · subst hi0
    rw [if_neg (show ¬ rn ≠ rn + 0 from fun h => h (by omega))]
    rw [if_pos hstat]
    refine ⟨hstat, rfl, rfl, rfl, hperm, ?_, ?_⟩
    · rw [updFile_bp_curbuf]
      exact hcb
    · rw [updFile_bp_bytepos]
  · rw [if_pos (show rn ≠ rn + i from by omega)]
    obtain ⟨p, hpP, hpget, hffl⟩ := ffldrc_hit s F rn (σ 0) err hperm
      (hctx.1 0 (by omega)).2.2 (hctx.1 0 (by omega)).1
      (by
        have := (hctx.1 0 (by omega)).2.1
        omega)
      (by
        intro b hb hbp hbr
        exact hctx.2.2 b 0 hb (by omega) hbp (by omega))
    rw [hffl]
    rw [if_pos (by rw [adoptBuf_stat]; exact hstat)]
    have hlen : s.ageindex.length = NIOBUF := by simpa using hperm.length_eq
    refine ⟨?_, ?_, ?_, ?_, ?_, ?_, ?_⟩
    · show (adoptBuf s F (σ 0) (some p)).stat = 0
      rw [adoptBuf_stat]
      exact hstat
    · show (adoptBuf s F (σ 0) (some p)).bufptr = s.bufptr
      rw [adoptBuf_bufptr]
    · show (adoptBuf s F (σ 0) (some p)).bufrecnum = s.bufrecnum
      rw [adoptBuf_bufrecnum]
    · show (adoptBuf s F (σ 0) (some p)).iobuffer = s.iobuffer
      rw [adoptBuf_iobuffer]
    · show (adoptBuf s F (σ 0) (some p)).ageindex.Perm (List.range NIOBUF)
      rw [adoptBuf_ageindex_some]
      refine (ageMove_perm _ p _ ?_ hpget).trans hperm
      rw [hlen]
      exact hpP
    · rw [updFile_bp_curbuf, adoptBuf_files, if_pos rfl]
    · rw [updFile_bp_bytepos]

end Buffers

namespace Buffers

/-- The pool already holds the strided data: every byte of every group of
the laid-out source sits in the slot of its record at the offset of its
flat position. -/
def SrcLaid (s0 : CacheState) (σ : Nat → Nat)
    (rn bufpos gsize offset ngroups : Nat) (src : Nat → Nat) : Prop :=
  ∀ t q, t < ngroups → q < gsize →
    s0.iobuffer (σ ((gpos rn bufpos gsize offset t + q) / IOBUFLEN - rn))
      ((gpos rn bufpos gsize offset t + q) % IOBUFLEN) = src (t * gsize + q)

/-- Loop invariant of the strided read: the cache is only re-ordered (never
rewritten), the cursor tracks the flat position, and the destination prefix
already equals the source. -/
def RConf (s0 : CacheState) (F : Nat) (σ : Nat → Nat)
    (rn bufpos gsize offset : Nat) (src : Nat → Nat) (t : Nat)
    (c : CacheState × Nat × Nat × Int × Int × Nat × (Nat → Nat)) : Prop :=
  c.1.stat = 0 ∧ c.1.bufptr = s0.bufptr ∧ c.1.bufrecnum = s0.bufrecnum ∧
  c.1.iobuffer = s0.iobuffer ∧
  c.1.ageindex.Perm (List.range NIOBUF) ∧
  (c.1.files F).curbuf = ((σ (gpos rn bufpos gsize offset t / IOBUFLEN - rn) : Nat) : Int) ∧
  c.2.1 = σ (gpos rn bufpos gsize offset t / IOBUFLEN - rn) ∧
  c.2.2.1 = gpos rn bufpos gsize offset t / IOBUFLEN ∧
  c.2.2.2.1 = (IOBUFLEN : Int) - ((gpos rn bufpos gsize offset t % IOBUFLEN : Nat) : Int) ∧
  c.2.2.2.2.1 = ((gpos rn bufpos gsize offset t % IOBUFLEN : Nat) : Int) ∧
  c.2.2.2.2.2.1 = t * gsize ∧
  (∀ j, j < t * gsize → c.2.2.2.2.2.2 j = src j)

/-- A read-loop bottom with the block exhausted (`nspace ≤ 0`): the gap
skip reloads the record containing the next group and rebases the in-slot
offset, re-establishing the invariant. -/
theorem rconf_reload (s0 : CacheState) (F : Nat) (σ : Nat → Nat)
    (rn bufpos gsize offset rend : Nat) (src : Nat → Nat)
    (hctx : ResCtx s0 F σ rn rend)
    (t1 : Nat) (s' : CacheState) (rec' : Nat) (ns' : Int) (co' : Nat) (dst' : Nat → Nat)
    (h1 : s'.stat = 0) (h2 : s'.bufptr = s0.bufptr) (h3 : s'.bufrecnum = s0.bufrecnum)
    (h4 : s'.ageindex.Perm (List.range NIOBUF))
    (h5 : s'.iobuffer = s0.iobuffer)
    (hposrel : ((rec' : Nat) : Int) * ((IOBUFLEN : Nat) : Int) + (((IOBUFLEN : Nat) : Int) - ns')
        = ((gpos rn bufpos gsize offset t1 : Nat) : Int))
    (hns : ns' ≤ 0)
    (hrecle : gpos rn bufpos gsize offset t1 / IOBUFLEN ≤ rend)
    (hrnle : rn ≤ rec')
    (hco : co' = t1 * gsize)
    (hdst : ∀ j, j < t1 * gsize → dst' j = src j) :
    RConf s0 F σ rn bufpos gsize offset src t1
      (ffldrc s' F (rec' + (((IOBUFLEN : Int) - ns').toNat / IOBUFLEN)) REPORT_EOF,
       (((ffldrc s' F (rec' + (((IOBUFLEN : Int) - ns').toNat / IOBUFLEN))
          REPORT_EOF).files F).curbuf).toNat,
       rec' + (((IOBUFLEN : Int) - ns').toNat / IOBUFLEN),
       ((IOBUFLEN : Int) - (((-ns').toNat % IOBUFLEN : Nat) : Int)),
       ((((-ns').toNat % IOBUFLEN : Nat)) : Int),
       co', dst') := by
  obtain ⟨hres, hinj, huniq⟩ := hctx
  set recx := rec' + (((IOBUFLEN : Int) - ns').toNat / IOBUFLEN) with hrecxdef
  have hrecx : recx = gpos rn bufpos gsize offset t1 / IOBUFLEN := by
    rw [hrecxdef]
    simp only [IOBUFLEN] at hposrel hns ⊢
    omega
  have hmodx : (-ns').toNat % IOBUFLEN = gpos rn bufpos gsize offset t1 % IOBUFLEN := by
    simp only [IOBUFLEN] at hposrel hns ⊢
    omega
  have hrnx : rn ≤ recx := le_trans hrnle (Nat.le_add_right _ _)
  have hKx : recx - rn ≤ rend - rn := by
    rw [hrecx]
    omega
  have hresx := hres (recx - rn) hKx
  have hrnback : rn + (recx - rn) = recx := by omega
  obtain ⟨p, hpP, hpget, hffl⟩ :=
    ffldrc_hit s' F recx (σ (recx - rn)) REPORT_EOF h4 hresx.2.2
      (by rw [h2]; exact hresx.1)
      (by rw [h3, hresx.2.1, hrnback])
      (by
        intro b hb hbp hbr
        rw [h2] at hbp
        rw [h3] at hbr
        exact huniq b (recx - rn) hb hKx hbp (by rw [hbr, hrnback]))
  rw [hffl]
  have hlen : s'.ageindex.length = NIOBUF := by simpa using h4.length_eq
  unfold RConf
  dsimp only
  refine ⟨?_, ?_, ?_, ?_, ?_, ?_, ?_, hrecx, ?_, ?_, hco, hdst⟩
  · rw [adoptBuf_stat]
    exact h1
  · rw [adoptBuf_bufptr]
    exact h2
  · rw [adoptBuf_bufrecnum]
    exact h3
  · rw [adoptBuf_iobuffer]
    exact h5
  · rw [adoptBuf_ageindex_some]
    refine (ageMove_perm _ p _ ?_ hpget).trans h4
    rw [hlen]
    exact hpP
  · rw [adoptBuf_files, if_pos rfl]
    dsimp only
    rw [← hrecx]
  · rw [adoptBuf_files, if_pos rfl]
    dsimp only
    rw [Int.toNat_natCast, ← hrecx]
  · rw [hmodx]
  · rw [hmodx]

/-- A read-loop bottom with space left (`nspace > 0`) already satisfies the
invariant for the next group. -/
theorem rconf_noreload (s0 : CacheState) (F : Nat) (σ : Nat → Nat)
    (rn bufpos gsize offset : Nat) (src : Nat → Nat)
    (t1 : Nat) (s' : CacheState) (b' rec' : Nat) (ns' io' : Int) (co' : Nat) (dst' : Nat → Nat)
    (h1 : s'.stat = 0) (h2 : s'.bufptr = s0.bufptr) (h3 : s'.bufrecnum = s0.bufrecnum)
    (h4 : s'.ageindex.Perm (List.range NIOBUF))
    (h5 : s'.iobuffer = s0.iobuffer)
    (hposrel : ((rec' : Nat) : Int) * ((IOBUFLEN : Nat) : Int) + (((IOBUFLEN : Nat) : Int) - ns')
        = ((gpos rn bufpos gsize offset t1 : Nat) : Int))
    (hns0 : 0 < ns') (hnsL : ns' ≤ ((IOBUFLEN : Nat) : Int))
    (hio : io' = ((IOBUFLEN : Nat) : Int) - ns')
    (hb : b' = σ (rec' - rn))
    (hcurb : (s'.files F).curbuf = ((σ (rec' - rn) : Nat) : Int))
    (hco : co' = t1 * gsize)
    (hdst : ∀ j, j < t1 * gsize → dst' j = src j) :
    RConf s0 F σ rn bufpos gsize offset src t1 (s', b', rec', ns', io', co', dst') := by
  have hrec : rec' = gpos rn bufpos gsize offset t1 / IOBUFLEN := by
    simp only [IOBUFLEN] at hposrel hns0 hnsL ⊢
    omega
  have hmod : ((IOBUFLEN : Nat) : Int) - ns' =
      ((gpos rn bufpos gsize offset t1 % IOBUFLEN : Nat) : Int) := by
    simp only [IOBUFLEN] at hposrel hns0 hnsL ⊢
    omega
  unfold RConf
  dsimp only
  refine ⟨h1, h2, h3, h5, h4, ?_, ?_, hrec.symm ▸ rfl, ?_, ?_, hco, hdst⟩
  · rw [hcurb, ← hrec]
  · rw [hb, ← hrec]
  · rw [← hmod]
    omega
  · rw [hio, hmod]

end Buffers

namespace Buffers

set_option maxHeartbeats 2000000 in
/-- One non-final group of the strided read, in full generality: the group
is copied out of the current slot, spilling into the (resident, freshly
adopted) next record when it crosses, and the gap skip reloads the record
of the next group when the block is exhausted. -/
theorem rconf_step (s0 : CacheState) (F : Nat) (σ : Nat → Nat)
    (rn bufpos gsize offset ngroups rend : Nat) (src : Nat → Nat)
    (hg : 1 ≤ gsize) (hgL : gsize ≤ IOBUFLEN)
    (hctx : ResCtx s0 F σ rn rend)
    (hrend : gpos rn bufpos gsize offset (ngroups - 1) + gsize ≤ (rend + 1) * IOBUFLEN)
    (hlaid : SrcLaid s0 σ rn bufpos gsize offset ngroups src)
    (t : Nat) (ht : t + 1 ≤ ngroups - 1)
    (c : CacheState × Nat × Nat × Int × Int × Nat × (Nat → Nat))
    (hc : RConf s0 F σ rn bufpos gsize offset src t c) :
    RConf s0 F σ rn bufpos gsize offset src (t + 1)
      (ffgbytoffStep F gsize offset c.1 c.2.1 c.2.2.1 c.2.2.2.1 c.2.2.2.2.1
        c.2.2.2.2.2.1 c.2.2.2.2.2.2) := by
  obtain ⟨hstat, hbp', hbr, hiob, hperm, hcurb, hb, hr, hns, hio, hco, hdst⟩ := hc
  have hres := hctx.1
  have hinj := hctx.2.1
  rw [hb, hr, hns, hio, hco]
  set β := gpos rn bufpos gsize offset t % IOBUFLEN with hβ
  set rec := gpos rn bufpos gsize offset t / IOBUFLEN with hrecdef
  have hL : (0 : Nat) < IOBUFLEN := by decide
  have hβlt : β < IOBUFLEN := by
    rw [hβ]
    exact Nat.mod_lt _ hL
  have hdm' : rec * IOBUFLEN + β = gpos rn bufpos gsize offset t := by
    rw [hβ, hrecdef, Nat.mul_comm]
    exact Nat.div_add_mod _ _
  have hrecge : rn ≤ rec := by
    rw [hrecdef]
    exact gpos_div_ge rn bufpos gsize offset t
  have hsucc1 : gpos rn bufpos gsize offset (t + 1) =
      gpos rn bufpos gsize offset t + (gsize + offset) := gpos_succ rn bufpos gsize offset t
  have hsucc2 : (t + 1) * gsize = t * gsize + gsize := Nat.succ_mul _ _
  have htb : ∀ u q, u ≤ ngroups - 1 → q < gsize →
      gpos rn bufpos gsize offset u + q < (rend + 1) * IOBUFLEN := by
    intro u q hu hq
    have := gpos_mono rn bufpos gsize offset hu
    omega
  have hrecle : rec ≤ rend := by
    have h0 := htb t 0 (by omega) (by omega)
    have h1 := (Nat.div_lt_iff_lt_mul hL).mpr (by omega :
      gpos rn bufpos gsize offset t < (rend + 1) * IOBUFLEN)
    rw [hrecdef]
    omega
  have hrec1le : gpos rn bufpos gsize offset (t + 1) / IOBUFLEN ≤ rend := by
    have h0 := htb (t + 1) 0 ht (by omega)
    have h1 := (Nat.div_lt_iff_lt_mul hL).mpr (by omega :
      gpos rn bufpos gsize offset (t + 1) < (rend + 1) * IOBUFLEN)
    omega
  unfold ffgbytoffStep
  dsimp only
  by_cases hfit : gsize + β ≤ IOBUFLEN
  · -- the group fits in the current block
    have hmin : min ((gsize : Nat) : Int) ((IOBUFLEN : Int) - ((β : Nat) : Int)) =
        ((gsize : Nat) : Int) := by
      rw [min_eq_left]
      omega
    rw [hmin, if_neg (lt_irrefl ((gsize : Nat) : Int))]
    try dsimp only
    simp only [Int.toNat_natCast]
    have hdst1 : ∀ j, j < (t + 1) * gsize →
        ovw c.2.2.2.2.2.2 (t * gsize) gsize
          (fun j => c.1.iobuffer (σ (rec - rn)) (β + j)) j = src j := by
      intro j hj
      by_cases hj1 : j < t * gsize
      · rw [ovw_out _ _ _ _ _ (Or.inl hj1)]
        exact hdst j hj1
      · rw [ovw_in _ _ _ _ _ (by omega) (by omega)]
        show c.1.iobuffer (σ (rec - rn)) (β + (j - t * gsize)) = src j
        rw [hiob]
        have hv := hlaid t (j - t * gsize) (by omega) (by omega)
        have hsplit : gpos rn bufpos gsize offset t + (j - t * gsize) =
            IOBUFLEN * rec + (β + (j - t * gsize)) := by
          simp only [IOBUFLEN] at *
          omega
        have hq1 : (gpos rn bufpos gsize offset t + (j - t * gsize)) / IOBUFLEN = rec := by
          rw [hsplit, Nat.mul_add_div hL,
            Nat.div_eq_of_lt (by simp only [IOBUFLEN] at *; omega), Nat.add_zero]
        have hq2 : (gpos rn bufpos gsize offset t + (j - t * gsize)) % IOBUFLEN =
            β + (j - t * gsize) := by
          rw [hsplit, Nat.mul_add_mod, Nat.mod_eq_of_lt (by simp only [IOBUFLEN] at *; omega)]
        rw [hq1, hq2] at hv
        rw [hv]
        congr 1
        omega
    split
    · rename_i hle
      refine rconf_reload s0 F σ rn bufpos gsize offset rend src hctx (t + 1) c.1 _ _ _ _
        hstat hbp' hbr hperm hiob ?_ hle hrec1le hrecge ?_ hdst1
      · simp only [IOBUFLEN] at *
        omega
      · simp only [IOBUFLEN] at *
        omega
    · rename_i hgt
      refine rconf_noreload s0 F σ rn bufpos gsize offset src (t + 1) c.1 _ _ _ _ _ _
        hstat hbp' hbr hperm hiob ?_ (by simp only [IOBUFLEN] at *; omega) ?_ ?_ rfl hcurb ?_
        hdst1
      · simp only [IOBUFLEN] at *
        omega
      · simp only [IOBUFLEN] at *
        omega
      · simp only [IOBUFLEN] at *
        omega
      · simp only [IOBUFLEN] at *
        omega
  · -- the group crosses into the next record
    have hrec1 : rec + 1 ≤ rend := by
      have h1 := htb t (gsize - 1) (by omega) (by omega)
      simp only [IOBUFLEN] at *
      omega
    have hmin : min ((gsize : Nat) : Int) ((IOBUFLEN : Int) - ((β : Nat) : Int)) =
        (IOBUFLEN : Int) - ((β : Nat) : Int) := by
      rw [min_eq_right]
      omega
    rw [hmin, if_pos (by omega : (IOBUFLEN : Int) - ((β : Nat) : Int) < ((gsize : Nat) : Int))]
    try dsimp only
    simp only [Int.toNat_natCast]
    rw [show ((IOBUFLEN : Int) - ((β : Nat) : Int)).toNat = IOBUFLEN - β from by omega]
    have hresx := hres (rec + 1 - rn) (by omega)
    obtain ⟨p, hpP, hpget, hffl⟩ :=
      ffldrc_hit c.1 F (rec + 1) (σ (rec + 1 - rn)) REPORT_EOF
        hperm hresx.2.2
        (by
          rw [hbp']
          exact hresx.1)
        (by
          rw [hbr, hresx.2.1]
          omega)
        (by
          intro b hb' hbp1 hbr1
          rw [hbp'] at hbp1
          rw [hbr] at hbr1
          exact hctx.2.2 b (rec + 1 - rn) hb' (by omega) hbp1 (by omega))
    rw [hffl]
    have hb1 : (((adoptBuf c.1 F (σ (rec + 1 - rn)) (some p)).files F).curbuf).toNat =
        σ (rec + 1 - rn) := by
      rw [adoptBuf_files, if_pos rfl]
      dsimp only
      rw [Int.toNat_natCast]
    rw [hb1]
    set s3 := adoptBuf c.1 F (σ (rec + 1 - rn)) (some p) with hs3
    have hlen : c.1.ageindex.length = NIOBUF := by simpa using hperm.length_eq
    have h1s : s3.stat = 0 := by
      rw [hs3, adoptBuf_stat]
      exact hstat
    have h2s : s3.bufptr = s0.bufptr := by
      rw [hs3, adoptBuf_bufptr]
      exact hbp'
    have h3s : s3.bufrecnum = s0.bufrecnum := by
      rw [hs3, adoptBuf_bufrecnum]
      exact hbr
    have h5s : s3.iobuffer = s0.iobuffer := by
      rw [hs3, adoptBuf_iobuffer]
      exact hiob
    have h4s : s3.ageindex.Perm (List.range NIOBUF) := by
      rw [hs3, adoptBuf_ageindex_some]
      refine (ageMove_perm _ p _ ?_ hpget).trans hperm
      rw [hlen]
      exact hpP
    have hcurb3 : (s3.files F).curbuf = ((σ (rec + 1 - rn) : Nat) : Int) := by
      rw [hs3, adoptBuf_files, if_pos rfl]
    have hdst2 : ∀ j, j < (t + 1) * gsize →
        ovw (ovw c.2.2.2.2.2.2 (t * gsize) (IOBUFLEN - β)
            (fun j => c.1.iobuffer (σ (rec - rn)) (β + j)))
          (t * gsize + (IOBUFLEN - β)) (gsize - (IOBUFLEN - β))
          (fun j => s3.iobuffer (σ (rec + 1 - rn)) j) j = src j := by
      intro j hj
      by_cases hj1 : j < t * gsize
      · rw [ovw_out _ _ _ _ _ (Or.inl (by omega)), ovw_out _ _ _ _ _ (Or.inl hj1)]
        exact hdst j hj1
      · by_cases hj2 : j < t * gsize + (IOBUFLEN - β)
        · rw [ovw_out _ _ _ _ _ (Or.inl hj2), ovw_in _ _ _ _ _ (by omega) hj2]
          show c.1.iobuffer (σ (rec - rn)) (β + (j - t * gsize)) = src j
          rw [hiob]
          have hv := hlaid t (j - t * gsize) (by omega)
            (by simp only [IOBUFLEN] at *; omega)
          have hsplit : gpos rn bufpos gsize offset t + (j - t * gsize) =
              IOBUFLEN * rec + (β + (j - t * gsize)) := by
            simp only [IOBUFLEN] at *
            omega
          have hq1 : (gpos rn bufpos gsize offset t + (j - t * gsize)) / IOBUFLEN = rec := by
            rw [hsplit, Nat.mul_add_div hL,
              Nat.div_eq_of_lt (by simp only [IOBUFLEN] at *; omega), Nat.add_zero]
          have hq2 : (gpos rn bufpos gsize offset t + (j - t * gsize)) % IOBUFLEN =
              β + (j - t * gsize) := by
            rw [hsplit, Nat.mul_add_mod,
              Nat.mod_eq_of_lt (by simp only [IOBUFLEN] at *; omega)]
          rw [hq1, hq2] at hv
          rw [hv]
          congr 1
          omega
        · rw [ovw_in _ _ _ _ _ (by omega) (by simp only [IOBUFLEN] at *; omega)]
          show s3.iobuffer (σ (rec + 1 - rn)) (j - (t * gsize + (IOBUFLEN - β))) = src j
          rw [h5s]
          have hv := hlaid t (j - t * gsize) (by omega) (by omega)
          have hsplit : gpos rn bufpos gsize offset t + (j - t * gsize) =
              IOBUFLEN * (rec + 1) + (j - (t * gsize + (IOBUFLEN - β))) := by
            simp only [IOBUFLEN] at *
            omega
          have hq1 : (gpos rn bufpos gsize offset t + (j - t * gsize)) / IOBUFLEN =
              rec + 1 := by
            rw [hsplit, Nat.mul_add_div hL,
              Nat.div_eq_of_lt (by simp only [IOBUFLEN] at *; omega), Nat.add_zero]
          have hq2 : (gpos rn bufpos gsize offset t + (j - t * gsize)) % IOBUFLEN =
              j - (t * gsize + (IOBUFLEN - β)) := by
            rw [hsplit, Nat.mul_add_mod,
              Nat.mod_eq_of_lt (by simp only [IOBUFLEN] at *; omega)]
          rw [hq1, hq2] at hv
          rw [hv]
          congr 1
          omega
    split
    · rename_i hle
      refine rconf_reload s0 F σ rn bufpos gsize offset rend src hctx (t + 1) s3 _ _ _ _
        h1s h2s h3s h4s h5s ?_ hle hrec1le (by omega) ?_ hdst2
      · simp only [IOBUFLEN] at *
        omega
      · simp only [IOBUFLEN] at *
        omega
    · rename_i hgt
      refine rconf_noreload s0 F σ rn bufpos gsize offset src (t + 1) s3 _ _ _ _ _ _
        h1s h2s h3s h4s h5s ?_ (by simp only [IOBUFLEN] at *; omega) ?_ ?_ rfl hcurb3 ?_
        hdst2
      · simp only [IOBUFLEN] at *
        omega
      · simp only [IOBUFLEN] at *
        omega
      · simp only [IOBUFLEN] at *
        omega
      · simp only [IOBUFLEN] at *
        omega

end Buffers

namespace Buffers

/-- Iterating the read step preserves the loop invariant. -/
theorem rconf_loop (s0 : CacheState) (F : Nat) (σ : Nat → Nat)
    (rn bufpos gsize offset ngroups rend : Nat) (src : Nat → Nat)
    (hg : 1 ≤ gsize) (hgL : gsize ≤ IOBUFLEN)
    (hctx : ResCtx s0 F σ rn rend)
    (hrend : gpos rn bufpos gsize offset (ngroups - 1) + gsize ≤ (rend + 1) * IOBUFLEN)
    (hlaid : SrcLaid s0 σ rn bufpos gsize offset ngroups src) :
    ∀ fuel t0 c, t0 + fuel ≤ ngroups - 1 →
      RConf s0 F σ rn bufpos gsize offset src t0 c →
      RConf s0 F σ rn bufpos gsize offset src (t0 + fuel)
        (ffgbytoffLoop F gsize offset fuel c) := by
  intro fuel
  induction fuel with
  | zero =>
    intro t0 c h hc
    simpa using hc
  | succ k ih =>
    intro t0 c h hc
    have hstep := rconf_step s0 F σ rn bufpos gsize offset ngroups rend src hg hgL hctx
      hrend hlaid t0 (by omega) c hc
    have hrec := ih (t0 + 1)
      (ffgbytoffStep F gsize offset c.1 c.2.1 c.2.2.1 c.2.2.2.1 c.2.2.2.2.1
        c.2.2.2.2.2.1 c.2.2.2.2.2.2)
      (by omega) hstep
    rw [show t0 + (k + 1) = t0 + 1 + k from by omega]
    exact hrec

end Buffers

namespace Buffers

set_option maxHeartbeats 2000000 in
/-- Full characterisation of a strided read over resident records holding
the laid-out source: the destination receives exactly the source bytes. -/
theorem ffgbytoff_strided (s0 : CacheState) (F : Nat) (σ : Nat → Nat)
    (rn bufpos gsize offset ngroups rend : Nat) (src dst : Nat → Nat)
    (hg : 1 ≤ gsize) (hgL : gsize ≤ IOBUFLEN) (hng : 1 ≤ ngroups)
    (hbp0 : bufpos < IOBUFLEN)
    (hstat : s0.stat = 0)
    (hperm : s0.ageindex.Perm (List.range NIOBUF))
    (hctx : ResCtx s0 F σ rn rend)
    (hrend : gpos rn bufpos gsize offset (ngroups - 1) + gsize ≤ (rend + 1) * IOBUFLEN)
    (hlaid : SrcLaid s0 σ rn bufpos gsize offset ngroups src)
    (hcb : (s0.files F).curbuf = ((σ 0 : Nat) : Int))
    (hfbp : (s0.files F).bytepos = rn * IOBUFLEN + bufpos) :
    ∀ j, j < ngroups * gsize → (ffgbytoff s0 F gsize ngroups offset dst).2 j = src j := by
  have hL : (0 : Nat) < IOBUFLEN := by decide
  have hres := hctx.1
  have hinj := hctx.2.1
  have hrn : s0.bufrecnum (σ 0) = rn := by
    have := (hres 0 (by omega)).2.1
    omega
  have hsm : ngroups * gsize = (ngroups - 1) * gsize + gsize := by
    have h2 := Nat.succ_mul (ngroups - 1) gsize
    have h3 : ngroups - 1 + 1 = ngroups := by omega
    rw [Nat.succ_eq_add_one, h3] at h2
    exact h2
  intro j hj
  unfold ffgbytoff
  rw [if_neg (by omega)]
  dsimp only
  rw [hcb, Int.toNat_natCast, hrn, hfbp]
  rw [show ((rn * IOBUFLEN + bufpos : Nat) : Int) - ((rn : Nat) : Int) * ((IOBUFLEN : Nat) : Int)
      = ((bufpos : Nat) : Int) from by push_cast; ring]
  have hgp0 : gpos rn bufpos gsize offset 0 = IOBUFLEN * rn + bufpos := by
    simp only [gpos, IOBUFLEN]
    omega
  have hdiv0 : gpos rn bufpos gsize offset 0 / IOBUFLEN = rn := by
    rw [hgp0, Nat.mul_add_div hL, Nat.div_eq_of_lt hbp0, Nat.add_zero]
  have hmod0 : gpos rn bufpos gsize offset 0 % IOBUFLEN = bufpos := by
    rw [hgp0, Nat.mul_add_mod, Nat.mod_eq_of_lt hbp0]
  have hR0 : RConf s0 F σ rn bufpos gsize offset src 0
      (s0, σ 0, rn, (IOBUFLEN : Int) - ((bufpos : Nat) : Int), ((bufpos : Nat) : Int), 0,
        dst) := by
    unfold RConf
    dsimp only
    rw [hdiv0, hmod0, Nat.sub_self]
    refine ⟨hstat, rfl, rfl, rfl, hperm, hcb, rfl, rfl, rfl, rfl, by omega, ?_⟩
    intro j' hj'
    omega
  have hRf := rconf_loop s0 F σ rn bufpos gsize offset ngroups rend src hg hgL hctx hrend
    hlaid (ngroups - 1) 0
    (s0, σ 0, rn, (IOBUFLEN : Int) - ((bufpos : Nat) : Int), ((bufpos : Nat) : Int), 0, dst)
    (by omega) hR0
  rw [Nat.zero_add] at hRf
  set cf := ffgbytoffLoop F gsize offset (ngroups - 1)
    (s0, σ 0, rn, (IOBUFLEN : Int) - ((bufpos : Nat) : Int), ((bufpos : Nat) : Int), 0, dst)
    with hcf
  obtain ⟨h1f, h2f, h3f, h5f, h4f, hcbf, hbf, hrf, hnsf, hiof, hcof, hdstf⟩ := hRf
  rw [hbf, hrf, hnsf, hiof, hcof]
  set β := gpos rn bufpos gsize offset (ngroups - 1) % IOBUFLEN with hβ
  set rec := gpos rn bufpos gsize offset (ngroups - 1) / IOBUFLEN with hrecdef
  have hβlt : β < IOBUFLEN := by
    rw [hβ]
    exact Nat.mod_lt _ hL
  have hdm' : rec * IOBUFLEN + β = gpos rn bufpos gsize offset (ngroups - 1) := by
    rw [hβ, hrecdef, Nat.mul_comm]
    exact Nat.div_add_mod _ _
  have hrecge : rn ≤ rec := by
    rw [hrecdef]
    exact gpos_div_ge rn bufpos gsize offset _
  have hrecle : rec ≤ rend := by
    have h1 := (Nat.div_lt_iff_lt_mul hL).mpr (by omega :
      gpos rn bufpos gsize offset (ngroups - 1) < (rend + 1) * IOBUFLEN)
    rw [hrecdef]
    omega
  by_cases hfit : gsize + β ≤ IOBUFLEN
  · -- the last group fits in its block
    have hmin : min ((gsize : Nat) : Int) ((IOBUFLEN : Int) - ((β : Nat) : Int)) =
        ((gsize : Nat) : Int) := by
      rw [min_eq_left]
      omega
    rw [hmin, if_neg (lt_irrefl ((gsize : Nat) : Int))]
    try dsimp only
    simp only [Int.toNat_natCast]
    by_cases hj1 : j < (ngroups - 1) * gsize
    · rw [ovw_out _ _ _ _ _ (Or.inl hj1)]
      exact hdstf j hj1
    · rw [ovw_in _ _ _ _ _ (by omega) (by omega)]
      show cf.1.iobuffer (σ (rec - rn)) (β + (j - (ngroups - 1) * gsize)) = src j
      rw [h5f]
      have hv := hlaid (ngroups - 1) (j - (ngroups - 1) * gsize) (by omega) (by omega)
      have hsplit : gpos rn bufpos gsize offset (ngroups - 1) + (j - (ngroups - 1) * gsize) =
          IOBUFLEN * rec + (β + (j - (ngroups - 1) * gsize)) := by
        simp only [IOBUFLEN] at *
        omega
      have hq1 : (gpos rn bufpos gsize offset (ngroups - 1) +
          (j - (ngroups - 1) * gsize)) / IOBUFLEN = rec := by
        rw [hsplit, Nat.mul_add_div hL,
          Nat.div_eq_of_lt (by simp only [IOBUFLEN] at *; omega), Nat.add_zero]
      have hq2 : (gpos rn bufpos gsize offset (ngroups - 1) +
          (j - (ngroups - 1) * gsize)) % IOBUFLEN = β + (j - (ngroups - 1) * gsize) := by
        rw [hsplit, Nat.mul_add_mod, Nat.mod_eq_of_lt (by simp only [IOBUFLEN] at *; omega)]
      rw [hq1, hq2] at hv
      rw [hv]
      congr 1
      omega
  · -- the last group crosses into the next record
    have hrec1 : rec + 1 ≤ rend := by
      simp only [IOBUFLEN] at *
      omega
    have hmin : min ((gsize : Nat) : Int) ((IOBUFLEN : Int) - ((β : Nat) : Int)) =
        (IOBUFLEN : Int) - ((β : Nat) : Int) := by
      rw [min_eq_right]
      omega
    rw [hmin, if_pos (by omega : (IOBUFLEN : Int) - ((β : Nat) : Int) < ((gsize : Nat) : Int))]
    try dsimp only
    simp only [Int.toNat_natCast]
    rw [show ((IOBUFLEN : Int) - ((β : Nat) : Int)).toNat = IOBUFLEN - β from by omega]
    have hresx := hres (rec + 1 - rn) (by omega)
    obtain ⟨p, hpP, hpget, hffl⟩ :=
      ffldrc_hit cf.1 F (rec + 1) (σ (rec + 1 - rn)) REPORT_EOF
        h4f hresx.2.2
        (by
          rw [h2f]
          exact hresx.1)
        (by
          rw [h3f, hresx.2.1]
          omega)
        (by
          intro b hb' hbp1 hbr1
          rw [h2f] at hbp1
          rw [h3f] at hbr1
          exact hctx.2.2 b (rec + 1 - rn) hb' (by omega) hbp1 (by omega))
    rw [hffl]
    have hb1 : (((adoptBuf cf.1 F (σ (rec + 1 - rn)) (some p)).files F).curbuf).toNat =
        σ (rec + 1 - rn) := by
      rw [adoptBuf_files, if_pos rfl]
      dsimp only
      rw [Int.toNat_natCast]
    rw [hb1]
    set s3 := adoptBuf cf.1 F (σ (rec + 1 - rn)) (some p) with hs3
    have h5s : s3.iobuffer = s0.iobuffer := by
      rw [hs3, adoptBuf_iobuffer]
      exact h5f
    by_cases hj1 : j < (ngroups - 1) * gsize
    · rw [ovw_out _ _ _ _ _ (Or.inl (by omega)), ovw_out _ _ _ _ _ (Or.inl hj1)]
      exact hdstf j hj1
    · by_cases hj2 : j < (ngroups - 1) * gsize + (IOBUFLEN - β)
      · rw [ovw_out _ _ _ _ _ (Or.inl hj2), ovw_in _ _ _ _ _ (by omega) hj2]
        show cf.1.iobuffer (σ (rec - rn)) (β + (j - (ngroups - 1) * gsize)) = src j
        rw [h5f]
        have hv := hlaid (ngroups - 1) (j - (ngroups - 1) * gsize) (by omega)
          (by simp only [IOBUFLEN] at *; omega)
        have hsplit : gpos rn bufpos gsize offset (ngroups - 1) +
            (j - (ngroups - 1) * gsize) =
            IOBUFLEN * rec + (β + (j - (ngroups - 1) * gsize)) := by
          simp only [IOBUFLEN] at *
          omega
        have hq1 : (gpos rn bufpos gsize offset (ngroups - 1) +
            (j - (ngroups - 1) * gsize)) / IOBUFLEN = rec := by
          rw [hsplit, Nat.mul_add_div hL,
            Nat.div_eq_of_lt (by simp only [IOBUFLEN] at *; omega), Nat.add_zero]
        have hq2 : (gpos rn bufpos gsize offset (ngroups - 1) +
            (j - (ngroups - 1) * gsize)) % IOBUFLEN =
            β + (j - (ngroups - 1) * gsize) := by
          rw [hsplit, Nat.mul_add_mod,
            Nat.mod_eq_of_lt (by simp only [IOBUFLEN] at *; omega)]
        rw [hq1, hq2] at hv
        rw [hv]
        congr 1
        omega
      · rw [ovw_in _ _ _ _ _ (by omega) (by simp only [IOBUFLEN] at *; omega)]
        show s3.iobuffer (σ (rec + 1 - rn))
          (j - ((ngroups - 1) * gsize + (IOBUFLEN - β))) = src j
        rw [h5s]
        have hv := hlaid (ngroups - 1) (j - (ngroups - 1) * gsize) (by omega) (by omega)
        have hsplit : gpos rn bufpos gsize offset (ngroups - 1) +
            (j - (ngroups - 1) * gsize) =
            IOBUFLEN * (rec + 1) + (j - ((ngroups - 1) * gsize + (IOBUFLEN - β))) := by
          simp only [IOBUFLEN] at *
          omega
        have hq1 : (gpos rn bufpos gsize offset (ngroups - 1) +
            (j - (ngroups - 1) * gsize)) / IOBUFLEN = rec + 1 := by
          rw [hsplit, Nat.mul_add_div hL,
            Nat.div_eq_of_lt (by simp only [IOBUFLEN] at *; omega), Nat.add_zero]
        have hq2 : (gpos rn bufpos gsize offset (ngroups - 1) +
            (j - (ngroups - 1) * gsize)) % IOBUFLEN =
            j - ((ngroups - 1) * gsize + (IOBUFLEN - β)) := by
          rw [hsplit, Nat.mul_add_mod,
            Nat.mod_eq_of_lt (by simp only [IOBUFLEN] at *; omega)]
        rw [hq1, hq2] at hv
        rw [hv]
        congr 1
        omega

end Buffers

namespace Buffers

set_option maxHeartbeats 1000000 in
/-- C8.  Strided round trip: for every geometry `gsize ≥ 1`, `ngroups ≥ 1`,
`gap ≥ 0` (with `gsize ≤ IOBUFLEN`, the envelope in which the C loops'
single-spill crossing step is well defined), over records that are resident
in the pool, `ffpbytoff` followed by a seek back and `ffgbytoff` over the
same geometry and starting position returns exactly the written bytes —
including every geometry whose groups or gap skips cross `IOBUFLEN` record
boundaries. -/
theorem strided_round_trip_cross (st : CacheState) (F : Nat) (σ : Nat → Nat)
    (rn rend bufpos gsize ngroups offset : Nat) (src dst : Nat → Nat)
    (hg : 1 ≤ gsize) (hgL : gsize ≤ IOBUFLEN) (hng : 1 ≤ ngroups)
    (hbp0 : bufpos < IOBUFLEN)
    (hstat : st.stat = 0)
    (hperm : st.ageindex.Perm (List.range NIOBUF))
    (hctx : ResCtx st F σ rn rend)
    (hrend : gpos rn bufpos gsize offset (ngroups - 1) + gsize ≤ (rend + 1) * IOBUFLEN)
    (hcb : (st.files F).curbuf = ((σ 0 : Nat) : Int))
    (hfbp : (st.files F).bytepos = rn * IOBUFLEN + bufpos) :
    ∀ j, j < ngroups * gsize →
      (ffgbytoff
        (ffmbyt (ffpbytoff st F gsize ngroups offset src) F
          ((rn * IOBUFLEN + bufpos : Nat) : Int) IGNORE_EOF)
        F gsize ngroups offset dst).2 j = src j := by
  obtain ⟨i, hi, h1w, h2w, h3w, h4w, hcbw, hcontw⟩ :=
    ffpbytoff_strided st F σ rn bufpos gsize offset ngroups rend src hg hgL hng hbp0
      hstat hperm hctx hrend hcb hfbp
  set sw := ffpbytoff st F gsize ngroups offset src with hsw
  have hctxw : ResCtx sw F σ rn rend := by
    refine ⟨?_, hctx.2.1, ?_⟩
    · intro i' hi'
      rw [h2w, h3w]
      exact hctx.1 i' hi'
    · intro b i' hb hi' hbp hbr
      rw [h2w] at hbp
      rw [h3w] at hbr
      exact hctx.2.2 b i' hb hi' hbp hbr
  obtain ⟨h1m, h2m, h3m, h5m, h4m, hcbm, hbpm⟩ :=
    ffmbyt_strided sw F σ rn rend bufpos i IGNORE_EOF h1w h4w hctxw hbp0 hi hcbw
  set sm := ffmbyt sw F ((rn * IOBUFLEN + bufpos : Nat) : Int) IGNORE_EOF with hsm
  have hctxm : ResCtx sm F σ rn rend := by
    refine ⟨?_, hctx.2.1, ?_⟩
    · intro i' hi'
      rw [h2m, h3m, h2w, h3w]
      exact hctx.1 i' hi'
    · intro b i' hb hi' hbp hbr
      rw [h2m, h2w] at hbp
      rw [h3m, h3w] at hbr
      exact hctx.2.2 b i' hb hi' hbp hbr
  have hlaidm : SrcLaid sm σ rn bufpos gsize offset ngroups src := by
    intro t q ht hq
    rw [h5m]
    exact hcontw t q ht hq
  exact ffgbytoff_strided sm F σ rn bufpos gsize offset ngroups rend src dst hg hgL hng
    hbp0 h1m h4m hctxm hrend hlaidm hcbm hbpm

/-- A file state for the crossing round-trip witness. -/
def crossFile : FITSfile :=
  { bytepos := 0, io_pos := 0, filesize := 5760, logfilesize := 5760, curbuf := 0,
    hdutype := 0, rowlength := 0, numrows := 0, datastart := 0, typecode := 0 }

/-- A cache state holding records 0 and 1 of file 0 in slots 0 and 1: two
groups of 2000 bytes with a 100-byte gap span both records, and the second
group crosses the record boundary at 2880. -/
def crossState : CacheState :=
  { iobuffer := fun _ _ => 0
    bufptr := fun b => if b < 2 then some 0 else none
    bufrecnum := fun b => b
    dirty := fun _ => false
    ageindex := List.range NIOBUF
    ageinit := true
    files := fun _ => crossFile
    disk := fun _ _ => 0
    disklen := fun _ => 0
    ospos := fun _ => 0
    stat := 0
    werr := []
    wlog := [] }

/-- Witness for C8 at a block-crossing geometry: two groups of 2000 bytes
with gap 100 from offset 0 of record 0; the second group occupies flat
positions 2100–4099 and so straddles the record boundary at 2880.  Byte
3000 lies in the spilled tail of the crossing group. -/
theorem strided_round_trip_cross_witness :
    ((1 : Nat) ≤ 2000 ∧ 2000 ≤ IOBUFLEN ∧ (1 : Nat) ≤ 2 ∧ (0 : Nat) < IOBUFLEN ∧
      crossState.stat = 0 ∧ ResCtx crossState 0 (fun i => i) 0 1 ∧
      gpos 0 0 2000 100 (2 - 1) + 2000 ≤ (1 + 1) * IOBUFLEN ∧
      IOBUFLEN < gpos 0 0 2000 100 (2 - 1) % IOBUFLEN + 2000 ∧
      (3000 : Nat) < 2 * 2000) ∧
    (ffgbytoff
      (ffmbyt (ffpbytoff crossState 0 2000 2 100 (fun n => n + 3)) 0
        ((0 * IOBUFLEN + 0 : Nat) : Int) IGNORE_EOF)
      0 2000 2 100 (fun _ => 0)).2 3000 = (fun n => n + 3) 3000 := by
  have hctx : ResCtx crossState 0 (fun i => i) 0 1 := by
    refine ⟨?_, ?_, ?_⟩
    · intro i hi
      refine ⟨?_, ?_, ?_⟩
      · show (if i < 2 then some 0 else none) = some 0
        rw [if_pos (by omega)]
      · show i = 0 + i
        omega
      · show i < NIOBUF
        simp only [NIOBUF]
        omega
    · intro i j _ _ h
      exact h
    · intro b i hb hi h1 h2
      have h3 : b = 0 + i := h2
      show b = i
      omega
  refine ⟨⟨by decide, by decide, by decide, by decide, rfl, hctx, by decide, by decide,
    by decide⟩, ?_⟩
  exact strided_round_trip_cross crossState 0 (fun i => i) 0 1 0 2000 2 100
    (fun n => n + 3) (fun _ => 0) (by decide) (by decide) (by decide) (by decide) rfl
    (List.Perm.refl _) hctx (by decide) (by decide) (by decide) 3000 (by decide)

end Buffers
